import Mathlib

/-!
livedb: a shallow embedding of the temporal write engine.

The Go package `livedb` keeps, for every table `T`, a version table `T` and an
identity table `Tid` in an SQL database and offers a Writer (`Start`, `Change`,
`Terminate`, `MoveBegin`, `MoveUntil`) on top of a handful of DML primitives
(`ins`, `upd`, `del`, `begin`, `until`) and point reads (`byKey`, `byIDBegin`,
`byIDUntil`). Beside the Writer the embedding covers the timestamp functions
(`IsTmsp`, `Tmsp`, `CmpTmspNow`, `CmpTmspRef`), the read `ByTs`, the error
texts of `Table.Query`, and `Table.Create`.

The embedding follows the default (SQLite) build of the package:

* the database is a value `DB`: the rows of both tables, the two
  auto-increment counters, and the number of statements executed so far;
* the SQL engine itself is not part of the package; what the package relies
  on is collected in `Engine`: the rendering of a timestamp parameter
  (`FormatTmsp`, NULL for an invalid one, and every text with a byte above
  127 is invalid), the epoch seconds of a timestamp, the clock (read once per
  statement), and the column constraints that the descriptor's `Defs` declare
  for the domain columns;
* the constraints that the package itself declares are part of the statement
  semantics: `not null` on `id`, `begin`, `createdby`, the auto-increment
  primary keys, and the unique index on `(id, begin)`;
* a Go function that returns `(value, error)` is a function into
  `Except Failure value` paired with the database after the call (with the
  error the Go function returns the zero values of its other results: key 0,
  the empty string, false); a run-time
  panic (indexing an empty slice, calling a nil function) is a `Failure` of
  its own, because the caller gets no error value in that case;
* where a function is about the statements it issues rather than about the
  rows (`Table.Create`, the errors of `Table.Query`), the database is a
  `Driver` or an `Answer`: what the driver replies to each statement;
* a Go string is a Lean string, that is, UTF-8 text; strings are compared
  as Go compares them (`strLt`), and `len(s)` and the slice `s[:19]` count
  the bytes of the text (`len`, `first19`), so that a string of 18 characters
  one of which takes two bytes has length 19.
-/

namespace Livedb

/-! ## Errors -/

/-- The error kinds of the package, one per `Err{Fix: ...}` text. -/
inductive Err where
  /-- LIVEDB:(name) missing -/
  | missing (name : String)
  /-- LIVEDB:write access needs transaction object -/
  | needsTx
  /-- LIVEDB:table name missing -/
  | tableNameMissing
  /-- LIVEDB:timestamp (name) too short -/
  | tooShort (name : String)
  /-- LIVEDB:not a valid timestamp -/
  | notValidTimestamp
  /-- LIVEDB:cannot change the past -/
  | cannotChangePast (ts : String)
  /-- LIVEDB:error scanning row -/
  | scanningRow
  /-- LIVEDB:not allowed -/
  | notAllowed
  /-- LIVEDB:competetively deleted -/
  | competitivelyDeleted
  /-- LIVEDB:competetively changed -/
  | competitivelyChanged
  /-- LIVEDB:error executing insert -/
  | executingInsert
  /-- LIVEDB:error executing update -/
  | executingUpdate
  /-- LIVEDB:nothing updated -/
  | nothingUpdated
  /-- LIVEDB:nothing deleted -/
  | nothingDeleted
  /-- LIVEDB:ID-table not updated -/
  | idTableNotUpdated
  /-- LIVEDB:error executing query:(query) -/
  | executingQuery (query : String)
  /-- LIVEDB:error at scan(rows) for query:(query) -/
  | scanQuery (query : String)
  /-- LIVEDB:error at rows.Next for query:(query) -/
  | nextQuery (query : String)
  /-- LIVEDB:access needs at least database object -/
  | accessNeedsDb
  /-- LIVEDB:create needs database object -/
  | createNeedsDb
  /-- LIVEDB:table (name) exists, table (nam2) is missing -/
  | tableExists (name nam2 : String)
  /-- LIVEDB:error creating table by:(query) -/
  | creatingTable (query : String)
  /-- LIVEDB:error creating index by:(query) -/
  | creatingIndex (query : String)
  deriving DecidableEq, Repr

/-- How a call can fail: with an error value, with a Go run-time panic, or
(in the model only) by using up the fuel of a loop. -/
inductive Failure where
  | err (e : Err)
  /-- index out of range on an empty slice, or a call of a nil function -/
  | crash
  /-- the loop bound of the model was reached; `writer_loops_total` shows that
  no Writer operation ends this way -/
  | fuel
  deriving DecidableEq, Repr

/-! ## Strings -/

/-- The keyword that can be used instead of a timestamp string. -/
def Now : String := "now"

/-- Go's `<` on strings: lexicographic order of the bytes, which for UTF-8
text is the lexicographic order of the characters. -/
abbrev strLt (a b : String) : Prop := a.data < b.data

/-- The bytes of one character in UTF-8. -/
def utf8Char (c : Char) : List Nat :=
  let v := c.toNat
  if v < 0x80 then [v]
  else if v < 0x800 then [0xC0 + v / 0x40, 0x80 + v % 0x40]
  else if v < 0x10000 then [0xE0 + v / 0x1000, 0x80 + v / 0x40 % 0x40, 0x80 + v % 0x40]
  else [0xF0 + v / 0x40000, 0x80 + v / 0x1000 % 0x40, 0x80 + v / 0x40 % 0x40, 0x80 + v % 0x40]

/-- The bytes of a text in UTF-8. -/
def bytesOf : List Char → List Nat
  | [] => []
  | c :: cs => utf8Char c ++ bytesOf cs

/-- The bytes a Go string consists of. -/
def bytes (s : String) : List Nat := bytesOf s.data

/-- Go's `len(s)`: the number of bytes. -/
def len (s : String) : Nat := (bytes s).length

/-- The slice `s[:19]`: the first 19 bytes. -/
def first19 (s : String) : List Nat := (bytes s).take 19

/-! ## The database -/

/-- One row of the version table, columns in the order of `StdAtts`,
followed by the domain columns (a NULL is `none`); the column `until` is
spelled `until_` because the bare word is reserved. -/
structure Row where
  id : Int
  begin : String
  until_ : Option String
  pkey : Int
  created : String
  createdby : String
  ended : Option String
  endedby : Option String
  vals : List (Option String)
  deriving DecidableEq, Repr

/-- One row of the identity table, columns in the order of `stdIDAtts`. -/
structure IDRow where
  id : Int
  created : String
  createdby : String
  usedby : Option String
  deriving DecidableEq, Repr

/-- The state of the database as one transaction sees it. -/
structure DB where
  /-- version table -/
  rows : List Row
  /-- identity table -/
  ids : List IDRow
  /-- largest `pkey` the auto-increment of the version table has handed out -/
  seqKey : Int
  /-- largest `id` the auto-increment of the identity table has handed out -/
  seqID : Int
  /-- number of statements executed so far; indexes the clock -/
  tick : Nat
  deriving DecidableEq, Repr

/-- What the package uses of the SQL engine. -/
structure Engine where
  /-- the value of `strftime('%Y-%m-%d %H:%M:%f',?)`; `none` is NULL -/
  formatTmsp : String → Option String
  /-- the value of `strftime('%s',?)` for a parameter given by its bytes;
  `none` is NULL -/
  seconds : List Nat → Option Int
  /-- the value of `strftime('%Y-%m-%d %H:%M:%f','now')` in the n-th statement -/
  clock : Nat → String
  /-- the value of `strftime('%s','now')` in the n-th statement -/
  clockSeconds : Nat → Int
  /-- whether the domain columns satisfy the constraints declared by `Defs` -/
  domainOk : List (Option String) → Bool
  /-- a time value is ASCII text: its characters are digits, the separators
  `-`, `:`, `.`, `+`, blank, `T`, `Z`, or the letters of `now`, so for a text
  with a byte above 127 the engine answers NULL -/
  ascii : ∀ s c, (formatTmsp s).isSome = true → c ∈ s.data → c.toNat < 128

/-- The database after one more statement. -/
def DB.next (db : DB) : DB := { db with tick := db.tick + 1 }

/-- A database call: it returns a value or fails, and leaves a database. -/
def M (β : Type) : Type := DB → Except Failure β × DB

instance : Monad M where
  pure a := fun db => (.ok a, db)
  bind m f := fun db =>
    match m db with
    | (.ok a, db1) => f a db1
    | (.error x, db1) => (.error x, db1)

/-- Return the error `e`. -/
def fail {β : Type} (e : Err) : M β := fun db => (.error (.err e), db)

/-- A Go run-time panic. -/
def crash {β : Type} : M β := fun db => (.error .crash, db)

/-- The loop bound of the model is used up. -/
def noFuel {β : Type} : M β := fun db => (.error .fuel, db)

/-! ## Records and the table descriptor -/

/-- Std consists of all the livedb standard attributes. -/
structure Std where
  ID : Int := 0
  Begin : String := ""
  Until : String := ""
  Pkey : Int := 0
  Created : String := ""
  CreatedBy : String := ""
  Ended : String := ""
  EndedBy : String := ""
  deriving DecidableEq, Repr

/-- Record combines livedb standard and individual attributes; `Idv` is an
interface value in Go, `none` is nil. -/
structure Record (α : Type) where
  Std : Std := {}
  Idv : Option α := none
  deriving DecidableEq, Repr

/-- The table descriptor. A nil slice or nil function is `none`. The row
scanner of the descriptor is split in two: the std block is scanned in the
column order the package fixes (`scanStd`), the domain block by `Scan`. -/
structure Table (α : Type) where
  Name : String
  Defs : List String := []
  Atts : Option (List String)
  Old : Record α := {}
  New : Record α := {}
  Vals : Option (Option α → List String)
  Scan : Option (List (Option String) → Option α)

/-- The std block of a scanned row: a NULL becomes the empty string. -/
def scanStd (r : Row) : Std :=
  { ID := r.id, Begin := r.begin, Until := r.until_.getD "", Pkey := r.pkey,
    Created := r.created, CreatedBy := r.createdby,
    Ended := r.ended.getD "", EndedBy := r.endedby.getD "" }

variable {α : Type} [DecidableEq α]

/-! ## datetime.go -/

/-- IsTmsp: `select FormatTmsp(?)` is not NULL. -/
def IsTmsp (e : Engine) (tmsp : String) : M Bool := fun db =>
  (.ok (e.formatTmsp tmsp).isSome, db.next)

/-- CurrentTmsp: `select FormatNow()`. -/
def CurrentTmsp (e : Engine) : M String := fun db =>
  (.ok (e.clock db.tick), db.next)

/-- CmpTmspNow: is `tmsp` past, present or future of the clock; the compare
stops at seconds. -/
def CmpTmspNow (e : Engine) (tmsp : String) : M (Bool × Bool × Bool) := fun db =>
  if len tmsp < 19 then (.error (.err (.tooShort "tmsp")), db)
  else
    match e.seconds (first19 tmsp) with
    | none => (.error (.err .scanningRow), db.next)
    | some s =>
      let n := e.clockSeconds db.tick - s
      if n > 0 then (.ok (true, false, false), db.next)
      else if n = 0 then (.ok (false, true, false), db.next)
      else (.ok (false, false, true), db.next)

/-- Tmsp checks if the given string is a valid timestamp ("now" is also
valid); it returns `(out, past, present, future)`. -/
def Tmsp (e : Engine) (inp : String) : M (String × Bool × Bool × Bool) :=
  if inp = Now then do
    let out ← CurrentTmsp e
    pure (out, false, true, false)
  else do
    let ok ← IsTmsp e inp
    if !ok then fail .notValidTimestamp
    else do
      let (past, present, future) ← CmpTmspNow e inp
      pure (inp, past, present, future)

/-! ## read.go -/

/-- Table.Query: the rows the statement selects, scanned in table order.
The scan function is called once per selected row. -/
def Table.Query (t : Table α) (sel : Row → Bool) : M (List (Record α)) := fun db =>
  match db.rows.filter sel, t.Scan with
  | [], _ => (.ok [], db.next)
  | _ :: _, none => (.error .crash, db.next)
  | rs, some scan =>
    (.ok (rs.map fun r => { Std := scanStd r, Idv := scan r.vals }), db.next)

/-- Table.byKey: `select ... where pkey=?`. -/
def Table.byKey (t : Table α) (key : Int) : M (List (Record α)) :=
  t.Query (fun r => decide (r.pkey = key))

/-- The value a timestamp parameter is written or compared as in the n-th
statement: the clock for the keyword Now, its rendering by FormatTmsp
otherwise. -/
def Engine.stored (e : Engine) (n : Nat) (ts : String) : Option String :=
  if ts = Now then some (e.clock n) else e.formatTmsp ts

/-- Table.byIDBegin: `select ... where id=? and begin=FormatTmsp(?)`. -/
def Table.byIDBegin (e : Engine) (t : Table α) (id : Int) (begin : String) :
    M (List (Record α)) := fun db =>
  t.Query (fun r => decide (r.id = id ∧ some r.begin = e.stored db.tick begin)) db

/-- Table.byIDUntil: `select ... where id=? and until=FormatTmsp(?)`. -/
def Table.byIDUntil (e : Engine) (t : Table α) (id : Int) (until_ : String) :
    M (List (Record α)) := fun db =>
  t.Query (fun r => decide (r.id = id ∧ r.until_.isSome ∧
    r.until_ = e.stored db.tick until_)) db

/-! ## write.go: the DML primitives -/

/-- The key the auto-increment assigns to the next inserted version row. -/
def nextKey (db : DB) : Int := db.rows.foldl (fun m r => max m r.pkey) db.seqKey + 1

/-- The id the auto-increment assigns to the next inserted identity row. -/
def nextID (db : DB) : Int := db.ids.foldl (fun m r => max m r.id) db.seqID + 1

/-- The domain columns as the statements bind them: the first `n` extracted
values, an empty string standing for NULL. -/
def domainCols (n : Nat) (vals : List String) : List (Option String) :=
  (vals.take n).map fun v => if v = "" then none else some v

/-- Table.ins: insert `t.New`; only non-zero std fields are written, `created`
is always the clock; returns the auto-assigned pkey. -/
def Table.ins (e : Engine) (t : Table α) : M Int := fun db =>
  match t.Vals with
  | none => (.error .crash, db)
  | some valsFn =>
    let vals := valsFn t.New.Idv
    let atts := t.Atts.getD []
    if vals.length < atts.length then (.error .crash, db)
    else
      let cols := domainCols atts.length vals
      let begin := if t.New.Std.Begin = "" then none else e.stored db.tick t.New.Std.Begin
      match begin with
      | none => (.error (.err .executingInsert), db.next)
      | some b =>
        if t.New.Std.ID = 0 ∨ t.New.Std.CreatedBy = "" ∨ e.domainOk cols = false ∨
            db.rows.any (fun r => decide (r.id = t.New.Std.ID ∧ r.begin = b)) = true then
          (.error (.err .executingInsert), db.next)
        else
          let key := nextKey db
          let row : Row :=
            { id := t.New.Std.ID, begin := b,
              until_ := if t.New.Std.Until = "" then none else e.formatTmsp t.New.Std.Until,
              pkey := key, created := e.clock db.tick, createdby := t.New.Std.CreatedBy,
              ended := if t.New.Std.Ended = "" then none else e.formatTmsp t.New.Std.Ended,
              endedby := if t.New.Std.EndedBy = "" then none else some t.New.Std.EndedBy,
              vals := cols }
          (.ok key, { db with rows := db.rows ++ [row], seqKey := key, tick := db.tick + 1 })

/-- Table.upd: rewrite `created`, optionally `createdby`, and all domain columns
of the row `t.New.Std.Pkey`. -/
def Table.upd (e : Engine) (t : Table α) : M Unit := fun db =>
  match t.Vals with
  | none => (.error .crash, db)
  | some valsFn =>
    let vals := valsFn t.New.Idv
    let atts := t.Atts.getD []
    if vals.length < atts.length then (.error .crash, db)
    else
      let cols := domainCols atts.length vals
      if db.rows.any (fun r => decide (r.pkey = t.New.Std.Pkey)) = false then
        (.error (.err .nothingUpdated), db.next)
      else if e.domainOk cols = false then (.error (.err .executingUpdate), db.next)
      else
        (.ok (), { db with
          rows := db.rows.map fun r =>
            if r.pkey = t.New.Std.Pkey then
              { r with created := e.clock db.tick,
                       createdby := if t.New.Std.CreatedBy = "" then r.createdby
                                    else t.New.Std.CreatedBy,
                       vals := cols }
            else r,
          tick := db.tick + 1 })

/-- Table.del: delete the row `t.New.Std.Pkey`; fails if nothing was deleted. -/
def Table.del (t : Table α) : M Unit := fun db =>
  if db.rows.any (fun r => decide (r.pkey = t.New.Std.Pkey)) = false then
    (.error (.err .nothingDeleted), db.next)
  else
    (.ok (), { db with rows := db.rows.filter (fun r => decide (r.pkey ≠ t.New.Std.Pkey)),
                       tick := db.tick + 1 })

/-- Table.begin: set `begin`, `created` and `createdby` of the row
`t.New.Std.Pkey`. -/
def Table.begin (e : Engine) (t : Table α) : M Unit := fun db =>
  if db.rows.any (fun r => decide (r.pkey = t.New.Std.Pkey)) = false then
    (.error (.err .nothingUpdated), db.next)
  else
    match e.stored db.tick t.New.Std.Begin with
    | none => (.error (.err .executingUpdate), db.next)
    | some b =>
      if db.rows.any (fun r => decide (r.pkey = t.New.Std.Pkey) &&
          db.rows.any (fun q => decide (q.pkey ≠ t.New.Std.Pkey ∧ q.id = r.id ∧ q.begin = b)))
          = true then
        (.error (.err .executingUpdate), db.next)
      else
        (.ok (), { db with
          rows := db.rows.map fun r =>
            if r.pkey = t.New.Std.Pkey then
              { r with begin := b, created := e.clock db.tick,
                       createdby := t.New.Std.CreatedBy }
            else r,
          tick := db.tick + 1 })

/-- Table.until: set `until`, `ended` and `endedby` of the row
`t.New.Std.Pkey`. -/
def Table.until_ (e : Engine) (t : Table α) : M Unit := fun db =>
  if db.rows.any (fun r => decide (r.pkey = t.New.Std.Pkey)) = false then
    (.error (.err .nothingUpdated), db.next)
  else
    (.ok (), { db with
      rows := db.rows.map fun r =>
        if r.pkey = t.New.Std.Pkey then
          { r with until_ := e.stored db.tick t.New.Std.Until,
                   ended := some (e.clock db.tick),
                   endedby := some t.New.Std.EndedBy }
        else r,
      tick := db.tick + 1 })

/-! ## write.go: the identity protocol -/

/-- Table.newID: insert a row into the identity table and return its id. -/
def Table.newID (e : Engine) (_t : Table α) (creator : String) : M Int := fun db =>
  let id := nextID db
  (.ok id, { db with
    ids := db.ids ++ [{ id := id, created := e.clock db.tick, createdby := creator,
                        usedby := none }],
    seqID := id, tick := db.tick + 1 })

/-- Table.useID: `update Tid set usedby=? where id=? and createdby=? and usedby
is null`; fails if no row was updated. -/
def Table.useID (t : Table α) (creator : String) : M Unit := fun db =>
  let hit := fun r : IDRow =>
    decide (r.id = t.New.Std.ID ∧ r.createdby = creator ∧ r.usedby = none)
  if db.ids.any hit = false then (.error (.err .idTableNotUpdated), db.next)
  else
    (.ok (), { db with
      ids := db.ids.map fun r => if hit r = true then { r with usedby := some creator } else r,
      tick := db.tick + 1 })

/-! ## write.go: the Writer -/

/-- A transaction object; a nil `*sql.Tx` is `none`. -/
abbrev Tx : Type := Unit

/-- The descriptor after the assignment `t.New.Std = s`. -/
def Table.withNew (t : Table α) (s : Std) : Table α := { t with New := { t.New with Std := s } }

/-- The check handleTs makes: Now is handled later, any other timestamp must
be valid and must not lie in the past. -/
def handleTs (e : Engine) (ts : String) : M String :=
  if ts = Now then pure ts
  else do
    let (out, past, _, _) ← Tmsp e ts
    if past then fail (.cannotChangePast out) else pure out

/-- The preconditions writePrecs checks; `none` is the nil error. -/
def writePrecs (ts creator : String) (tx : Option Tx) : Option Err :=
  if ts = "" then some (.missing "ts")
  else if creator = "" then some (.missing "creator")
  else if tx.isNone then some .needsTx
  else none

/-- Table.startPrecs. -/
def Table.startPrecs (t : Table α) (id : Int) (ts creator : String) (tx : Option Tx) :
    Option Err :=
  match writePrecs ts creator tx with
  | some x => some x
  | none =>
    if id = 0 then some (.missing "id")
    else if t.Name = "" then some .tableNameMissing
    else if t.New.Idv.isNone then some (.missing "t.NewIdv")
    else if t.Atts.isNone then some (.missing "t.Atts")
    else if t.Vals.isNone then some (.missing "t.Vals")
    else none

/-- Table.terminatePrecs. -/
def Table.terminatePrecs (t : Table α) (ts terminator : String) (tx : Option Tx) :
    Option Err :=
  match writePrecs ts terminator tx with
  | some x => some x
  | none =>
    if t.Name = "" then some .tableNameMissing
    else if t.Old.Std.Pkey = 0 then some (.missing "t.Old.Std")
    else if t.Old.Idv.isNone then some (.missing "t.Old.Idv")
    else if t.Atts.isNone then some (.missing "t.Atts")
    else if t.Scan.isNone then some (.missing "t.Scan")
    else none

/-- Table.changePrecs. -/
def Table.changePrecs (t : Table α) (ts creator : String) (tx : Option Tx) : Option Err :=
  match writePrecs ts creator tx with
  | some x => some x
  | none =>
    if t.Name = "" then some .tableNameMissing
    else if t.Old.Std.Pkey = 0 then some (.missing "t.Old.Std")
    else if t.Old.Idv.isNone then some (.missing "t.Old.Idv")
    else if t.New.Idv.isNone then some (.missing "t.New.Idv")
    else if t.Atts.isNone then some (.missing "t.Atts")
    else if t.Vals.isNone then some (.missing "t.Vals")
    else if t.Scan.isNone then some (.missing "t.Scan")
    else none

/-- Table.moveBeginPrecs. -/
def Table.moveBeginPrecs (t : Table α) (ts creator : String) (tx : Option Tx) :
    Option Err :=
  match writePrecs ts creator tx with
  | some x => some x
  | none =>
    if t.Name = "" then some .tableNameMissing
    else if t.Old.Std.Pkey = 0 then some (.missing "t.Old.Std")
    else if t.Old.Idv.isNone then some (.missing "t.Old.Idv")
    else if t.Atts.isNone then some (.missing "t.Atts")
    else if t.Scan.isNone then some (.missing "t.Scan")
    else none

/-- Table.moveUntilPrecs. -/
def Table.moveUntilPrecs (t : Table α) (ts creator : String) (tx : Option Tx) :
    Option Err :=
  match writePrecs ts creator tx with
  | some x => some x
  | none =>
    if t.Name = "" then some .tableNameMissing
    else if t.Old.Std.Pkey = 0 then some (.missing "t.Old.Std")
    else if t.Old.Idv.isNone then some (.missing "t.Old.Idv")
    else if t.Atts.isNone then some (.missing "t.Atts")
    else if t.Scan.isNone then some (.missing "t.Scan")
    else none

/-- Table.start: insert the first record of an object and mark its id as
used. -/
def Table.start (e : Engine) (t : Table α) (id : Int) (ts creator : String) : M Int := do
  let ts ← handleTs e ts
  let t1 := t.withNew { ID := id, Begin := ts, CreatedBy := creator }
  let key ← t1.ins e
  t1.useID creator
  pure key

/-- Start creates a new object, inserts its first record and returns the
primary key of this record. -/
def Table.Start (e : Engine) (t : Table α) (id : Int) (ts creator : String)
    (tx : Option Tx) : M Int :=
  match t.startPrecs id ts creator tx with
  | some x => fail x
  | none => t.start e id ts creator

/-- The loop of Table.terminate that deletes all followers, `next` being the
follower read last. Every round deletes a row, so `fuel` is one more than the
number of rows. -/
def Table.terminateLoop (e : Engine) (t : Table α) : Nat → Record α → M Unit
  | 0, _ => noFuel
  | fuel + 1, next =>
    if next.Std.Pkey = 0 then pure ()
    else do
      (t.withNew next.Std).del
      if next.Std.Until ≠ "" then do
        let nexts ← t.byIDBegin e next.Std.ID next.Std.Until
        match nexts with
        | [] => crash
        | n :: _ => Table.terminateLoop e t fuel n
      else Table.terminateLoop e t fuel { next with Std := {} }

/-- Table.terminate. -/
def Table.terminate (e : Engine) (t : Table α) (ts terminator : String) : M Int := do
  let ts ← handleTs e ts
  if ts = t.Old.Std.Until then pure t.Old.Std.Pkey
  else if strLt ts t.Old.Std.Begin then fail .notAllowed
  else do
    let sames ← t.byKey t.Old.Std.Pkey
    match sames with
    | [] => crash
    | same :: _ =>
      if same.Std.Pkey = 0 then fail .competitivelyDeleted
      else if t.Old.Idv ≠ same.Idv ∨ t.Old.Std ≠ same.Std then fail .competitivelyChanged
      else do
        let key ←
          if ts = t.Old.Std.Begin then do
            (t.withNew t.Old.Std).del
            pure 0
          else do
            (t.withNew { t.Old.Std with Until := ts, EndedBy := terminator }).until_ e
            pure t.Old.Std.Pkey
        if t.Old.Std.Until ≠ "" then do
          let nexts ← t.byIDBegin e t.Old.Std.ID t.Old.Std.Until
          match nexts with
          | [] => crash
          | next :: _ =>
            if next.Std.Pkey = 0 then pure key
            else do
              (fun db => Table.terminateLoop e t (db.rows.length + 1) next db : M Unit)
              pure key
        else pure key

/-- Terminate terminates a given record with Until = ts. -/
def Table.Terminate (e : Engine) (t : Table α) (ts terminator : String)
    (tx : Option Tx) : M Int :=
  match t.terminatePrecs ts terminator tx with
  | some x => fail x
  | none => t.terminate e ts terminator

/-- Table.change. -/
def Table.change (e : Engine) (t : Table α) (ts creator : String) : M Int := do
  let ts ← handleTs e ts
  if t.New.Idv = t.Old.Idv then pure t.Old.Std.Pkey
  else do
    let sames ← t.byKey t.Old.Std.Pkey
    match sames with
    | [] => crash
    | same :: _ =>
      if same.Std.Pkey = 0 then fail .competitivelyDeleted
      else if t.Old.Idv ≠ same.Idv ∨ t.Old.Std ≠ same.Std then fail .competitivelyChanged
      else if ts = t.Old.Std.Begin then do
        let t1 := t.withNew { t.Old.Std with CreatedBy := creator }
        t1.upd e
        pure t1.New.Std.Pkey
      else do
        let key ← (t.withNew { ID := t.Old.Std.ID, Begin := ts, CreatedBy := creator }).ins e
        (t.withNew { t.Old.Std with Until := ts, EndedBy := creator }).until_ e
        pure key

/-- Change applies changes to a given record belonging to a specific ID and
returns the primary key of the changed record. -/
def Table.Change (e : Engine) (t : Table α) (ts creator : String) (tx : Option Tx) :
    M Int :=
  match t.changePrecs ts creator tx with
  | some x => fail x
  | none => t.change e ts creator

/-- The loop of Table.moveBegin that deletes shadowed preceders; `more` says
whether the last read found a row, `next` is the preceder read last. It
returns the value of `next` after the loop. -/
def Table.moveBeginLoop (e : Engine) (t : Table α) (ts : String) :
    Nat → Bool → Record α → M (Record α)
  | 0, _, _ => noFuel
  | fuel + 1, more, next =>
    if more = true ∧ strLt ts next.Std.Begin then do
      (t.withNew next.Std).del
      let nexts ← t.byIDUntil e next.Std.ID next.Std.Begin
      match nexts with
      | [] => Table.moveBeginLoop e t ts fuel false next
      | n :: _ => Table.moveBeginLoop e t ts fuel true n
    else pure next

/-- Table.moveBegin. -/
def Table.moveBegin (e : Engine) (t : Table α) (ts creator : String) : M Int := do
  let ts ← handleTs e ts
  if ts = t.Old.Std.Begin then pure t.Old.Std.Pkey
  else if strLt t.Old.Std.Until ts then fail .notAllowed
  else do
    let sames ← t.byKey t.Old.Std.Pkey
    match sames with
    | [] => crash
    | same :: _ =>
      if same.Std.Pkey = 0 then fail .competitivelyDeleted
      else if t.Old.Idv ≠ same.Idv ∨ t.Old.Std ≠ same.Std then fail .competitivelyChanged
      else do
        let key ←
          if ts = t.Old.Std.Until then do
            (t.withNew t.Old.Std).del
            pure 0
          else do
            (t.withNew { t.Old.Std with Begin := ts, EndedBy := creator }).begin e
            pure t.Old.Std.Pkey
        let nexts ← t.byIDUntil e t.Old.Std.ID t.Old.Std.Begin
        match nexts with
        | [] => pure key
        | first :: _ =>
          let next ←
            if strLt ts t.Old.Std.Begin then
              (fun db => Table.moveBeginLoop e t ts (db.rows.length + 1) true first db :
                M (Record α))
            else pure first
          (t.withNew { next.Std with Until := ts, CreatedBy := creator }).until_ e
          pure key

/-- MoveBegin begins a given record with Begin = ts. -/
def Table.MoveBegin (e : Engine) (t : Table α) (ts creator : String) (tx : Option Tx) :
    M Int :=
  match t.moveBeginPrecs ts creator tx with
  | some x => fail x
  | none => t.moveBegin e ts creator

/-- The loop of Table.moveUntil that deletes shadowed followers; `more` says
whether the last read found a row, `next` is the follower read last. It
returns the value of `next` after the loop. -/
def Table.moveUntilLoop (e : Engine) (t : Table α) (ts : String) :
    Nat → Bool → Record α → M (Record α)
  | 0, _, _ => noFuel
  | fuel + 1, more, next =>
    if more = true ∧ next.Std.Until ≠ "" ∧ strLt next.Std.Until ts then do
      (t.withNew next.Std).del
      if next.Std.Until ≠ "" then do
        let nexts ← t.byIDBegin e next.Std.ID next.Std.Until
        match nexts with
        | [] => Table.moveUntilLoop e t ts fuel false next
        | n :: _ => Table.moveUntilLoop e t ts fuel true n
      else Table.moveUntilLoop e t ts fuel more next
    else pure next

/-- Table.moveUntil. -/
def Table.moveUntil (e : Engine) (t : Table α) (ts creator : String) : M Int := do
  let ts ← handleTs e ts
  if ts = t.Old.Std.Until then pure t.Old.Std.Pkey
  else if strLt ts t.Old.Std.Begin then fail .notAllowed
  else do
    let sames ← t.byKey t.Old.Std.Pkey
    match sames with
    | [] => crash
    | same :: _ =>
      if same.Std.Pkey = 0 then fail .competitivelyDeleted
      else if t.Old.Idv ≠ same.Idv ∨ t.Old.Std ≠ same.Std then fail .competitivelyChanged
      else do
        let key ←
          if ts = t.Old.Std.Begin then do
            (t.withNew t.Old.Std).del
            pure 0
          else do
            (t.withNew { t.Old.Std with Until := ts, EndedBy := creator }).until_ e
            pure t.Old.Std.Pkey
        if t.Old.Std.Until ≠ "" then do
          let nexts ← t.byIDBegin e t.Old.Std.ID t.Old.Std.Until
          match nexts with
          | [] => pure key
          | first :: _ =>
            let next ←
              if strLt t.Old.Std.Until ts then
                (fun db => Table.moveUntilLoop e t ts (db.rows.length + 1) true first db :
                  M (Record α))
              else pure first
            (t.withNew { next.Std with Begin := ts, CreatedBy := creator }).begin e
            pure key
        else pure key

/-- MoveUntil ends a given record with Until = ts. -/
def Table.MoveUntil (e : Engine) (t : Table α) (ts creator : String) (tx : Option Tx) :
    M Int :=
  match t.moveUntilPrecs ts creator tx with
  | some x => fail x
  | none => t.moveUntil e ts creator

/-- Table.newIDPrecs. -/
def Table.newIDPrecs (t : Table α) (creator : String) (tx : Option Tx) : Option Err :=
  if tx.isNone then some .needsTx
  else if creator = "" then some (.missing "creator")
  else if t.Name = "" then some .tableNameMissing
  else none

/-- Table.NewID inserts a new row of the ID-table and returns the ID. -/
def Table.NewID (e : Engine) (t : Table α) (creator : String) (tx : Option Tx) : M Int :=
  match t.newIDPrecs creator tx with
  | some x => fail x
  | none => t.newID e creator

/-! ## datetime.go: comparison with a reference timestamp -/

/-- CmpTmspRef: is `tmsp` past, present or future of the reference timestamp;
the compare stops at seconds. The difference is NULL when the engine has no
seconds for one of the two slices. -/
def CmpTmspRef (e : Engine) (tmsp ref : String) : M (Bool × Bool × Bool) := fun db =>
  if len ref < 19 then (.error (.err (.tooShort "ref")), db)
  else if len tmsp < 19 then (.error (.err (.tooShort "tmsp")), db)
  else
    match e.seconds (first19 ref), e.seconds (first19 tmsp) with
    | some r, some s =>
      let n := r - s
      if n > 0 then (.ok (true, false, false), db.next)
      else if n = 0 then (.ok (false, true, false), db.next)
      else (.ok (false, false, true), db.next)
    | _, _ => (.error (.err .scanningRow), db.next)

/-! ## read.go: the query text and its errors -/

/-- The result of `strings.ReplaceAll(s, "%", "_")`. -/
def replacePercent (s : String) : String :=
  String.mk (s.data.map fun c => if c = '%' then '_' else c)

/-- What the driver answers to a query: it refuses the statement, or it
delivers rows. Each delivered row is given as what the scan function makes of
it (`none` when the scan function returns an error), and `iterErr` tells
whether `rows.Err()` reports an error after the last row. -/
inductive Answer (α : Type) where
  | refused
  | rows (scans : List (Option (Record α))) (iterErr : Bool)

/-- The loop of Table.Query over the delivered rows. -/
def scanRows (query : String) (iterErr : Bool) :
    List (Option (Record α)) → List (Record α) → Except Err (List (Record α))
  | [], recs => if iterErr then .error (.nextQuery query) else .ok recs
  | none :: _, _ => .error (.scanQuery query)
  | some rec :: rest, recs => scanRows query iterErr rest (recs ++ [rec])

/-- Table.Query on the level of the statement text: the records or the error it
returns for the statement `s`, given the driver's answer. -/
def Table.QueryText (_t : Table α) (s : String) (a : Answer α) :
    Except Err (List (Record α)) :=
  match a with
  | .refused => .error (.executingQuery (replacePercent s))
  | .rows scans iterErr => scanRows (replacePercent s) iterErr scans []

/-! ## read.go: the versions valid at a timestamp -/

/-- A statement argument: Go binds an `int` or a `string`. -/
inductive Arg where
  | int (n : Int)
  | text (s : String)
  deriving DecidableEq, Repr

/-- NameValue: a column name and the value the column is to have. -/
structure NameValue where
  Name : String
  Value : Arg
  deriving DecidableEq, Repr

/-- StdAtts: the names of the std columns. -/
def StdAtts : List String :=
  ["id", "begin", "until", "pkey", "created", "createdby", "ended", "endedby"]

/-- FormatTmsp: the SQL formatting of a timestamp parameter. -/
def FormatTmsp : String := "strftime('%Y-%m-%d %H:%M:%f',?)"

/-- FormatNow: the SQL formatting of the current timestamp. -/
def FormatNow : String := "strftime('%Y-%m-%d %H:%M:%f','now')"

/-- FormatAtt: the SQL formatting of a simple parameter. -/
def FormatAtt : String := "?"

/-- The statement text and the arguments that Table.byTsAndXs builds. -/
def Table.byTsAndXsStmt (t : Table α) (ts : String) (xs : List NameValue) :
    String × List Arg :=
  let head := "select " ++ ",".intercalate (StdAtts ++ t.Atts.getD []) ++ " from " ++ t.Name
  let lower : String × List Arg :=
    if t.New.Std.Begin = Now then (" where begin<=" ++ FormatNow, [])
    else (" where begin<=" ++ FormatTmsp, [.text ts])
  let upper := " and (until is null or until>" ++ FormatTmsp ++ ")"
  let conds := xs.foldl (fun s x => s ++ " and " ++ x.Name ++ "=" ++ FormatAtt) ""
  let order := xs.foldl (fun s x => s ++ x.Name ++ ",") " order by " ++ "id,begin;"
  (head ++ lower.1 ++ upper ++ conds ++ order,
    lower.2 ++ [.text ts] ++ xs.map fun x => x.Value)

/-- The value of the named column in a row: `none` if the table has no such
column, `some none` for NULL. The key columns are integers, all others text. -/
def Row.col (atts : List String) (r : Row) (name : String) : Option (Option Arg) :=
  if name = "id" then some (some (.int r.id))
  else if name = "begin" then some (some (.text r.begin))
  else if name = "until" then some (r.until_.map .text)
  else if name = "pkey" then some (some (.int r.pkey))
  else if name = "created" then some (some (.text r.created))
  else if name = "createdby" then some (some (.text r.createdby))
  else if name = "ended" then some (r.ended.map .text)
  else if name = "endedby" then some (r.endedby.map .text)
  else if name ∈ atts then some ((r.vals.getD (atts.indexOf name) none).map .text)
  else none

/-- The comparison `column = ?` for a column value that is not NULL: an integer
column takes a text argument as the number it spells, a text column takes an
integer argument as its decimal text. -/
def Arg.same : Arg → Arg → Bool
  | .int a, .int b => decide (a = b)
  | .text a, .text b => decide (a = b)
  | .int a, .text b => decide (b.toInt? = some a)
  | .text a, .int b => decide (a = toString b)

/-- The order `order by id, begin` of the result. -/
def byIDBeginLe (a b : Record α) : Prop :=
  a.Std.ID < b.Std.ID ∨ (a.Std.ID = b.Std.ID ∧ ¬ strLt b.Std.Begin a.Std.Begin)

instance (a b : Record α) : Decidable (byIDBeginLe a b) := by
  unfold byIDBeginLe
  infer_instance

/-- Table.byTsAndXs: the versions that are valid at `ts` and have the given
column values, ordered by id and begin. A comparison with a NULL rendering
selects nothing; an unknown column makes the statement fail. The lower bound of
the validity is the clock when `t.New.Std.Begin` is the keyword Now. -/
def Table.byTsAndXs (e : Engine) (t : Table α) (ts : String) (xs : List NameValue) :
    M (List (Record α)) := fun db =>
  let atts := t.Atts.getD []
  if xs.any (fun x => decide (x.Name ∉ StdAtts ++ atts)) = true then
    (.error (.err (.executingQuery (replacePercent (t.byTsAndXsStmt ts xs).1))), db.next)
  else
    let lower := if t.New.Std.Begin = Now then some (e.clock db.tick) else e.formatTmsp ts
    let upper := e.formatTmsp ts
    let sel := fun r : Row =>
      (match lower with
        | none => false
        | some b => decide (¬ strLt b r.begin)) &&
      (match r.until_ with
        | none => true
        | some u =>
          match upper with
          | none => false
          | some v => decide (strLt v u)) &&
      xs.all fun x =>
        match Row.col atts r x.Name with
        | some (some v) => Arg.same v x.Value
        | _ => false
    match t.Query sel db with
    | (.ok recs, db1) => (.ok (recs.insertionSort fun a b => byIDBeginLe a b), db1)
    | (.error x, db1) => (.error x, db1)

/-- Table.byTsPrecs; `GDb` tells whether the global database object is set. -/
def Table.byTsPrecs (t : Table α) (GDb : Bool) (ts : String) : Option Err :=
  if GDb = false then some .accessNeedsDb
  else if ts = "" then some (.missing "ts")
  else if t.Name = "" then some .tableNameMissing
  else if t.Scan.isNone then some (.missing "t.Scan")
  else none

/-- Table.ByTs returns the versions valid at `ts`. -/
def Table.ByTs (e : Engine) (t : Table α) (GDb : Bool) (ts : String) : M (List (Record α)) :=
  match t.byTsPrecs GDb ts with
  | some x => fail x
  | none => t.byTsAndXs e ts []

/-! ## livedb.go: creating the tables -/

/-- What the package uses of the database when it creates tables: whether a
statement is executed without error, given the statements issued before it. -/
structure Driver where
  accepts : List String → String → Bool

/-- StdDefs: the definitions of the std columns. -/
def StdDefs : List String :=
  ["id integer not null", "begin varchar(26) not null", "until varchar(26)",
   "pkey integer primary key autoincrement", "created varchar(26) not null",
   "createdby varchar(50) not null", "ended varchar(26)", "endedby varchar(50)"]

/-- The definitions of the columns of the identity table. -/
def stdIDDefs : List String :=
  ["id integer primary key autoincrement", "created varchar(26) not null",
   "createdby varchar(50) not null", "usedby varchar(50)"]

/-- Issue a statement: the driver's verdict and the statements issued so far. -/
def Driver.exec (d : Driver) (s : String) (issued : List String) : Bool × List String :=
  (d.accepts issued s, issued ++ [s])

/-- The text `name(def,def,...);` that createTable and createIDTable build:
every definition is followed by a comma and the last comma is replaced. -/
def createText (name : String) (defs : List String) : String :=
  let s := defs.foldl (fun s d => s ++ d ++ ",") ("create table " ++ name ++ "(")
  String.mk s.data.dropLast ++ ");"

/-- Table.createPrecs. -/
def Table.createPrecs (t : Table α) (GDb : Bool) : Option Err :=
  if GDb = false then some .createNeedsDb
  else if t.Name = "" then some .tableNameMissing
  else none

/-- The probe of the version table that Table.exists issues. -/
def Table.probeText (t : Table α) : String := "select count(*) from " ++ t.Name ++ ";"

/-- The probe of the identity table that Table.exists issues. -/
def Table.probeIDText (t : Table α) : String := "select count(*) from " ++ t.Name ++ "id;"

/-- The statement of Table.createTable. -/
def Table.createTableText (t : Table α) : String := createText t.Name (StdDefs ++ t.Defs)

/-- The statement of Table.createIDTable. -/
def Table.createIDTableText (t : Table α) : String := createText (t.Name ++ "id") stdIDDefs

/-- The statement of Table.createIndexIDBegin. -/
def Table.indexIDBeginText (t : Table α) : String :=
  "create unique index " ++ t.Name ++ "idxidbegin on " ++ t.Name ++ " (id, begin);"

/-- The statement of Table.createIndexIDUntil. -/
def Table.indexIDUntilText (t : Table α) : String :=
  "create index " ++ t.Name ++ "idxiduntil on " ++ t.Name ++ " (id, until);"

/-- Table.exists: probe both tables. -/
def Table.exists_ (d : Driver) (t : Table α) (issued : List String) :
    Except Err Bool × List String :=
  let p1 := d.exec t.probeText issued
  let p2 := d.exec t.probeIDText p1.2
  match p1.1, p2.1 with
  | true, false => (.error (.tableExists t.Name (t.Name ++ "id")), p2.2)
  | false, true => (.error (.tableExists (t.Name ++ "id") t.Name), p2.2)
  | true, true => (.ok true, p2.2)
  | false, false => (.ok false, p2.2)

/-- Table.createTable. -/
def Table.createTable (d : Driver) (t : Table α) (issued : List String) :
    Option Err × List String :=
  let r := d.exec t.createTableText issued
  (if r.1 then none else some (.creatingTable t.createTableText), r.2)

/-- Table.createIDTable. -/
def Table.createIDTable (d : Driver) (t : Table α) (issued : List String) :
    Option Err × List String :=
  let r := d.exec t.createIDTableText issued
  (if r.1 then none else some (.creatingTable t.createIDTableText), r.2)

/-- Table.createIndexIDBegin. -/
def Table.createIndexIDBegin (d : Driver) (t : Table α) (issued : List String) :
    Option Err × List String :=
  let r := d.exec t.indexIDBeginText issued
  (if r.1 then none else some (.creatingIndex t.indexIDBeginText), r.2)

/-- Table.createIndexIDUntil. -/
def Table.createIndexIDUntil (d : Driver) (t : Table α) (issued : List String) :
    Option Err × List String :=
  let r := d.exec t.indexIDUntilText issued
  (if r.1 then none else some (.creatingIndex t.indexIDUntilText), r.2)

/-- Table.create: the two tables and the two indexes, stopping at the first
statement that fails. -/
def Table.create (d : Driver) (t : Table α) (issued : List String) :
    Option Err × List String :=
  match t.createTable d issued with
  | (some x, i1) => (some x, i1)
  | (none, i1) =>
    match t.createIDTable d i1 with
    | (some x, i2) => (some x, i2)
    | (none, i2) =>
      match t.createIndexIDBegin d i2 with
      | (some x, i3) => (some x, i3)
      | (none, i3) => t.createIndexIDUntil d i3

/-- Table.Create creates a livedb table with the corresponding ID-table; it
returns the error (`none` is success) and the statements issued. -/
def Table.Create (d : Driver) (t : Table α) (GDb : Bool) : Option Err × List String :=
  match t.createPrecs GDb with
  | some x => (some x, [])
  | none =>
    match t.exists_ d [] with
    | (.error x, i) => (some x, i)
    | (.ok true, i) => (none, i)
    | (.ok false, i) => t.create d i

/-! ## Vocabulary of the properties -/

deriving instance DecidableEq for Except

/-- The record the scanner makes of a row. -/
def Table.recordOf (t : Table α) (r : Row) : Record α :=
  { Std := scanStd r,
    Idv := match t.Scan with
      | some scan => scan r.vals
      | none => none }

/-- The database after `n` more statements that changed no table. -/
def DB.after (db : DB) (n : Nat) : DB := { db with tick := db.tick + n }

/-- The number of statements a successful handleTs issues: none for the
keyword Now, the validity probe and the comparison with the clock otherwise. -/
def handleTicks (ts : String) : Nat := if ts = Now then 0 else 2

/-- The scanned `until` of a row; empty means open-ended. -/
def Row.untilStr (r : Row) : String := r.until_.getD ""

/-- The instant `s` lies before the end `u` of an interval, an empty `u`
counting as +infinity. -/
def beforeEnd (s u : String) : Bool := decide (u = "") || decide (strLt s u)

/-- The half-open intervals of two versions have an instant in common. -/
def overlap (a b : Row) : Bool :=
  beforeEnd a.begin a.untilStr && beforeEnd b.begin b.untilStr &&
  beforeEnd a.begin b.untilStr && beforeEnd b.begin a.untilStr

/-- Invariant I1: two different versions of one id never overlap. -/
def NonOverlap (rows : List Row) : Prop :=
  ∀ a ∈ rows, ∀ b ∈ rows, a.pkey ≠ b.pkey → a.id = b.id → overlap a b = false

/-- The primary key of the version table: no two rows share a pkey. -/
def UniquePkey (rows : List Row) : Prop :=
  ∀ a ∈ rows, ∀ b ∈ rows, a.pkey = b.pkey → a = b

/-- The unique index on `(id, begin)`. -/
def UniqueIDBegin (rows : List Row) : Prop :=
  ∀ a ∈ rows, ∀ b ∈ rows, a.id = b.id → a.begin = b.begin → a = b

/-- The string `s` is a timestamp in the engine's own rendering: it is not
the keyword Now and FormatTmsp gives it back unchanged. -/
def Engine.canonical (e : Engine) (s : String) : Prop := s ≠ Now ∧ e.formatTmsp s = some s

/-! ## Sample data

A small engine and table for evaluating the operations on concrete input.
The engine renders an ASCII timestamp of 23 characters as itself and one of
19 characters with `.000` appended, as SQLite does with well-formed input;
it has the seconds of ASCII text only and compares by the year, and its clock
stands in November 2026 and advances by a millisecond per statement. -/

/-- The year the bytes of a timestamp start with. -/
def yearOf (s : List Nat) : Int :=
  Int.ofNat ((s.take 4).foldl (fun n c => 10 * n + (c - 48)) 0)

/-- The text consists of ASCII characters only. -/
def isAscii (s : String) : Bool := s.data.all fun c => decide (c.toNat < 128)

/-- The rendering of a timestamp by the sample engine. -/
def demoFormat (s : String) : Option String :=
  if isAscii s then
    if s.length = 23 then some s else if s.length = 19 then some (s ++ ".000") else none
  else none

/-- The sample engine. -/
def demoEngine : Engine where
  formatTmsp := demoFormat
  seconds s := if s.all (fun b => decide (b < 128)) then some (yearOf s) else none
  ascii := by
    intro s c h hc
    unfold demoFormat at h
    by_cases ha : isAscii s = true
    · simpa using List.all_eq_true.mp ha c hc
    · rw [if_neg ha] at h
      exact absurd h (by simp)
  clock n := String.mk ("2026-11-04 10:00:00.00".data ++ [Char.ofNat (48 + n % 10)])
  clockSeconds _ := 2026
  domainOk _ := true

/-- The sample table: one domain column, the payload being its value. -/
def demoTable : Table String :=
  { Name := "ttest", Atts := some ["str2"],
    Vals := some fun x => [x.getD ""],
    Scan := some fun vs => some ((vs.headD none).getD "") }

/-- A sample version row created by actor A. -/
def demoRow (id : Int) (b : String) (u : Option String) (k : Int) (v : String) : Row :=
  { id := id, begin := b, until_ := u, pkey := k, created := "2026-11-04 09:00:00.000",
    createdby := "A", ended := none, endedby := none, vals := [some v] }

/-- The sample table with `Old` read from row `r` and the payload `v` in `New`. -/
def demoWith (r : Row) (v : String) : Table String :=
  { demoTable with Old := demoTable.recordOf r, New := { Idv := some v } }

/-- Version `[2100, 2150)` of id 1. -/
def rowA : Row := demoRow 1 "2100-01-01 00:00:00.000" (some "2150-01-01 00:00:00.000") 1 "x"

/-- Version `[2150, 2200)` of id 1. -/
def rowB : Row := demoRow 1 "2150-01-01 00:00:00.000" (some "2200-01-01 00:00:00.000") 2 "y"

/-- Version `[2200, open)` of id 1. -/
def rowC : Row := demoRow 1 "2200-01-01 00:00:00.000" none 3 "z"

/-- Version `[2150, open)` of id 1. -/
def rowBopen : Row := demoRow 1 "2150-01-01 00:00:00.000" none 2 "y"

/-- A database holding the given version rows. -/
def demoDB (rows : List Row) : DB :=
  { rows := rows, ids := [], seqKey := 3, seqID := 0, tick := 0 }

/-! ## Table states after an update -/

/-- The version rows after `until`, `ended` and `endedby` of the rows with the
given key are set. -/
def closeRows (rows : List Row) (key : Int) (v : Option String) (ended who : String) :
    List Row :=
  rows.map fun r =>
    if r.pkey = key then { r with until_ := v, ended := some ended, endedby := some who } else r

/-- The version rows after `begin`, `created` and `createdby` of the rows with
the given key are set. -/
def moveRows (rows : List Row) (key : Int) (b created who : String) : List Row :=
  rows.map fun r =>
    if r.pkey = key then { r with begin := b, created := created, createdby := who } else r

/-- The version rows after the rows with one of the given keys are deleted. -/
def dropRows (rows : List Row) (keys : List Int) : List Row :=
  rows.filter fun r => decide (r.pkey ∉ keys)

/-- A contiguous chain of versions of one id: each version's until is the next
version's begin, a non-empty canonical timestamp, and the last version is
open-ended. -/
def Chain (e : Engine) : List Row → Prop
  | [] => True
  | [w] => w.until_ = none
  | w :: v :: rest =>
    w.until_ = some v.begin ∧ v.begin ≠ "" ∧ e.canonical v.begin ∧ v.id = w.id ∧
      Chain e (v :: rest)

/-- The constraints the engine keeps on the version table: the primary key,
the unique index on (id, begin), and auto-assigned keys, which are never 0. -/
def ValidRows (rows : List Row) : Prop :=
  UniquePkey rows ∧ UniqueIDBegin rows ∧ ∀ r ∈ rows, r.pkey ≠ 0

/-! ## Termination of the loops -/

/-- The call never ends by using up the fuel of a loop. -/
def NoFuel {β : Type} (m : M β) : Prop := ∀ db, (m db).1 ≠ .error .fuel

/-! ## Invariants of the tables -/

/-- Invariant I2: every version row with a non-empty until begins before it
ends, in string order. -/
def BeginBeforeUntil (rows : List Row) : Prop :=
  ∀ r ∈ rows, r.untilStr ≠ "" → strLt r.begin r.untilStr

/-- Identity-use consistency: each identity row with a non-NULL `usedby` has a
version row with that id whose begin is the smallest among that id's versions
and whose `createdby` equals `usedby`. -/
def IdentityUse (db : DB) : Prop :=
  ∀ i ∈ db.ids, i.usedby ≠ none →
    ∃ r ∈ db.rows, r.id = i.id ∧ some r.createdby = i.usedby ∧
      ∀ q ∈ db.rows, q.id = i.id → ¬ strLt q.begin r.begin

/-- The states reachable from empty tables by successful calls of NewID and
of the five writing operations, each call with a descriptor of its own. -/
inductive Reached (e : Engine) : DB → Prop
  | empty (db : DB) : db.rows = [] → db.ids = [] → Reached e db
  | newID {α : Type} [DecidableEq α] (t : Table α) (c : String) (tx : Option Tx)
      (db db1 : DB) (id : Int) :
      Reached e db → t.NewID e c tx db = (.ok id, db1) → Reached e db1
  | start {α : Type} [DecidableEq α] (t : Table α) (id : Int) (ts c : String)
      (tx : Option Tx) (db db1 : DB) (key : Int) :
      Reached e db → t.Start e id ts c tx db = (.ok key, db1) → Reached e db1
  | change {α : Type} [DecidableEq α] (t : Table α) (ts c : String) (tx : Option Tx)
      (db db1 : DB) (key : Int) :
      Reached e db → t.Change e ts c tx db = (.ok key, db1) → Reached e db1
  | terminate {α : Type} [DecidableEq α] (t : Table α) (ts c : String) (tx : Option Tx)
      (db db1 : DB) (key : Int) :
      Reached e db → t.Terminate e ts c tx db = (.ok key, db1) → Reached e db1
  | moveBegin {α : Type} [DecidableEq α] (t : Table α) (ts c : String) (tx : Option Tx)
      (db db1 : DB) (key : Int) :
      Reached e db → t.MoveBegin e ts c tx db = (.ok key, db1) → Reached e db1
  | moveUntil {α : Type} [DecidableEq α] (t : Table α) (ts c : String) (tx : Option Tx)
      (db db1 : DB) (key : Int) :
      Reached e db → t.MoveUntil e ts c tx db = (.ok key, db1) → Reached e db1

/-- The states reachable from empty tables by successful calls of NewID and
Start alone. -/
inductive ReachedByStart (e : Engine) : DB → Prop
  | empty (db : DB) : db.rows = [] → db.ids = [] → ReachedByStart e db
  | newID {α : Type} [DecidableEq α] (t : Table α) (c : String) (tx : Option Tx)
      (db db1 : DB) (id : Int) :
      ReachedByStart e db → t.NewID e c tx db = (.ok id, db1) → ReachedByStart e db1
  | start {α : Type} [DecidableEq α] (t : Table α) (id : Int) (ts c : String)
      (tx : Option Tx) (db db1 : DB) (key : Int) :
      ReachedByStart e db → t.Start e id ts c tx db = (.ok key, db1) → ReachedByStart e db1

/-- What the states reachable by NewID and Start satisfy: the identity table
has no two rows with one id, every version row belongs to an identity used by
the creator of the row, no two version rows share an id, and every used
identity has a version row created by its user. -/
def StartInv (db : DB) : Prop :=
  (∀ i ∈ db.ids, ∀ j ∈ db.ids, i.id = j.id → i = j) ∧
  (∀ r ∈ db.rows, ∃ i ∈ db.ids, i.id = r.id ∧ i.usedby = some r.createdby) ∧
  (∀ r ∈ db.rows, ∀ q ∈ db.rows, r.id = q.id → r = q) ∧
  (∀ i ∈ db.ids, i.usedby ≠ none → ∃ r ∈ db.rows, r.id = i.id ∧ some r.createdby = i.usedby)

/-! ## More sample data -/

/-- The sample engine with the constraint `not null` of the test table on its
domain column. -/
def strictEngine : Engine := { demoEngine with domainOk := fun cols => cols.all Option.isSome }

/-- The sample table with the payload `v` in `New` and nothing in `Old`. -/
def demoNew (v : String) : Table String := { demoTable with New := { Idv := some v } }

/-- No version row, and identity 1, created by T and not yet used. -/
def freshDB : DB :=
  { rows := [],
    ids := [{ id := 1, created := "2026-11-04 09:00:00.000", createdby := "T", usedby := none }],
    seqKey := 0, seqID := 1, tick := 0 }

/-- The sample engine reading a time zone suffix as SQLite does: the timestamp
`2999-01-01 11:33+01:00` is valid and rendered in UTC, while its first 19
bytes, `2999-01-01 11:33+01`, are no time value and have no seconds. -/
def zoneEngine : Engine :=
  { demoEngine with
    formatTmsp := fun s =>
      if s = "2999-01-01 11:33+01:00" then some "2999-01-01 10:33:00.000"
      else demoFormat s
    seconds := fun s =>
      if s = bytes "2999-01-01 11:33+01" then none else demoEngine.seconds s
    ascii := by
      intro s c h hc
      by_cases hs : s = "2999-01-01 11:33+01:00"
      · subst hs
        revert c
        decide
      · have h2 : (if s = "2999-01-01 11:33+01:00" then some "2999-01-01 10:33:00.000"
            else demoFormat s).isSome = true := h
        rw [if_neg hs] at h2
        exact demoEngine.ascii s c h2 hc }

/-- A database without the two tables that refuses the definition of the
version table, as for a column definition with a syntax error. -/
def refusingDriver : Driver := { accepts := fun _ _ => false }

/-- A database without the two tables that accepts every create statement. -/
def freshDriver : Driver := { accepts := fun _ s => decide (s.data.take 6 = "create".data) }

/-- Both tables empty. -/
def emptyDB : DB := { rows := [], ids := [], seqKey := 0, seqID := 0, tick := 0 }

/-- The tables after T has taken a new identity. -/
def identDB : DB := (demoTable.NewID demoEngine "T" (some ()) emptyDB).2

/-- The tables after T has taken a new identity and started it with the
version `[2100, open)`. -/
def startedDB : DB :=
  ((demoNew "v").Start demoEngine 1 "2100-01-01 00:00:00.000" "T" (some ()) identDB).2

/-- The version `[2100, open)` of id 1 as that Start stores it. -/
def rowStarted : Row :=
  { id := 1, begin := "2100-01-01 00:00:00.000", until_ := none, pkey := 1,
    created := "2026-11-04 10:00:00.003", createdby := "T", ended := none, endedby := none,
    vals := [some "v"] }

/-- The tables after that version has been terminated at 2150. -/
def closedDB : DB :=
  ((demoWith rowStarted "v").Terminate demoEngine "2150-01-01 00:00:00.000" "T" (some ())
    startedDB).2

/-- The version `[2100, 2150)` of id 1 as that Terminate leaves it. -/
def rowClosed : Row :=
  { rowStarted with until_ := some "2150-01-01 00:00:00.000",
                    ended := some "2026-11-04 10:00:00.008", endedby := some "T" }

/-- Version `[2000, 2100)` of id 1, begun before the sample clock. -/
def rowPast : Row := demoRow 1 "2000-01-01 00:00:00.000" (some "2100-01-01 00:00:00.000") 1 "x"

/-- Version `[2000, 2010)` of id 1, begun and ended before the sample clock. -/
def rowOld : Row := demoRow 1 "2000-01-01 00:00:00.000" (some "2010-01-01 00:00:00.000") 1 "x"

/-- Version `[2010, open)` of id 1, valid at the sample clock. -/
def rowValid : Row := demoRow 1 "2010-01-01 00:00:00.000" none 2 "y"

/-! ## Outcomes of a call -/

/-- The call never ends with the error 'not allowed'. -/
def NeverNotAllowed {β : Type} (m : M β) : Prop :=
  ∀ db, (m db).1 ≠ .error (.err .notAllowed)

/-- The call never ends with the error 'not allowed', and when it succeeds it
returns the key `k`. -/
def ReturnsKey (k : Int) (m : M Int) : Prop :=
  ∀ db, (m db).1 ≠ .error (.err .notAllowed) ∧ ∀ key, (m db).1 = .ok key → key = k

/-! # Theorems -/

set_option linter.unusedSectionVars false

/-! ## Basic facts about database calls -/

theorem bind_apply {β γ : Type} (m : M β) (f : β → M γ) (db : DB) :
    (m >>= f) db =
      match m db with
      | (.ok a, db1) => f a db1
      | (.error x, db1) => (.error x, db1) := rfl

theorem pure_apply {β : Type} (a : β) (db : DB) : (pure a : M β) db = (.ok a, db) := rfl

/-! ## Bytes and characters -/

/-- A character takes one to four bytes. -/
theorem utf8Char_length (c : Char) : 1 ≤ (utf8Char c).length ∧ (utf8Char c).length ≤ 4 := by
  unfold utf8Char
  simp only []
  split_ifs <;> simp

/-- An ASCII character is one byte. -/
theorem utf8Char_ascii (c : Char) (h : c.toNat < 128) : utf8Char c = [c.toNat] := by
  unfold utf8Char
  simp only []
  rw [if_pos (by omega)]

/-- A string has at least as many bytes as characters. -/
theorem length_le_len (s : String) : s.length ≤ len s := by
  cases s with
  | mk l =>
    show l.length ≤ (bytesOf l).length
    induction l with
    | nil => simp [bytesOf]
    | cons c cs ih =>
      have := (utf8Char_length c).1
      simp only [bytesOf, List.length_cons, List.length_append]
      omega

/-- The bytes of an ASCII text are the codes of its characters. -/
theorem bytes_ascii (s : String) (h : ∀ c ∈ s.data, c.toNat < 128) :
    bytes s = s.data.map Char.toNat := by
  cases s with
  | mk l =>
    show bytesOf l = l.map Char.toNat
    induction l with
    | nil => rfl
    | cons c cs ih =>
      have hc : c.toNat < 128 := h c (List.mem_cons_self _ _)
      have hcs : ∀ d ∈ cs, d.toNat < 128 := fun d hd => h d (List.mem_cons_of_mem _ hd)
      simp only [bytesOf, utf8Char_ascii c hc, List.map_cons, List.singleton_append]
      rw [ih hcs]

/-- An ASCII text has as many bytes as characters. -/
theorem len_ascii (s : String) (h : ∀ c ∈ s.data, c.toNat < 128) : len s = s.length := by
  unfold len
  rw [bytes_ascii s h, List.length_map]
  rfl

/-- The number of bytes of a character is the size the standard library
gives for its UTF-8 encoding. -/
theorem utf8Char_size (c : Char) : (utf8Char c).length = c.utf8Size := by
  unfold utf8Char Char.utf8Size
  simp only [Char.toNat, UInt32.le_def, UInt32.toNat, BitVec.le_def]
  have h1 : (UInt32.ofNatCore 127 (by decide)).toBitVec.toNat = 127 := rfl
  have h2 : (UInt32.ofNatCore 2047 (by decide)).toBitVec.toNat = 2047 := rfl
  have h3 : (UInt32.ofNatCore 65535 (by decide)).toBitVec.toNat = 65535 := rfl
  simp only [h1, h2, h3]
  split_ifs <;> first | rfl | omega

/-- Go's `len` of a string is its size in UTF-8 bytes. -/
theorem len_eq_utf8ByteSize (s : String) : len s = s.utf8ByteSize := by
  cases s with
  | mk l =>
    show (bytesOf l).length = String.utf8ByteSize.go l
    induction l with
    | nil => rfl
    | cons c cs ih =>
      simp only [bytesOf, List.length_append, String.utf8ByteSize.go, utf8Char_size, ih]
      omega

/-- A string the engine renders as a timestamp has as many bytes as
characters. -/
theorem len_valid (e : Engine) (s : String) (h : (e.formatTmsp s).isSome = true) :
    len s = s.length :=
  len_ascii s fun c hc => e.ascii s c h hc

theorem foldl_max_le (f : β → Int) (l : List β) (m : Int) :
    m ≤ l.foldl (fun m r => max m (f r)) m ∧
      ∀ r ∈ l, f r ≤ l.foldl (fun m r => max m (f r)) m := by
  induction l generalizing m with
  | nil => simp
  | cons x xs ih =>
    simp only [List.foldl_cons, List.mem_cons, forall_eq_or_imp]
    have h := ih (max m (f x))
    refine ⟨le_trans (le_max_left _ _) h.1, le_trans (le_max_right _ _) h.1, h.2⟩

theorem id_lt_nextID (db : DB) (r : IDRow) (h : r ∈ db.ids) : r.id < nextID db := by
  have := (foldl_max_le (fun r : IDRow => r.id) db.ids db.seqID).2 r h
  unfold nextID
  omega

theorem pkey_lt_nextKey (db : DB) (r : Row) (h : r ∈ db.rows) : r.pkey < nextKey db := by
  have := (foldl_max_le (fun r : Row => r.pkey) db.rows db.seqKey).2 r h
  unfold nextKey
  omega


/-- What useID computes. -/
theorem useID_eval (t : Table α) (c : String) (db : DB) :
    t.useID c db =
      if ∃ r ∈ db.ids, r.id = t.New.Std.ID ∧ r.createdby = c ∧ r.usedby = none then
        (.ok (), { db with
          ids := db.ids.map fun r =>
            if r.id = t.New.Std.ID ∧ r.createdby = c ∧ r.usedby = none then
              { r with usedby := some c }
            else r,
          tick := db.tick + 1 })
      else (.error (.err .idTableNotUpdated), db.next) := by
  unfold Table.useID
  by_cases h : ∃ r ∈ db.ids, r.id = t.New.Std.ID ∧ r.createdby = c ∧ r.usedby = none
  · have hany : db.ids.any
        (fun r => decide (r.id = t.New.Std.ID ∧ r.createdby = c ∧ r.usedby = none)) = true := by
      rw [List.any_eq_true]
      obtain ⟨r, hr, hp⟩ := h
      exact ⟨r, hr, by simpa using hp⟩
    simp only [hany, if_pos h]
    simp
  · have hany : db.ids.any
        (fun r => decide (r.id = t.New.Std.ID ∧ r.createdby = c ∧ r.usedby = none)) = false := by
      rw [List.any_eq_false]
      intro r hr hp
      exact h ⟨r, hr, by simpa using hp⟩
    simp only [hany, if_neg h]
    simp

/-- C10. useID is an atomic, exclusive, once-only claim: it succeeds exactly
when the identity table holds a row with id = New.Std.ID, created_by = creator
and used_by NULL; on success that row gets used_by = creator and nothing else
changes; otherwise it fails with 'ID-table not updated' and leaves both tables
as they were. Hence after newID by `creator`, useID by another actor fails,
useID by `creator` succeeds, and a second useID by `creator` fails. -/
theorem useID_atomic_once (e : Engine) (t : Table α) (creator other : String) (db : DB)
    (hne : other ≠ creator) :
    ((t.useID creator db).1 = .ok () ↔
        ∃ r ∈ db.ids, r.id = t.New.Std.ID ∧ r.createdby = creator ∧ r.usedby = none) ∧
    ((t.useID creator db).1 = .ok () →
        (t.useID creator db).2.ids = db.ids.map (fun r =>
          if r.id = t.New.Std.ID ∧ r.createdby = creator ∧ r.usedby = none then
            { r with usedby := some creator }
          else r) ∧
        (t.useID creator db).2.rows = db.rows) ∧
    ((t.useID creator db).1 ≠ .ok () →
        (t.useID creator db).1 = .error (.err .idTableNotUpdated) ∧
        (t.useID creator db).2.ids = db.ids ∧ (t.useID creator db).2.rows = db.rows) ∧
    ((t.newID e creator db).1 = .ok (nextID db) ∧
      ((t.withNew { t.New.Std with ID := nextID db }).useID other (t.newID e creator db).2).1
        = .error (.err .idTableNotUpdated) ∧
      ((t.withNew { t.New.Std with ID := nextID db }).useID creator
        ((t.withNew { t.New.Std with ID := nextID db }).useID other
          (t.newID e creator db).2).2).1 = .ok () ∧
      ((t.withNew { t.New.Std with ID := nextID db }).useID creator
        ((t.withNew { t.New.Std with ID := nextID db }).useID creator
          ((t.withNew { t.New.Std with ID := nextID db }).useID other
            (t.newID e creator db).2).2).2).1 = .error (.err .idTableNotUpdated)) := by
  refine ⟨?_, ?_, ?_, ?_⟩
  · rw [useID_eval]
    split_ifs with h <;> simp [h]
  · rw [useID_eval]
    split_ifs with h <;> simp
  · rw [useID_eval]
    split_ifs with h <;> simp [DB.next]
  · have hlt : ∀ r ∈ db.ids, r.id ≠ nextID db := fun r hr => ne_of_lt (id_lt_nextID db r hr)
    have hnew : (t.newID e creator db).2.ids =
        db.ids ++ [{ id := nextID db, created := e.clock db.tick, createdby := creator,
                     usedby := none }] := rfl
    have hid : (t.withNew { t.New.Std with ID := nextID db }).New.Std.ID = nextID db := rfl
    have e1 : (t.withNew { t.New.Std with ID := nextID db }).useID other (t.newID e creator db).2
        = (.error (.err .idTableNotUpdated), (t.newID e creator db).2.next) := by
      rw [useID_eval, if_neg]
      rintro ⟨r, hr, hi, hc, _⟩
      rw [hnew, List.mem_append, List.mem_singleton] at hr
      rw [hid] at hi
      rcases hr with hr | hr
      · exact hlt r hr hi
      · subst hr
        exact hne hc.symm
    have e2 : (t.withNew { t.New.Std with ID := nextID db }).useID creator
        (t.newID e creator db).2.next =
        (.ok (), { (t.newID e creator db).2.next with
          ids := (t.newID e creator db).2.next.ids.map fun r =>
            if r.id = nextID db ∧ r.createdby = creator ∧ r.usedby = none then
              { r with usedby := some creator }
            else r,
          tick := (t.newID e creator db).2.next.tick + 1 }) := by
      rw [useID_eval, if_pos]
      · rfl
      · refine ⟨{ id := nextID db, created := e.clock db.tick, createdby := creator,
                  usedby := none }, ?_, rfl, rfl, rfl⟩
        show _ ∈ (t.newID e creator db).2.ids
        rw [hnew]
        simp
    refine ⟨rfl, ?_, ?_, ?_⟩
    · rw [e1]
    · rw [e1]
      show ((t.withNew { t.New.Std with ID := nextID db }).useID creator
        (t.newID e creator db).2.next).1 = _
      rw [e2]
    · rw [e1]
      show ((t.withNew { t.New.Std with ID := nextID db }).useID creator
        ((t.withNew { t.New.Std with ID := nextID db }).useID creator
          (t.newID e creator db).2.next).2).1 = _
      rw [e2, useID_eval, if_neg]
      rintro ⟨r, hr, hi, hc, hu⟩
      rw [hid] at hi
      simp only [List.mem_map] at hr
      obtain ⟨a, ha, rfl⟩ := hr
      split_ifs at hi hc hu with hh
      · exact hh ⟨hi, hc, hu⟩

/-- C10 at a concrete input. -/
theorem useID_atomic_once_witness :
    "B" ≠ "A" ∧
    ((demoTable.newID demoEngine "A" (demoDB [])).1 = .ok (nextID (demoDB [])) ∧
      ((demoTable.withNew { demoTable.New.Std with ID := nextID (demoDB []) }).useID "B"
        (demoTable.newID demoEngine "A" (demoDB [])).2).1
        = .error (.err .idTableNotUpdated)) :=
  ⟨by decide,
    (useID_atomic_once demoEngine demoTable "A" "B" (demoDB []) (by decide)).2.2.2.1,
    (useID_atomic_once demoEngine demoTable "A" "B" (demoDB []) (by decide)).2.2.2.2.1⟩

/-- What handleTs computes, statement by statement. -/
theorem handleTs_eval (e : Engine) (ts : String) (db : DB) :
    handleTs e ts db =
      if ts = Now then (.ok ts, db)
      else if (e.formatTmsp ts).isSome = false then
        (.error (.err .notValidTimestamp), db.after 1)
      else if ts.length < 19 then (.error (.err (.tooShort "tmsp")), db.after 1)
      else
        match e.seconds (first19 ts) with
        | none => (.error (.err .scanningRow), db.after 2)
        | some s =>
          if e.clockSeconds (db.tick + 1) - s > 0 then
            (.error (.err (.cannotChangePast ts)), db.after 2)
          else (.ok ts, db.after 2) := by
  unfold handleTs
  by_cases hn : ts = Now
  · simp [hn, pure_apply]
  · rw [if_neg hn, if_neg hn]
    cases hf : (e.formatTmsp ts).isSome
    · simp [Tmsp, hn, IsTmsp, bind_apply, hf, fail, DB.next, DB.after]
    · have hb : len ts = ts.length := len_valid e ts hf
      by_cases hl : ts.length < 19
      · simp [Tmsp, hn, IsTmsp, CmpTmspNow, bind_apply, hf, hb, hl, fail, DB.next, DB.after]
      · cases hs : e.seconds (first19 ts) with
        | none =>
          simp [Tmsp, hn, IsTmsp, CmpTmspNow, bind_apply, hf, hb, hl, hs, fail, DB.next,
            DB.after]
        | some s =>
          by_cases h1 : e.clockSeconds (db.tick + 1) - s > 0
          · simp [Tmsp, hn, IsTmsp, CmpTmspNow, bind_apply, pure_apply, hf, hb, hl, hs, h1,
              fail, DB.next, DB.after]
          · by_cases h2 : e.clockSeconds (db.tick + 1) - s = 0
            · simp [Tmsp, hn, IsTmsp, CmpTmspNow, bind_apply, pure_apply, hf, hb, hl, hs, h1,
                h2, fail, DB.next, DB.after]
            · simp [Tmsp, hn, IsTmsp, CmpTmspNow, bind_apply, pure_apply, hf, hb, hl, hs, h1,
                h2, fail, DB.next, DB.after]

/-- A handleTs that succeeds returns its argument and has changed no table. -/
theorem handleTs_ok (e : Engine) (ts out : String) (db : DB)
    (h : (handleTs e ts db).1 = .ok out) :
    handleTs e ts db = (.ok ts, db.after (handleTicks ts)) := by
  rw [handleTs_eval] at h ⊢
  unfold handleTicks
  split_ifs at h ⊢
  all_goals try (simp at h)
  · simp [DB.after]
  · split at h
    · simp at h
    · split_ifs at h
      simp_all

/-- A timestamp that handleTs accepts has a stored rendering in every
statement. -/
theorem handleTs_stored (e : Engine) (ts out : String) (db : DB)
    (h : (handleTs e ts db).1 = .ok out) (n : Nat) : ∃ c, e.stored n ts = some c := by
  rw [handleTs_eval] at h
  unfold Engine.stored
  by_cases hn : ts = Now
  · exact ⟨_, if_pos hn⟩
  · rw [if_neg hn] at h ⊢
    cases hf : e.formatTmsp ts with
    | none => simp [hf] at h
    | some c => exact ⟨c, rfl⟩

/-- What a query returns once a scan function is there. -/
theorem Query_eval (t : Table α) (sel : Row → Bool) (db : DB) (h : t.Scan.isSome = true) :
    t.Query sel db = (.ok ((db.rows.filter sel).map t.recordOf), db.next) := by
  unfold Table.Query Table.recordOf
  cases hs : t.Scan with
  | none => simp [hs] at h
  | some scan =>
    cases hf : db.rows.filter sel <;> simp

theorem record_ne_iff (a b : Record α) : (a.Idv ≠ b.Idv ∨ a.Std ≠ b.Std) ↔ b ≠ a := by
  cases a; cases b
  simp only [ne_eq, Record.mk.injEq]
  tauto

theorem mem_of_filter_cons {l : List Row} {p : Row → Bool} {r : Row} {rest : List Row}
    (h : l.filter p = r :: rest) : r ∈ l ∧ p r = true := by
  have : r ∈ l.filter p := by rw [h]; simp
  exact List.mem_filter.mp this

theorem after_after (db : DB) (m n : Nat) : (db.after m).after n = db.after (m + n) := by
  simp [DB.after, Nat.add_assoc]

theorem after_next (db : DB) (m : Nat) : (db.after m).next = db.after (m + 1) := by
  simp [DB.after, DB.next, Nat.add_assoc]

/-- The prechecks of Terminate, MoveBegin and MoveUntil that the proofs use. -/
theorem terminatePrecs_none (t : Table α) (ts c : String) (tx : Option Tx)
    (h : t.terminatePrecs ts c tx = none) :
    ts ≠ "" ∧ c ≠ "" ∧ t.Old.Std.Pkey ≠ 0 ∧ t.Scan.isSome = true := by
  unfold Table.terminatePrecs writePrecs at h
  split at h
  · simp at h
  · rename_i hw
    split_ifs at h hw
    simp_all [Option.isSome_iff_ne_none]

theorem moveBeginPrecs_eq (t : Table α) (ts c : String) (tx : Option Tx) :
    t.moveBeginPrecs ts c tx = t.terminatePrecs ts c tx := rfl

theorem moveUntilPrecs_eq (t : Table α) (ts c : String) (tx : Option Tx) :
    t.moveUntilPrecs ts c tx = t.terminatePrecs ts c tx := rfl

/-- The prechecks of Change that the proofs use. -/
theorem changePrecs_none (t : Table α) (ts c : String) (tx : Option Tx)
    (h : t.changePrecs ts c tx = none) :
    ts ≠ "" ∧ c ≠ "" ∧ t.Old.Std.Pkey ≠ 0 ∧ t.Scan.isSome = true ∧ t.Vals.isSome = true ∧
      t.Atts.isSome = true ∧ t.New.Idv.isSome = true := by
  unfold Table.changePrecs writePrecs at h
  split at h
  · simp at h
  · rename_i hw
    split_ifs at h hw
    simp_all [Option.isSome_iff_ne_none]

/-- The re-read of `Old.pkey` when the first row with that key is `r`. -/
theorem byKey_found (t : Table α) (db : DB) (r : Row) (rest : List Row)
    (hscan : t.Scan.isSome = true)
    (hrow : db.rows.filter (fun x => decide (x.pkey = t.Old.Std.Pkey)) = r :: rest) :
    t.byKey t.Old.Std.Pkey db = (.ok (t.recordOf r :: rest.map t.recordOf), db.next) := by
  unfold Table.byKey
  rw [Query_eval t _ db hscan, hrow]
  rfl

/-- C3, as amended. Optimistic concurrency guard: whenever a Change, Terminate,
MoveBegin or MoveUntil call passes its prechecks and handleTs, is not answered
before the re-read (Change: New.Idv differs from Old.Idv; Terminate and
MoveUntil: ts differs from Old.until and is not below Old.begin; MoveBegin: ts
differs from Old.begin and is not above Old.until), and the stored row with key
Old.pkey differs from Old in a std field or in the payload, the call returns
the 'competitively changed' error and has changed no table: the database after
the call is the one before it, a few statements (the timestamp checks and the
re-read) later. -/
theorem competitive_change_refused (e : Engine) (t : Table α) (ts c : String)
    (tx : Option Tx) (db : DB) (r : Row) (rest : List Row)
    (hts : (handleTs e ts db).1 = .ok ts)
    (hrow : db.rows.filter (fun x => decide (x.pkey = t.Old.Std.Pkey)) = r :: rest)
    (hdiff : t.recordOf r ≠ t.Old) :
    (t.changePrecs ts c tx = none → t.New.Idv ≠ t.Old.Idv →
      t.Change e ts c tx db =
        (.error (.err .competitivelyChanged), db.after (handleTicks ts + 1))) ∧
    (t.terminatePrecs ts c tx = none → ts ≠ t.Old.Std.Until → ¬ strLt ts t.Old.Std.Begin →
      t.Terminate e ts c tx db =
        (.error (.err .competitivelyChanged), db.after (handleTicks ts + 1))) ∧
    (t.moveBeginPrecs ts c tx = none → ts ≠ t.Old.Std.Begin → ¬ strLt t.Old.Std.Until ts →
      t.MoveBegin e ts c tx db =
        (.error (.err .competitivelyChanged), db.after (handleTicks ts + 1))) ∧
    (t.moveUntilPrecs ts c tx = none → ts ≠ t.Old.Std.Until → ¬ strLt ts t.Old.Std.Begin →
      t.MoveUntil e ts c tx db =
        (.error (.err .competitivelyChanged), db.after (handleTicks ts + 1))) := by
  have hh := handleTs_ok e ts ts db hts
  have hkey : r.pkey = t.Old.Std.Pkey := by simpa using (mem_of_filter_cons hrow).2
  have hrow1 : (db.after (handleTicks ts)).rows.filter
      (fun x => decide (x.pkey = t.Old.Std.Pkey)) = r :: rest := hrow
  have hcmp : t.Old.Idv ≠ (t.recordOf r).Idv ∨ t.Old.Std ≠ (t.recordOf r).Std :=
    (record_ne_iff _ _).mpr hdiff
  have hpk : (t.recordOf r).Std.Pkey = r.pkey := rfl
  refine ⟨?_, ?_, ?_, ?_⟩
  · intro hp hidv
    obtain ⟨_, _, hk0, hscan, _⟩ := changePrecs_none t ts c tx hp
    simp only [Table.Change, hp, Table.change, bind_apply, hh, if_neg hidv,
      byKey_found t _ r rest hscan hrow1, hpk, hkey, if_neg hk0, if_pos hcmp, fail, after_next]
  · intro hp h1 h2
    obtain ⟨_, _, hk0, hscan⟩ := terminatePrecs_none t ts c tx hp
    simp only [Table.Terminate, hp, Table.terminate, bind_apply, hh, if_neg h1, if_neg h2,
      byKey_found t _ r rest hscan hrow1, hpk, hkey, if_neg hk0, if_pos hcmp, fail, after_next]
  · intro hp h1 h2
    obtain ⟨_, _, hk0, hscan⟩ := terminatePrecs_none t ts c tx hp
    simp only [Table.MoveBegin, hp, Table.moveBegin, bind_apply, hh, if_neg h1, if_neg h2,
      byKey_found t _ r rest hscan hrow1, hpk, hkey, if_neg hk0, if_pos hcmp, fail, after_next]
  · intro hp h1 h2
    obtain ⟨_, _, hk0, hscan⟩ := terminatePrecs_none t ts c tx hp
    simp only [Table.MoveUntil, hp, Table.moveUntil, bind_apply, hh, if_neg h1, if_neg h2,
      byKey_found t _ r rest hscan hrow1, hpk, hkey, if_neg hk0, if_pos hcmp, fail, after_next]

/-- C3 at a concrete input: the stored row carries another payload than Old. -/
theorem competitive_change_refused_witness :
    (handleTs demoEngine "2120-01-01 00:00:00.000" (demoDB [{ rowA with vals := [some "w"] }])).1
      = .ok "2120-01-01 00:00:00.000" ∧
    (demoWith rowA "q").terminatePrecs "2120-01-01 00:00:00.000" "T" (some ()) = none ∧
    (demoWith rowA "q").Terminate demoEngine "2120-01-01 00:00:00.000" "T" (some ())
        (demoDB [{ rowA with vals := [some "w"] }]) =
      (.error (.err .competitivelyChanged),
        (demoDB [{ rowA with vals := [some "w"] }]).after 3) :=
  ⟨by decide, by decide,
    (competitive_change_refused demoEngine (demoWith rowA "q") "2120-01-01 00:00:00.000" "T"
      (some ()) (demoDB [{ rowA with vals := [some "w"] }]) { rowA with vals := [some "w"] } []
      (by decide) (by decide) (by decide)).2.1 (by decide) (by decide) (by decide)⟩

/-- C3 as stated fails: a Terminate whose ts equals Old.until passes the
prechecks and handleTs, the stored row with key Old.pkey differs from Old in
its payload, and the call returns Old.pkey without any error. -/
theorem competitive_change_counterexample :
    (demoWith rowA "q").terminatePrecs "2150-01-01 00:00:00.000" "T" (some ()) = none ∧
    (handleTs demoEngine "2150-01-01 00:00:00.000" (demoDB [{ rowA with vals := [some "w"] }])).1
      = .ok "2150-01-01 00:00:00.000" ∧
    (demoDB [{ rowA with vals := [some "w"] }]).rows.filter
      (fun x => decide (x.pkey = (demoWith rowA "q").Old.Std.Pkey))
      = [{ rowA with vals := [some "w"] }] ∧
    (demoWith rowA "q").recordOf { rowA with vals := [some "w"] } ≠ (demoWith rowA "q").Old ∧
    ((demoWith rowA "q").Terminate demoEngine "2150-01-01 00:00:00.000" "T" (some ())
        (demoDB [{ rowA with vals := [some "w"] }])).1 = .ok 1 := by
  decide

/-! ## The DML primitives, inverted -/

/-- A successful insert appends exactly the row `t.New` describes. -/
theorem ins_ok (e : Engine) (t : Table α) (db db1 : DB) (key : Int)
    (h : t.ins e db = (.ok key, db1)) :
    ∃ valsFn b, t.Vals = some valsFn ∧ e.stored db.tick t.New.Std.Begin = some b ∧
      key = nextKey db ∧
      (∀ r ∈ db.rows, ¬ (r.id = t.New.Std.ID ∧ r.begin = b)) ∧
      db1 = { db with
        rows := db.rows ++ [{
          id := t.New.Std.ID, begin := b,
          until_ := if t.New.Std.Until = "" then none else e.formatTmsp t.New.Std.Until,
          pkey := key, created := e.clock db.tick, createdby := t.New.Std.CreatedBy,
          ended := if t.New.Std.Ended = "" then none else e.formatTmsp t.New.Std.Ended,
          endedby := if t.New.Std.EndedBy = "" then none else some t.New.Std.EndedBy,
          vals := domainCols (t.Atts.getD []).length (valsFn t.New.Idv) }],
        seqKey := key, tick := db.tick + 1 } := by
  unfold Table.ins at h
  cases hv : t.Vals with
  | none => simp [hv] at h
  | some valsFn =>
    simp only [hv] at h
    by_cases h1 : (valsFn t.New.Idv).length < (t.Atts.getD []).length
    · simp [h1] at h
    · rw [if_neg h1] at h
      by_cases h2 : t.New.Std.Begin = ""
      · simp [h2] at h
      · rw [if_neg h2] at h
        cases hb : e.stored db.tick t.New.Std.Begin with
        | none => simp [hb] at h
        | some b =>
          simp only [hb] at h
          by_cases h3 : t.New.Std.ID = 0 ∨ t.New.Std.CreatedBy = "" ∨
              e.domainOk (domainCols (t.Atts.getD []).length (valsFn t.New.Idv)) = false ∨
              db.rows.any (fun r => decide (r.id = t.New.Std.ID ∧ r.begin = b)) = true
          · rw [if_pos h3] at h
            simp at h
          · rw [if_neg h3] at h
            simp only [Prod.mk.injEq, Except.ok.injEq] at h
            refine ⟨valsFn, b, rfl, rfl, h.1.symm, ?_, ?_⟩
            · intro r hr hc
              apply h3
              right; right; right
              rw [List.any_eq_true]
              exact ⟨r, hr, by simpa using hc⟩
            · rw [← h.2, ← h.1]

/-- An `until` update of a key that some row carries succeeds and rewrites
the rows with that key. -/
theorem until_found (e : Engine) (t : Table α) (db : DB)
    (h : ∃ r ∈ db.rows, r.pkey = t.New.Std.Pkey) :
    t.until_ e db = (.ok (), { db with
      rows := db.rows.map fun r =>
        if r.pkey = t.New.Std.Pkey then
          { r with until_ := e.stored db.tick t.New.Std.Until,
                   ended := some (e.clock db.tick),
                   endedby := some t.New.Std.EndedBy }
        else r,
      tick := db.tick + 1 }) := by
  unfold Table.until_
  have hany : db.rows.any (fun r => decide (r.pkey = t.New.Std.Pkey)) = true := by
    rw [List.any_eq_true]
    obtain ⟨r, hr, hp⟩ := h
    exact ⟨r, hr, by simpa using hp⟩
  simp [hany]

theorem strLt_ne {a b : String} (h : strLt a b) : b ≠ a := by
  rintro rfl
  exact lt_irrefl _ h

/-! ## Reads and updates under the key constraints -/

/-- If `w` is in the list and is the only element that passes the filter, the
filtered list starts with `w`. -/
theorem filter_head {l : List Row} {p : Row → Bool} {w : Row} (hw : w ∈ l)
    (hp : p w = true) (huniq : ∀ x ∈ l, p x = true → x = w) :
    ∃ rest, l.filter p = w :: rest := by
  induction l with
  | nil => simp at hw
  | cons a as ih =>
    by_cases hpa : p a = true
    · have : a = w := huniq a (by simp) hpa
      subst this
      exact ⟨as.filter p, by simp [List.filter_cons, hpa]⟩
    · have hwa : w ∈ as := by
        rcases List.mem_cons.mp hw with h | h
        · subst h; exact absurd hp hpa
        · exact h
      obtain ⟨rest, hrest⟩ := ih hwa (fun x hx => huniq x (List.mem_cons_of_mem _ hx))
      exact ⟨rest, by simp [List.filter_cons, hpa, hrest]⟩

theorem not_strLt_empty (s : String) : ¬ strLt s "" := by
  have key : ∀ l : List Char, ¬ l < [] := fun l h => by cases h
  exact key s.data

theorem strLt_asymm {a b : String} (h : strLt a b) : ¬ strLt b a := lt_asymm h

theorem stored_canonical (e : Engine) (n : Nat) (u : String) (h : e.canonical u) :
    e.stored n u = some u := by
  unfold Engine.stored
  rw [if_neg h.1, h.2]

/-- A `begin` update of a key that some row carries, with a rendering that no
other version of the same id begins at, succeeds and rewrites the rows with
that key. -/
theorem begin_found (e : Engine) (t : Table α) (db : DB) (b : String)
    (hhit : ∃ r ∈ db.rows, r.pkey = t.New.Std.Pkey)
    (hst : e.stored db.tick t.New.Std.Begin = some b)
    (hfree : ∀ r ∈ db.rows, r.pkey = t.New.Std.Pkey → ∀ q ∈ db.rows,
      q.pkey ≠ t.New.Std.Pkey → q.id = r.id → q.begin ≠ b) :
    t.begin e db = (.ok (), { db with
      rows := db.rows.map fun r =>
        if r.pkey = t.New.Std.Pkey then
          { r with begin := b, created := e.clock db.tick, createdby := t.New.Std.CreatedBy }
        else r,
      tick := db.tick + 1 }) := by
  unfold Table.begin
  have hany : db.rows.any (fun r => decide (r.pkey = t.New.Std.Pkey)) = true := by
    rw [List.any_eq_true]
    obtain ⟨r, hr, hp⟩ := hhit
    exact ⟨r, hr, by simpa using hp⟩
  have hno : ¬ (db.rows.any (fun r => decide (r.pkey = t.New.Std.Pkey) &&
      db.rows.any (fun q => decide (q.pkey ≠ t.New.Std.Pkey ∧ q.id = r.id ∧ q.begin = b)))
      = true) := by
    rw [List.any_eq_true]
    rintro ⟨r, hr, hc⟩
    rw [Bool.and_eq_true, List.any_eq_true] at hc
    obtain ⟨hrp, q, hq, hqc⟩ := hc
    have hrp : r.pkey = t.New.Std.Pkey := by simpa using hrp
    have hqc : q.pkey ≠ t.New.Std.Pkey ∧ q.id = r.id ∧ q.begin = b := by simpa using hqc
    exact hfree r hr hrp q hq hqc.1 hqc.2.1 hqc.2.2
  rw [hany]
  simp only [Bool.true_eq_false, if_false, hst]
  rw [if_neg hno]

/-- The re-read of `Old.pkey` in a table with a primary key finds the row
`old` that carries the key. -/
theorem byKey_old (t : Table α) (db : DB) (old : Row) (hscan : t.Scan.isSome = true)
    (hold : old ∈ db.rows) (hk : old.pkey = t.Old.Std.Pkey) (hpk : UniquePkey db.rows) :
    ∃ rest, t.byKey t.Old.Std.Pkey db = (.ok (t.recordOf old :: rest), db.next) := by
  obtain ⟨rest, hrest⟩ := filter_head (p := fun x => decide (x.pkey = t.Old.Std.Pkey)) hold
    (by simpa using hk) (fun x hx hp => hpk x hx old hold (by rw [hk]; simpa using hp))
  exact ⟨rest.map t.recordOf, byKey_found t db old rest hscan hrest⟩

/-- The follower read finds the row `f` that begins at the canonical
timestamp `u`, in a table with the unique index on `(id, begin)`. -/
theorem byIDBegin_found (e : Engine) (t : Table α) (db : DB) (f : Row) (u : String)
    (hscan : t.Scan.isSome = true) (hf : f ∈ db.rows) (hfb : f.begin = u)
    (hcan : e.canonical u) (hib : UniqueIDBegin db.rows) :
    ∃ rest, t.byIDBegin e f.id u db = (.ok (t.recordOf f :: rest), db.next) := by
  unfold Table.byIDBegin
  rw [Query_eval t _ db hscan, stored_canonical e _ u hcan]
  obtain ⟨rest, hrest⟩ := filter_head
    (p := fun r => decide (r.id = f.id ∧ some r.begin = some u)) hf
    (by simp [hfb]) (fun x hx hp => by
      have hp : x.id = f.id ∧ x.begin = u := by simpa using hp
      exact hib x hx f hf hp.1 (by rw [hp.2, hfb]))
  rw [hrest]
  exact ⟨rest.map t.recordOf, rfl⟩

/-- An `until` update at statement `n` of a key that some row carries. -/
theorem until_at (e : Engine) (t : Table α) (db : DB) (key : Int) (ts who : String) (n : Nat)
    (hk : t.New.Std.Pkey = key) (hu : t.New.Std.Until = ts) (hw : t.New.Std.EndedBy = who)
    (hn : db.tick = n) (h : ∃ r ∈ db.rows, r.pkey = key) :
    t.until_ e db = (.ok (), { db with
      rows := closeRows db.rows key (e.stored n ts) (e.clock n) who, tick := n + 1 }) := by
  subst hk hu hw hn
  exact until_found e t db h

/-- A `begin` update at statement `n` of a key that some row carries, with a
rendering that no other version of the same id begins at. -/
theorem begin_at (e : Engine) (t : Table α) (db : DB) (key : Int) (ts who b : String)
    (n : Nat) (hk : t.New.Std.Pkey = key) (hu : t.New.Std.Begin = ts)
    (hw : t.New.Std.CreatedBy = who) (hn : db.tick = n)
    (hhit : ∃ r ∈ db.rows, r.pkey = key)
    (hst : e.stored n ts = some b)
    (hfree : ∀ r ∈ db.rows, r.pkey = key → ∀ q ∈ db.rows,
      q.pkey ≠ key → q.id = r.id → q.begin ≠ b) :
    t.begin e db = (.ok (), { db with
      rows := moveRows db.rows key b (e.clock n) who, tick := n + 1 }) := by
  subst hk hu hw hn
  exact begin_found e t db b hhit hst hfree

/-- A delete at statement `n` of a key that some row carries. -/
theorem del_at (t : Table α) (db : DB) (key : Int) (n : Nat)
    (hk : t.New.Std.Pkey = key) (hn : db.tick = n) (h : ∃ r ∈ db.rows, r.pkey = key) :
    t.del db = (.ok (), { db with rows := dropRows db.rows [key], tick := n + 1 }) := by
  subst hk hn
  unfold Table.del dropRows
  have hany : db.rows.any (fun r => decide (r.pkey = t.New.Std.Pkey)) = true := by
    rw [List.any_eq_true]
    obtain ⟨r, hr, hp⟩ := h
    exact ⟨r, hr, by simpa using hp⟩
  simp [hany]

theorem mem_closeRows_of_ne {rows : List Row} {key : Int} {v : Option String}
    {s w : String} {x : Row} (hx : x ∈ rows) (hne : x.pkey ≠ key) :
    x ∈ closeRows rows key v s w := by
  unfold closeRows
  rw [List.mem_map]
  exact ⟨x, hx, by rw [if_neg hne]⟩

/-- Every row after an `until` update comes from a row before it with the same
id, begin and pkey. -/
theorem closeRows_origin {rows : List Row} {key : Int} {v : Option String}
    {s w : String} {x : Row} (hx : x ∈ closeRows rows key v s w) :
    ∃ y ∈ rows, y.id = x.id ∧ y.begin = x.begin ∧ y.pkey = x.pkey ∧
      (y.pkey ≠ key → x = y) := by
  unfold closeRows at hx
  rw [List.mem_map] at hx
  obtain ⟨y, hy, rfl⟩ := hx
  refine ⟨y, hy, ?_⟩
  split_ifs with h
  · exact ⟨rfl, rfl, rfl, fun hne => absurd h hne⟩
  · exact ⟨rfl, rfl, rfl, fun _ => rfl⟩

theorem closeRows_uniqueIDBegin {rows : List Row} {key : Int} {v : Option String}
    {s w : String} (h : UniqueIDBegin rows) :
    UniqueIDBegin (closeRows rows key v s w) := by
  intro a ha b hb hid hbeg
  unfold closeRows at ha hb
  rw [List.mem_map] at ha hb
  obtain ⟨a0, ha0, rfl⟩ := ha
  obtain ⟨b0, hb0, rfl⟩ := hb
  have : a0 = b0 := by
    apply h a0 ha0 b0 hb0
    · split_ifs at hid <;> exact hid
    · split_ifs at hbeg <;> exact hbeg
  subst this
  rfl

/-- C8, as amended. MoveUntil to an earlier edge keeps the follower adjacent:
in a table that satisfies its primary key and its unique index on (id, begin),
for every pair of adjacent versions Old = [b, u) and F = [u, x) of one id, u
being a canonical timestamp, and every ts with b < ts < u that handleTs accepts
and at whose stored rendering no other version of the id begins, a
MoveUntil(ts, creator) on Old succeeds, returns Old.pkey, sets Old.until to ts
as the first update stores it and Old.ended_by = creator, sets F.begin to ts as
the second update stores it and F.created_by = creator, deletes nothing and
leaves every other row unchanged. -/
theorem moveUntil_earlier_edge (e : Engine) (t : Table α) (ts creator : String)
    (tx : Option Tx) (db : DB) (old f : Row) (u c : String)
    (hp : t.moveUntilPrecs ts creator tx = none)
    (hts : (handleTs e ts db).1 = .ok ts)
    (hpk : UniquePkey db.rows) (hib : UniqueIDBegin db.rows)
    (hold : old ∈ db.rows) (hf : f ∈ db.rows) (hOld : t.Old = t.recordOf old)
    (hu : old.until_ = some u) (hfb : f.begin = u) (hfid : f.id = old.id)
    (hcan : e.canonical u)
    (h1 : strLt old.begin ts) (h2 : strLt ts u)
    (hc : e.stored (db.tick + handleTicks ts + 3) ts = some c)
    (hfree : ∀ q ∈ db.rows, q.pkey ≠ f.pkey → q.id = f.id → q.begin ≠ c) :
    t.MoveUntil e ts creator tx db =
      (.ok old.pkey, { db with
        rows := moveRows
          (closeRows db.rows old.pkey (e.stored (db.tick + handleTicks ts + 1) ts)
            (e.clock (db.tick + handleTicks ts + 1)) creator)
          f.pkey c (e.clock (db.tick + handleTicks ts + 3)) creator,
        tick := db.tick + handleTicks ts + 4 }) := by
  obtain ⟨_, _, hk0, hscan⟩ := terminatePrecs_none t ts creator tx hp
  have hh := handleTs_ok e ts ts db hts
  have hOP : t.Old.Std.Pkey = old.pkey := by rw [hOld]; rfl
  have hOB : t.Old.Std.Begin = old.begin := by rw [hOld]; rfl
  have hOU : t.Old.Std.Until = u := by rw [hOld]; simp [Table.recordOf, scanStd, hu]
  have hOI : t.Old.Std.ID = f.id := by rw [hOld, hfid]; rfl
  have hune : u ≠ "" := fun h => not_strLt_empty ts (h ▸ h2)
  have hbu : old.begin ≠ u := fun h => (lt_asymm h1) (h ▸ h2)
  have hfo : f.pkey ≠ old.pkey := by
    intro h
    have := hpk f hf old hold h
    exact hbu (by rw [← hfb, this])
  obtain ⟨rest, hby⟩ := byKey_old t (db.after (handleTicks ts)) old hscan hold hOP.symm hpk
  have hcmp : ¬ (t.Old.Idv ≠ (t.recordOf old).Idv ∨ t.Old.Std ≠ (t.recordOf old).Std) := by
    rw [record_ne_iff]
    exact fun h => h hOld.symm
  have hpk0 : (t.recordOf old).Std.Pkey ≠ 0 := by
    show old.pkey ≠ 0
    rw [← hOP]; exact hk0
  have hnu : ¬ ts = t.Old.Std.Until := hOU ▸ (strLt_ne h2).symm
  have hnlb : ¬ strLt ts t.Old.Std.Begin := hOB ▸ strLt_asymm h1
  have hnb : ¬ ts = t.Old.Std.Begin := hOB ▸ strLt_ne h1
  have hue : t.Old.Std.Until ≠ "" := hOU ▸ hune
  have hnl : ¬ strLt t.Old.Std.Until ts := hOU ▸ strLt_asymm h2
  -- the update of Old
  have hun := until_at e (t.withNew { t.Old.Std with Until := ts, EndedBy := creator })
    (db.after (handleTicks ts)).next old.pkey ts creator (db.tick + handleTicks ts + 1)
    hOP rfl rfl rfl ⟨old, hold, rfl⟩
  -- the follower read
  obtain ⟨rest2, hfol⟩ := byIDBegin_found e t
    { (db.after (handleTicks ts)).next with
      rows := closeRows (db.after (handleTicks ts)).next.rows old.pkey
        (e.stored (db.tick + handleTicks ts + 1) ts)
        (e.clock (db.tick + handleTicks ts + 1)) creator,
      tick := db.tick + handleTicks ts + 1 + 1 }
    f u hscan (mem_closeRows_of_ne hf hfo) hfb hcan (closeRows_uniqueIDBegin hib)
  -- the update of the follower
  have hbe := begin_at e
    (t.withNew { (t.recordOf f).Std with Begin := ts, CreatedBy := creator })
    ({ (db.after (handleTicks ts)).next with
      rows := closeRows (db.after (handleTicks ts)).next.rows old.pkey
        (e.stored (db.tick + handleTicks ts + 1) ts)
        (e.clock (db.tick + handleTicks ts + 1)) creator,
      tick := db.tick + handleTicks ts + 1 + 1 } : DB).next
    f.pkey ts creator c (db.tick + handleTicks ts + 3) rfl rfl rfl rfl
    ⟨f, mem_closeRows_of_ne hf hfo, rfl⟩ hc
    (by
      intro r hr hrk q hq hqk hqi
      obtain ⟨r0, hr0, hri, _, hrp, _⟩ := closeRows_origin hr
      obtain ⟨q0, hq0, hqi0, hqb, hqp, _⟩ := closeRows_origin hq
      have : r0 = f := hpk r0 hr0 f hf (by rw [hrp, hrk])
      subst this
      rw [← hqb]
      exact hfree q0 hq0 (by rw [hqp]; exact hqk) (by rw [hqi0, hqi, hri]))
  simp only [Table.MoveUntil, hp, Table.moveUntil, bind_apply, hh, if_neg hnu, if_neg hnlb]
  rw [hby]
  rw [← hOI, ← hOU] at hfol
  simp only [if_neg hpk0, if_neg hcmp, if_neg hnb, bind_apply, hun, pure_apply, if_pos hue,
    hfol, if_neg hnl, hbe]
  rw [hOP]
  rfl


/-- C8 at a concrete input: MoveUntil to 2120 on `[2100, 2150)` with the
follower `[2150, 2200)`. -/
theorem moveUntil_earlier_edge_witness :
    strLt rowA.begin "2120-01-01 00:00:00.000" ∧
    strLt "2120-01-01 00:00:00.000" "2150-01-01 00:00:00.000" ∧
    (demoWith rowA "x").MoveUntil demoEngine "2120-01-01 00:00:00.000" "T" (some ())
        (demoDB [rowA, rowB]) =
      (.ok 1, { demoDB [rowA, rowB] with
        rows := [{ rowA with until_ := some "2120-01-01 00:00:00.000",
                             ended := some "2026-11-04 10:00:00.003", endedby := some "T" },
                 { rowB with begin := "2120-01-01 00:00:00.000",
                             created := "2026-11-04 10:00:00.005", createdby := "T" }],
        tick := 6 }) :=
  ⟨by decide, by decide,
    (moveUntil_earlier_edge demoEngine (demoWith rowA "x") "2120-01-01 00:00:00.000" "T"
      (some ()) (demoDB [rowA, rowB]) rowA rowB "2150-01-01 00:00:00.000"
      "2120-01-01 00:00:00.000" (by decide) (by decide) (by unfold UniquePkey; decide)
      (by unfold UniqueIDBegin; decide) (by decide) (by decide) rfl rfl rfl rfl
      ⟨by decide, by decide⟩ (by decide) (by decide) (by decide) (by decide)).trans
      (by decide)⟩

/-- C8 as stated fails, in two ways. (a) Old = `[2100, 2170)` and F =
`[2170, open)` are adjacent, and another version of the id begins at 2150: a
MoveUntil to ts = 2150 on Old, which handleTs accepts, closes Old at 2150 and
then fails with 'error executing update' when the unique index refuses the new
begin of F. (b) Old = `[2100, 2150)`, F = `[2150, 2200)` and ts is the valid
19-character timestamp `2120-06-06 00:00:00`: the call succeeds, and Old.until
and F.begin hold the 23-character rendering of ts, not ts. -/
theorem moveUntil_earlier_counterexample :
    ((handleTs demoEngine "2150-01-01 00:00:00.000"
        (demoDB [demoRow 1 "2100-01-01 00:00:00.000" (some "2170-01-01 00:00:00.000") 1 "x",
                 demoRow 1 "2150-01-01 00:00:00.000" none 2 "y",
                 demoRow 1 "2170-01-01 00:00:00.000" none 3 "z"])).1
        = .ok "2150-01-01 00:00:00.000" ∧
      strLt "2100-01-01 00:00:00.000" "2150-01-01 00:00:00.000" ∧
      strLt "2150-01-01 00:00:00.000" "2170-01-01 00:00:00.000" ∧
      ((demoWith (demoRow 1 "2100-01-01 00:00:00.000" (some "2170-01-01 00:00:00.000") 1 "x")
          "x").MoveUntil demoEngine "2150-01-01 00:00:00.000" "T" (some ())
        (demoDB [demoRow 1 "2100-01-01 00:00:00.000" (some "2170-01-01 00:00:00.000") 1 "x",
                 demoRow 1 "2150-01-01 00:00:00.000" none 2 "y",
                 demoRow 1 "2170-01-01 00:00:00.000" none 3 "z"])).1
        = .error (.err .executingUpdate)) ∧
    ((handleTs demoEngine "2120-06-06 00:00:00" (demoDB [rowA, rowB])).1
        = .ok "2120-06-06 00:00:00" ∧
      strLt rowA.begin "2120-06-06 00:00:00" ∧
      strLt "2120-06-06 00:00:00" "2150-01-01 00:00:00.000" ∧
      ((demoWith rowA "x").MoveUntil demoEngine "2120-06-06 00:00:00" "T" (some ())
        (demoDB [rowA, rowB])).1 = .ok 1 ∧
      ((demoWith rowA "x").MoveUntil demoEngine "2120-06-06 00:00:00" "T" (some ())
        (demoDB [rowA, rowB])).2.rows.map (fun r => (r.pkey, r.begin, r.until_))
        = [(1, "2100-01-01 00:00:00.000", some "2120-06-06 00:00:00.000"),
           (2, "2120-06-06 00:00:00.000", some "2200-01-01 00:00:00.000")]) := by
  decide

/-! ## The operations at inputs where they miss the specification -/

/-- C2 (Invariant I1 is not preserved). The table holds the versions
`[2100, 2150)` and `[2150, 2200)` of id 1, which do not overlap. A Change at
ts = 2120 on the first of them, read as stored and given a new payload,
succeeds with the new key 4, and afterwards the table holds `[2100, 2120)`,
`[2150, 2200)` and the new open-ended version `[2120, open)`, which overlaps
the second: Change closes Old and appends without looking at Old's followers. -/
theorem change_breaks_nonoverlap :
    NonOverlap (demoDB [rowA, rowB]).rows ∧
    (demoWith rowA "q").recordOf rowA = (demoWith rowA "q").Old ∧
    ((demoWith rowA "q").Change demoEngine "2120-01-01 00:00:00.000" "T" (some ())
        (demoDB [rowA, rowB])).1 = .ok 4 ∧
    ((demoWith rowA "q").Change demoEngine "2120-01-01 00:00:00.000" "T" (some ())
        (demoDB [rowA, rowB])).2.rows.map (fun r => (r.pkey, r.id, r.begin, r.until_))
      = [(1, 1, "2100-01-01 00:00:00.000", some "2120-01-01 00:00:00.000"),
         (2, 1, "2150-01-01 00:00:00.000", some "2200-01-01 00:00:00.000"),
         (4, 1, "2120-01-01 00:00:00.000", none)] ∧
    ¬ NonOverlap ((demoWith rowA "q").Change demoEngine "2120-01-01 00:00:00.000" "T"
        (some ()) (demoDB [rowA, rowB])).2.rows := by
  unfold NonOverlap
  decide

/-- C4 (competitive deletion is not reported as an error). Old is the version
`[2100, 2150)` with key 1 as it was read, and the row with key 1 is gone from
the table. Each of Change, Terminate, MoveBegin and MoveUntil at ts = 2120
passes its prechecks and handleTs, re-reads key 1, gets an empty list and
indexes it: the call panics instead of returning 'competitively deleted'. No
table is changed. -/
theorem competitive_deletion_crashes :
    (demoDB [rowB]).rows.filter (fun r => decide (r.pkey = (demoWith rowA "q").Old.Std.Pkey))
      = [] ∧
    (demoWith rowA "q").Change demoEngine "2120-01-01 00:00:00.000" "T" (some ())
        (demoDB [rowB]) = (.error .crash, (demoDB [rowB]).after 3) ∧
    (demoWith rowA "q").Terminate demoEngine "2120-01-01 00:00:00.000" "T" (some ())
        (demoDB [rowB]) = (.error .crash, (demoDB [rowB]).after 3) ∧
    (demoWith rowA "q").MoveBegin demoEngine "2120-01-01 00:00:00.000" "T" (some ())
        (demoDB [rowB]) = (.error .crash, (demoDB [rowB]).after 3) ∧
    (demoWith rowA "q").MoveUntil demoEngine "2120-01-01 00:00:00.000" "T" (some ())
        (demoDB [rowB]) = (.error .crash, (demoDB [rowB]).after 3) := by
  decide

/-- C7 (MoveUntil over a fully shadowed follower does not succeed). Old =
`[2100, 2150)` and F = `[2150, 2200)` are adjacent, nothing begins at 2200 and
ts = 2250-06-06 lies in the future. MoveUntil(ts) on Old sets Old.until = ts and
deletes F, finds no further follower, and then updates the begin of the row it
has just deleted: it returns the error 'nothing updated' instead of Old.pkey. -/
theorem moveUntil_shadowed_follower_fails :
    (demoWith rowA "x").MoveUntil demoEngine "2250-06-06 00:00:00.000" "T" (some ())
        (demoDB [rowA, rowB]) =
      (.error (.err .nothingUpdated),
        { demoDB [rowA, rowB] with
          rows := [{ rowA with until_ := some "2250-06-06 00:00:00.000",
                               ended := some "2026-11-04 10:00:00.003",
                               endedby := some "T" }],
          tick := 8 }) := by
  decide

/-- C9 (MoveBegin over a fully shadowed predecessor does not succeed). P =
`[2100, 2150)` and Old = `[2150, 2200)` are adjacent, no version ends at 2100
and ts = 2050-06-06 lies in the future. MoveBegin(ts) on Old sets Old.begin = ts
and deletes P, finds no further predecessor, and then updates the until of the
row it has just deleted: it returns the error 'nothing updated' instead of
Old.pkey. -/
theorem moveBegin_shadowed_predecessor_fails :
    (demoWith rowB "y").MoveBegin demoEngine "2050-06-06 00:00:00.000" "T" (some ())
        (demoDB [rowA, rowB]) =
      (.error (.err .nothingUpdated),
        { demoDB [rowA, rowB] with
          rows := [{ rowB with begin := "2050-06-06 00:00:00.000",
                               created := "2026-11-04 10:00:00.003" }],
          tick := 8 }) := by
  decide

/-! ## Terminate on a chain of versions -/

theorem mem_dropRows {rows : List Row} {keys : List Int} {x : Row} :
    x ∈ dropRows rows keys ↔ x ∈ rows ∧ x.pkey ∉ keys := by
  unfold dropRows
  rw [List.mem_filter]
  simp

theorem dropRows_dropRows (rows : List Row) (k : Int) (keys : List Int) :
    dropRows (dropRows rows [k]) keys = dropRows rows (k :: keys) := by
  unfold dropRows
  rw [List.filter_filter]
  congr 1
  funext r
  by_cases h1 : r.pkey = k <;> by_cases h2 : r.pkey ∈ keys <;> simp [h1, h2]

theorem dropRows_nil (rows : List Row) : dropRows rows [] = rows := by
  unfold dropRows
  simp

theorem validRows_dropRows {rows : List Row} (keys : List Int) (h : ValidRows rows) :
    ValidRows (dropRows rows keys) := by
  obtain ⟨h1, h2, h3⟩ := h
  refine ⟨?_, ?_, ?_⟩
  · intro a ha b hb
    exact h1 a (mem_dropRows.mp ha).1 b (mem_dropRows.mp hb).1
  · intro a ha b hb
    exact h2 a (mem_dropRows.mp ha).1 b (mem_dropRows.mp hb).1
  · intro r hr
    exact h3 r (mem_dropRows.mp hr).1

theorem validRows_closeRows {rows : List Row} (key : Int) (v : Option String) (s w : String)
    (h : ValidRows rows) : ValidRows (closeRows rows key v s w) := by
  obtain ⟨h1, h2, h3⟩ := h
  refine ⟨?_, closeRows_uniqueIDBegin h2, ?_⟩
  · intro a ha b hb hk
    unfold closeRows at ha hb
    rw [List.mem_map] at ha hb
    obtain ⟨a0, ha0, rfl⟩ := ha
    obtain ⟨b0, hb0, rfl⟩ := hb
    have : a0 = b0 := by
      apply h1 a0 ha0 b0 hb0
      split_ifs at hk <;> exact hk
    subst this
    rfl
  · intro r hr
    obtain ⟨y, hy, _, _, hp, _⟩ := closeRows_origin hr
    rw [← hp]
    exact h3 y hy

/-- Two different rows of a table with a primary key have different keys. -/
theorem pkey_ne_of_ne {rows : List Row} (h : UniquePkey rows) {a b : Row} (ha : a ∈ rows)
    (hb : b ∈ rows) (hne : a ≠ b) : a.pkey ≠ b.pkey :=
  fun hk => hne (h a ha b hb hk)

theorem chain_tail (e : Engine) (w : Row) (post : List Row) (h : Chain e (w :: post)) :
    Chain e post := by
  cases post with
  | nil => trivial
  | cons v rest => exact h.2.2.2.2

theorem chain_suffix (e : Engine) (pre : List Row) (l : List Row) (h : Chain e (pre ++ l)) :
    Chain e l := by
  induction pre with
  | nil => exact h
  | cons a as ih => exact ih (chain_tail e a (as ++ l) h)

/-- The follower loop of Terminate on a chain `w :: post` of stored versions: it
deletes exactly the versions of the chain and ends without an error. -/
theorem terminateLoop_chain (e : Engine) (t : Table α) (hscan : t.Scan.isSome = true) :
    ∀ (post : List Row) (w : Row) (db : DB) (fuel : Nat),
      Chain e (w :: post) → (w :: post).Nodup → (∀ x ∈ w :: post, x ∈ db.rows) →
      ValidRows db.rows → post.length + 2 ≤ fuel →
      ∃ n, t.terminateLoop e fuel (t.recordOf w) db =
        (.ok (), { db with rows := dropRows db.rows ((w :: post).map Row.pkey), tick := n }) := by
  intro post
  induction post with
  | nil =>
    intro w db fuel hch _ hin hv hfuel
    obtain ⟨f, rfl⟩ : ∃ f, fuel = f + 2 := ⟨fuel - 2, by omega⟩
    have hw : w ∈ db.rows := hin w (by simp)
    have hk0 : (t.recordOf w).Std.Pkey ≠ 0 := hv.2.2 w hw
    have hunt : (t.recordOf w).Std.Until = "" := by
      have : w.until_ = none := hch
      simp [Table.recordOf, scanStd, this]
    have hdel := del_at (t.withNew (t.recordOf w).Std) db w.pkey db.tick rfl rfl ⟨w, hw, rfl⟩
    refine ⟨db.tick + 1, ?_⟩
    unfold Table.terminateLoop
    rw [if_neg hk0]
    simp only [bind_apply, hdel, hunt, ne_eq, not_true_eq_false, if_false]
    unfold Table.terminateLoop
    simp [pure_apply]
  | cons v rest ih =>
    intro w db fuel hch hnd hin hv hfuel
    obtain ⟨f, rfl⟩ : ∃ f, fuel = f + 1 := ⟨fuel - 1, by omega⟩
    have hw : w ∈ db.rows := hin w (by simp)
    have hk0 : (t.recordOf w).Std.Pkey ≠ 0 := hv.2.2 w hw
    obtain ⟨hwu, hvne, hcan, hvid, hch2⟩ := hch
    have hunt : (t.recordOf w).Std.Until = v.begin := by
      simp [Table.recordOf, scanStd, hwu]
    have hid : (t.recordOf w).Std.ID = v.id := by rw [hvid]; rfl
    have hdel := del_at (t.withNew (t.recordOf w).Std) db w.pkey db.tick rfl rfl ⟨w, hw, rfl⟩
    have hnd2 : (v :: rest).Nodup := (List.nodup_cons.mp hnd).2
    have hnot : ∀ x ∈ v :: rest, x ≠ w := by
      intro x hx hxw
      exact (List.nodup_cons.mp hnd).1 (hxw ▸ hx)
    have hin2 : ∀ x ∈ v :: rest, x ∈ dropRows db.rows [w.pkey] := by
      intro x hx
      rw [mem_dropRows]
      refine ⟨hin x (List.mem_cons_of_mem _ hx), ?_⟩
      simp only [List.mem_singleton]
      exact pkey_ne_of_ne hv.1 (hin x (List.mem_cons_of_mem _ hx)) hw (hnot x hx)
    have hv2 : ValidRows (dropRows db.rows [w.pkey]) := validRows_dropRows _ hv
    obtain ⟨rest2, hfol⟩ := byIDBegin_found e t
      { db with rows := dropRows db.rows [w.pkey], tick := db.tick + 1 } v v.begin hscan
      (hin2 v (by simp)) rfl hcan hv2.2.1
    obtain ⟨n, hrec⟩ := ih v
      ({ db with rows := dropRows db.rows [w.pkey], tick := db.tick + 1 } : DB).next f hch2 hnd2
      hin2 hv2 (by simp only [List.length_cons] at hfuel; omega)
    refine ⟨n, ?_⟩
    unfold Table.terminateLoop
    rw [if_neg hk0]
    simp only [bind_apply, hdel, hunt, hid, ne_eq, hvne, not_false_eq_true, if_true, hfol, hrec]
    simp only [DB.next, dropRows_dropRows, List.map_cons]

theorem length_le_of_nodup_subset {l m : List Row} (hnd : l.Nodup) (h : ∀ x ∈ l, x ∈ m) :
    l.length ≤ m.length :=
  (hnd.subperm h).length_le

/-- Terminate on a member `old` of a chain of stored versions, `post` being the
versions that follow it: when the call is not answered before the re-read, it
deletes the followers, and deletes Old (ts == Old.begin, key 0) or closes it at
ts (key Old.pkey). -/
theorem terminate_chain (e : Engine) (t : Table α) (ts who : String) (tx : Option Tx)
    (db : DB) (old : Row) (post : List Row)
    (hp : t.terminatePrecs ts who tx = none)
    (hts : (handleTs e ts db).1 = .ok ts)
    (hv : ValidRows db.rows)
    (hch : Chain e (old :: post)) (hnd : (old :: post).Nodup)
    (hin : ∀ x ∈ old :: post, x ∈ db.rows)
    (hOld : t.Old = t.recordOf old)
    (hnu : ts ≠ t.Old.Std.Until) (hnl : ¬ strLt ts t.Old.Std.Begin) :
    (t.Terminate e ts who tx db).1 = .ok (if ts = old.begin then 0 else old.pkey) ∧
    (t.Terminate e ts who tx db).2.rows =
      (if ts = old.begin then dropRows db.rows ((old :: post).map Row.pkey)
       else dropRows
        (closeRows db.rows old.pkey (e.stored (db.tick + handleTicks ts + 1) ts)
          (e.clock (db.tick + handleTicks ts + 1)) who)
        (post.map Row.pkey)) ∧
    (t.Terminate e ts who tx db).2.ids = db.ids := by
  obtain ⟨_, _, hk0, hscan⟩ := terminatePrecs_none t ts who tx hp
  have hh := handleTs_ok e ts ts db hts
  have hold : old ∈ db.rows := hin old (by simp)
  have hOP : t.Old.Std.Pkey = old.pkey := by rw [hOld]; rfl
  have hOB : t.Old.Std.Begin = old.begin := by rw [hOld]; rfl
  obtain ⟨rest, hby⟩ := byKey_old t (db.after (handleTicks ts)) old hscan hold hOP.symm hv.1
  have hcmp : ¬ (t.Old.Idv ≠ (t.recordOf old).Idv ∨ t.Old.Std ≠ (t.recordOf old).Std) := by
    rw [record_ne_iff]
    exact fun h => h hOld.symm
  have hpk0 : (t.recordOf old).Std.Pkey ≠ 0 := by
    show old.pkey ≠ 0
    rw [← hOP]; exact hk0
  have hnot : ∀ x ∈ post, x.pkey ≠ old.pkey := by
    intro x hx
    refine pkey_ne_of_ne hv.1 (hin x (List.mem_cons_of_mem _ hx)) hold ?_
    intro hxo
    exact (List.nodup_cons.mp hnd).1 (hxo ▸ hx)
  have hnd2 : post.Nodup := (List.nodup_cons.mp hnd).2
  have hun := until_at e (t.withNew { t.Old.Std with Until := ts, EndedBy := who })
    (db.after (handleTicks ts)).next old.pkey ts who (db.tick + handleTicks ts + 1)
    hOP rfl rfl rfl ⟨old, hold, rfl⟩
  have hdel := del_at (t.withNew t.Old.Std) (db.after (handleTicks ts)).next old.pkey
    (db.tick + handleTicks ts + 1) hOP rfl ⟨old, hold, rfl⟩
  simp only [Table.Terminate, hp, Table.terminate, bind_apply, hh, if_neg hnu, if_neg hnl]
  rw [hby]
  simp only [if_neg hpk0, if_neg hcmp]
  cases post with
  | nil =>
    have hou : t.Old.Std.Until = "" := by
      have : old.until_ = none := hch
      rw [hOld]; simp [Table.recordOf, scanStd, this]
    by_cases hb : ts = old.begin
    · have hb2 : ts = t.Old.Std.Begin := hOB ▸ hb
      simp only [if_pos hb2, if_pos hb, bind_apply, hdel, pure_apply, hou, ne_eq,
        not_true_eq_false, if_false, List.map_cons, List.map_nil]
      simp [DB.next, DB.after]
    · have hb2 : ¬ ts = t.Old.Std.Begin := hOB ▸ hb
      simp only [if_neg hb2, if_neg hb, bind_apply, hun, pure_apply, hou, ne_eq,
        not_true_eq_false, if_false, List.map_nil, dropRows_nil]
      simp [DB.next, DB.after, hOP]
  | cons v rest2 =>
    obtain ⟨hwu, hvne, hcan, hvid, hch2⟩ := hch
    have hou : t.Old.Std.Until = v.begin := by
      rw [hOld]; simp [Table.recordOf, scanStd, hwu]
    have hoi : t.Old.Std.ID = v.id := by rw [hOld, hvid]; rfl
    have hvk0 : (t.recordOf v).Std.Pkey ≠ 0 := hv.2.2 v (hin v (by simp))
    by_cases hb : ts = old.begin
    · have hb2 : ts = t.Old.Std.Begin := hOB ▸ hb
      have hin2 : ∀ x ∈ v :: rest2, x ∈ dropRows db.rows [old.pkey] := by
        intro x hx
        rw [mem_dropRows]
        exact ⟨hin x (List.mem_cons_of_mem _ hx), by simpa using hnot x hx⟩
      have hv2 : ValidRows (dropRows db.rows [old.pkey]) := validRows_dropRows _ hv
      obtain ⟨r2, hfol⟩ := byIDBegin_found e t
        { (db.after (handleTicks ts)).next with
          rows := dropRows (db.after (handleTicks ts)).next.rows [old.pkey],
          tick := db.tick + handleTicks ts + 1 + 1 }
        v v.begin hscan (hin2 v (by simp)) rfl hcan hv2.2.1
      obtain ⟨n, hloop⟩ := terminateLoop_chain e t hscan rest2 v
        ({ (db.after (handleTicks ts)).next with
          rows := dropRows (db.after (handleTicks ts)).next.rows [old.pkey],
          tick := db.tick + handleTicks ts + 1 + 1 } : DB).next
        ((dropRows db.rows [old.pkey]).length + 1) hch2 hnd2 hin2 hv2
        (by
          have := length_le_of_nodup_subset hnd2 hin2
          simp only [List.length_cons] at this
          omega)
      rw [← hoi, ← hou] at hfol
      simp only [if_pos hb2, if_pos hb, bind_apply, hdel, pure_apply, hou ▸ hvne, ne_eq,
        not_false_eq_true, if_true, hfol, if_neg hvk0]
      have hloop2 : Table.terminateLoop e t
          (({ (db.after (handleTicks ts)).next with
            rows := dropRows (db.after (handleTicks ts)).next.rows [old.pkey],
            tick := db.tick + handleTicks ts + 1 + 1 } : DB).next.rows.length + 1)
          (t.recordOf v) _ = _ := hloop
      rw [hloop2]
      simp [DB.next, DB.after, dropRows_dropRows]
    · have hb2 : ¬ ts = t.Old.Std.Begin := hOB ▸ hb
      have hin2 : ∀ x ∈ v :: rest2, x ∈ closeRows db.rows old.pkey
          (e.stored (db.tick + handleTicks ts + 1) ts)
          (e.clock (db.tick + handleTicks ts + 1)) who := by
        intro x hx
        exact mem_closeRows_of_ne (hin x (List.mem_cons_of_mem _ hx)) (hnot x hx)
      have hv2 : ValidRows (closeRows db.rows old.pkey
          (e.stored (db.tick + handleTicks ts + 1) ts)
          (e.clock (db.tick + handleTicks ts + 1)) who) := validRows_closeRows _ _ _ _ hv
      obtain ⟨r2, hfol⟩ := byIDBegin_found e t
        { (db.after (handleTicks ts)).next with
          rows := closeRows (db.after (handleTicks ts)).next.rows old.pkey
            (e.stored (db.tick + handleTicks ts + 1) ts)
            (e.clock (db.tick + handleTicks ts + 1)) who,
          tick := db.tick + handleTicks ts + 1 + 1 }
        v v.begin hscan (hin2 v (by simp)) rfl hcan hv2.2.1
      obtain ⟨n, hloop⟩ := terminateLoop_chain e t hscan rest2 v
        ({ (db.after (handleTicks ts)).next with
          rows := closeRows (db.after (handleTicks ts)).next.rows old.pkey
            (e.stored (db.tick + handleTicks ts + 1) ts)
            (e.clock (db.tick + handleTicks ts + 1)) who,
          tick := db.tick + handleTicks ts + 1 + 1 } : DB).next
        ((closeRows db.rows old.pkey (e.stored (db.tick + handleTicks ts + 1) ts)
          (e.clock (db.tick + handleTicks ts + 1)) who).length + 1) hch2 hnd2 hin2 hv2
        (by
          have := length_le_of_nodup_subset hnd2 hin2
          simp only [List.length_cons] at this
          omega)
      rw [← hoi, ← hou] at hfol
      simp only [if_neg hb2, if_neg hb, bind_apply, hun, pure_apply, hou ▸ hvne, ne_eq,
        not_false_eq_true, if_true, hfol, if_neg hvk0]
      have hloop2 : Table.terminateLoop e t
          (({ (db.after (handleTicks ts)).next with
            rows := closeRows (db.after (handleTicks ts)).next.rows old.pkey
              (e.stored (db.tick + handleTicks ts + 1) ts)
              (e.clock (db.tick + handleTicks ts + 1)) who,
            tick := db.tick + handleTicks ts + 1 + 1 } : DB).next.rows.length + 1)
          (t.recordOf v) _ = _ := hloop
      rw [hloop2]
      simp [DB.next, DB.after, hOP]

/-- C5, as amended. Terminate cascades over followers: in a version table that
satisfies its primary key and unique index, for every contiguous chain of
stored versions of one id (each version's until is the next version's begin,
the last version open-ended) and every member Old of it, not the last one in
particular, a Terminate(ts) with ts > Old.begin and ts different from Old.until that passes
the prechecks and handleTs succeeds, returns Old.pkey, leaves Old with until =
ts as the update stores it (its FormatTmsp rendering, the clock for the keyword
Now) and ended_by = the terminator, deletes every version that followed Old in
the chain, leaves the versions before Old and every other row unchanged, and
does not touch the identity table. -/
theorem terminate_cascades (e : Engine) (t : Table α) (ts who : String) (tx : Option Tx)
    (db : DB) (pre : List Row) (old : Row) (post : List Row)
    (hp : t.terminatePrecs ts who tx = none)
    (hts : (handleTs e ts db).1 = .ok ts)
    (hv : ValidRows db.rows)
    (hch : Chain e (pre ++ old :: post)) (hnd : (pre ++ old :: post).Nodup)
    (hin : ∀ x ∈ pre ++ old :: post, x ∈ db.rows)
    (hOld : t.Old = t.recordOf old)
    (hgt : strLt t.Old.Std.Begin ts) (hnu : ts ≠ t.Old.Std.Until) :
    (t.Terminate e ts who tx db).1 = .ok old.pkey ∧
    (t.Terminate e ts who tx db).2.rows =
      dropRows
        (closeRows db.rows old.pkey (e.stored (db.tick + handleTicks ts + 1) ts)
          (e.clock (db.tick + handleTicks ts + 1)) who)
        (post.map Row.pkey) ∧
    { old with until_ := e.stored (db.tick + handleTicks ts + 1) ts,
               ended := some (e.clock (db.tick + handleTicks ts + 1)),
               endedby := some who } ∈ (t.Terminate e ts who tx db).2.rows ∧
    (∀ x ∈ post, ∀ y ∈ (t.Terminate e ts who tx db).2.rows, y.pkey ≠ x.pkey) ∧
    (∀ x ∈ pre, x ∈ (t.Terminate e ts who tx db).2.rows) ∧
    (t.Terminate e ts who tx db).2.ids = db.ids := by
  have hOB : t.Old.Std.Begin = old.begin := by rw [hOld]; rfl
  have hnd2 : (old :: post).Nodup := (List.nodup_append.mp hnd).2.1
  have hin2 : ∀ x ∈ old :: post, x ∈ db.rows :=
    fun x hx => hin x (List.mem_append_right _ hx)
  obtain ⟨h1, h2, h3⟩ := terminate_chain e t ts who tx db old post hp hts hv
    (chain_suffix e pre _ hch) hnd2 hin2 hOld hnu (strLt_asymm hgt)
  have hne : ¬ ts = old.begin := hOB ▸ strLt_ne hgt
  rw [if_neg hne] at h1 h2
  have hold : old ∈ db.rows := hin2 old (by simp)
  have hkeys : ∀ x ∈ pre ++ post, x.pkey ≠ old.pkey := by
    intro x hx
    have hxin : x ∈ db.rows := by
      rcases List.mem_append.mp hx with h | h
      · exact hin x (List.mem_append_left _ h)
      · exact hin x (List.mem_append_right _ (List.mem_cons_of_mem _ h))
    refine pkey_ne_of_ne hv.1 hxin hold ?_
    rintro rfl
    rcases List.mem_append.mp hx with h | h
    · exact (List.nodup_append.mp hnd).2.2 h (by simp) 
    · exact (List.nodup_cons.mp hnd2).1 h
  refine ⟨h1, h2, ?_, ?_, ?_, h3⟩
  · rw [h2, mem_dropRows]
    refine ⟨?_, ?_⟩
    · unfold closeRows
      rw [List.mem_map]
      exact ⟨old, hold, by simp⟩
    · intro hmem
      rw [List.mem_map] at hmem
      obtain ⟨x, hx, hxk⟩ := hmem
      exact hkeys x (List.mem_append_right _ hx) hxk
  · intro x hx y hy hyk
    rw [h2, mem_dropRows] at hy
    exact hy.2 (hyk ▸ List.mem_map_of_mem _ hx)
  · intro x hx
    rw [h2, mem_dropRows]
    refine ⟨mem_closeRows_of_ne (hin x (List.mem_append_left _ hx))
      (hkeys x (List.mem_append_left _ hx)), ?_⟩
    intro hmem
    rw [List.mem_map] at hmem
    obtain ⟨y, hy, hyk⟩ := hmem
    have hyin : y ∈ db.rows := hin y (List.mem_append_right _ (List.mem_cons_of_mem _ hy))
    have : y = x := hv.1 y hyin x (hin x (List.mem_append_left _ hx)) hyk
    subst this
    exact (List.nodup_append.mp hnd).2.2 hx (List.mem_cons_of_mem _ hy)

/-- C5 at a concrete input: the chain 2100, 2150, 2200 of scenario S3 and a
Terminate of the middle version at 2250-06-06. -/
theorem terminate_cascades_witness :
    strLt (demoWith rowB "y").Old.Std.Begin "2250-06-06 00:00:00.000" ∧
    "2250-06-06 00:00:00.000" ≠ (demoWith rowB "y").Old.Std.Until ∧
    ((demoWith rowB "y").Terminate demoEngine "2250-06-06 00:00:00.000" "T" (some ())
        (demoDB [rowA, rowB, rowC])).1 = .ok 2 ∧
    ((demoWith rowB "y").Terminate demoEngine "2250-06-06 00:00:00.000" "T" (some ())
        (demoDB [rowA, rowB, rowC])).2.rows =
      [rowA, { rowB with until_ := some "2250-06-06 00:00:00.000",
                         ended := some "2026-11-04 10:00:00.003", endedby := some "T" }] :=
  ⟨by decide, by decide,
    (terminate_cascades demoEngine (demoWith rowB "y") "2250-06-06 00:00:00.000" "T" (some ())
      (demoDB [rowA, rowB, rowC]) [rowA] rowB [rowC] (by decide) (by decide)
      (by unfold ValidRows UniquePkey UniqueIDBegin; decide)
      ⟨rfl, by decide, ⟨by decide, by decide⟩, rfl, rfl, by decide, ⟨by decide, by decide⟩,
        rfl, rfl⟩
      (by decide) (by decide) rfl (by decide) (by decide)).1,
    (terminate_cascades demoEngine (demoWith rowB "y") "2250-06-06 00:00:00.000" "T" (some ())
      (demoDB [rowA, rowB, rowC]) [rowA] rowB [rowC] (by decide) (by decide)
      (by unfold ValidRows UniquePkey UniqueIDBegin; decide)
      ⟨rfl, by decide, ⟨by decide, by decide⟩, rfl, rfl, by decide, ⟨by decide, by decide⟩,
        rfl, rfl⟩
      (by decide) (by decide) rfl (by decide) (by decide)).2.1.trans (by decide)⟩

/-- C5 as stated fails for a valid timestamp of 19 characters. Old =
`[2100, 2150)` is followed by `[2150, 2200)` and `[2200, open)`; a Terminate
on Old at `2120-01-01 00:00:00` has ts > Old.begin and ts different from
Old.until, passes the prechecks and handleTs, succeeds with Old.pkey and
deletes the two followers, and leaves Old with until =
`2120-01-01 00:00:00.000`, the rendering of ts by FormatTmsp, which is not the
string ts. -/
theorem terminate_cascades_counterexample :
    (demoWith rowA "x").terminatePrecs "2120-01-01 00:00:00" "T" (some ()) = none ∧
    (handleTs demoEngine "2120-01-01 00:00:00" (demoDB [rowA, rowB, rowC])).1 =
      .ok "2120-01-01 00:00:00" ∧
    (demoWith rowA "x").Old = demoTable.recordOf rowA ∧
    strLt (demoWith rowA "x").Old.Std.Begin "2120-01-01 00:00:00" ∧
    "2120-01-01 00:00:00" ≠ (demoWith rowA "x").Old.Std.Until ∧
    ((demoWith rowA "x").Terminate demoEngine "2120-01-01 00:00:00" "T" (some ())
      (demoDB [rowA, rowB, rowC])).1 = .ok 1 ∧
    ((demoWith rowA "x").Terminate demoEngine "2120-01-01 00:00:00" "T" (some ())
      (demoDB [rowA, rowB, rowC])).2.rows.map (fun r => (r.pkey, r.until_, r.endedby))
      = [(1, some "2120-01-01 00:00:00.000", some "T")] ∧
    some "2120-01-01 00:00:00.000" ≠ some "2120-01-01 00:00:00" := by
  decide

/-- C6, as amended. Terminate's outcome on Old, for every call that passes the
prechecks and handleTs: if ts == Old.until it returns Old.pkey and changes
nothing; otherwise, if ts < Old.begin, it fails with 'not allowed' and changes
nothing; otherwise, if the stored row equals Old and Old's followers form a
contiguous chain of stored versions that ends open-ended (no follower when Old
is open-ended), in a table that satisfies its primary key and unique index:
when ts == Old.begin the row Old.pkey is deleted and the returned key is 0;
when not, the row Old.pkey keeps its begin and payload, gets until = ts as the
update stores it and ended_by = terminator, and Old.pkey is returned; in both
cases the followers are deleted and nothing else changes. -/
theorem terminate_cases (e : Engine) (t : Table α) (ts who : String) (tx : Option Tx)
    (db : DB)
    (hp : t.terminatePrecs ts who tx = none)
    (hts : (handleTs e ts db).1 = .ok ts) :
    (ts = t.Old.Std.Until →
      t.Terminate e ts who tx db = (.ok t.Old.Std.Pkey, db.after (handleTicks ts))) ∧
    (ts ≠ t.Old.Std.Until → strLt ts t.Old.Std.Begin →
      t.Terminate e ts who tx db = (.error (.err .notAllowed), db.after (handleTicks ts))) ∧
    (ts ≠ t.Old.Std.Until → ¬ strLt ts t.Old.Std.Begin →
      ∀ (old : Row) (post : List Row), t.Old = t.recordOf old → ValidRows db.rows →
        Chain e (old :: post) → (old :: post).Nodup → (∀ x ∈ old :: post, x ∈ db.rows) →
        (t.Terminate e ts who tx db).1 = .ok (if ts = old.begin then 0 else old.pkey) ∧
        (t.Terminate e ts who tx db).2.rows =
          (if ts = old.begin then dropRows db.rows ((old :: post).map Row.pkey)
           else dropRows
            (closeRows db.rows old.pkey (e.stored (db.tick + handleTicks ts + 1) ts)
              (e.clock (db.tick + handleTicks ts + 1)) who)
            (post.map Row.pkey)) ∧
        (t.Terminate e ts who tx db).2.ids = db.ids) := by
  have hh := handleTs_ok e ts ts db hts
  refine ⟨?_, ?_, ?_⟩
  · intro h1
    simp only [Table.Terminate, hp, Table.terminate, bind_apply, hh, if_pos h1, pure_apply]
  · intro h1 h2
    simp only [Table.Terminate, hp, Table.terminate, bind_apply, hh, if_neg h1, if_pos h2, fail]
  · intro h1 h2 old post hOld hv hch hnd hin
    exact terminate_chain e t ts who tx db old post hp hts hv hch hnd hin hOld h1 h2

/-- C6 at a concrete input: a Terminate of the open-ended last version of the
chain 2100, 2150, 2200 at 2250-06-06. -/
theorem terminate_cases_witness :
    (demoWith rowC "z").terminatePrecs "2250-06-06 00:00:00.000" "T" (some ()) = none ∧
    (handleTs demoEngine "2250-06-06 00:00:00.000" (demoDB [rowA, rowB, rowC])).1
      = .ok "2250-06-06 00:00:00.000" ∧
    ((demoWith rowC "z").Terminate demoEngine "2250-06-06 00:00:00.000" "T" (some ())
        (demoDB [rowA, rowB, rowC])).1 = .ok 3 ∧
    ((demoWith rowC "z").Terminate demoEngine "2250-06-06 00:00:00.000" "T" (some ())
        (demoDB [rowA, rowB, rowC])).2.rows =
      [rowA, rowB, { rowC with until_ := some "2250-06-06 00:00:00.000",
                               ended := some "2026-11-04 10:00:00.003",
                               endedby := some "T" }] :=
  ⟨by decide, by decide,
    ((terminate_cases demoEngine (demoWith rowC "z") "2250-06-06 00:00:00.000" "T" (some ())
      (demoDB [rowA, rowB, rowC]) (by decide) (by decide)).2.2 (by decide) (by decide)
      rowC [] rfl (by unfold ValidRows UniquePkey UniqueIDBegin; decide) rfl (by decide)
      (by decide)).1,
    ((terminate_cases demoEngine (demoWith rowC "z") "2250-06-06 00:00:00.000" "T" (some ())
      (demoDB [rowA, rowB, rowC]) (by decide) (by decide)).2.2 (by decide) (by decide)
      rowC [] rfl (by unfold ValidRows UniquePkey UniqueIDBegin; decide) rfl (by decide)
      (by decide)).2.1.trans (by decide)⟩

/-- C6 as stated fails in its last case. (a) ts = 2120 is neither Old.until
nor below or equal to Old.begin, the call passes the prechecks and handleTs,
and the stored row carries another payload than Old: Terminate returns
'competitively changed' and changes nothing, where the claim has the row
closed at ts and Old.pkey returned. (b) Old = `[2100, 2150)` is stored as read
and no version begins at 2150: Terminate closes Old at 2120 and then panics on
the empty follower list instead of returning Old.pkey. -/
theorem terminate_cases_counterexample :
    ((demoWith rowA "q").terminatePrecs "2120-01-01 00:00:00.000" "T" (some ()) = none ∧
      (handleTs demoEngine "2120-01-01 00:00:00.000"
        (demoDB [{ rowA with vals := [some "w"] }])).1 = .ok "2120-01-01 00:00:00.000" ∧
      "2120-01-01 00:00:00.000" ≠ (demoWith rowA "q").Old.Std.Until ∧
      ¬ strLt "2120-01-01 00:00:00.000" (demoWith rowA "q").Old.Std.Begin ∧
      "2120-01-01 00:00:00.000" ≠ (demoWith rowA "q").Old.Std.Begin ∧
      (demoWith rowA "q").Terminate demoEngine "2120-01-01 00:00:00.000" "T" (some ())
          (demoDB [{ rowA with vals := [some "w"] }]) =
        (.error (.err .competitivelyChanged),
          (demoDB [{ rowA with vals := [some "w"] }]).after 3)) ∧
    ((demoWith rowA "x").recordOf rowA = (demoWith rowA "x").Old ∧
      (demoWith rowA "x").Terminate demoEngine "2120-01-01 00:00:00.000" "T" (some ())
          (demoDB [rowA]) =
        (.error .crash,
          { demoDB [rowA] with
            rows := [{ rowA with until_ := some "2120-01-01 00:00:00.000",
                                 ended := some "2026-11-04 10:00:00.003",
                                 endedby := some "T" }],
            tick := 5 })) := by
  decide

/-! ## The loop bound of the model is never reached -/

theorem noFuel_bind {β γ : Type} {m : M β} {f : β → M γ} (hm : NoFuel m)
    (hf : ∀ a, NoFuel (f a)) : NoFuel (m >>= f) := by
  intro db
  rw [bind_apply]
  cases h : m db with
  | mk res db1 =>
    cases res with
    | ok a => exact hf a db1
    | error x =>
      have := hm db
      rw [h] at this
      simpa using this

theorem noFuel_pure {β : Type} (a : β) : NoFuel (pure a : M β) := by
  intro db; simp [pure_apply]

theorem noFuel_fail {β : Type} (x : Err) : NoFuel (fail x : M β) := by
  intro db; simp [fail]

theorem noFuel_crash {β : Type} : NoFuel (crash : M β) := by
  intro db; simp [crash]

theorem noFuel_handleTs (e : Engine) (ts : String) : NoFuel (handleTs e ts) := by
  intro db
  rw [handleTs_eval]
  split_ifs
  · simp
  · simp
  · simp
  · split
    · simp
    · split_ifs <;> simp

theorem Query_cases (t : Table α) (sel : Row → Bool) (db : DB) :
    (∃ l, t.Query sel db = (.ok l, db.next)) ∨ t.Query sel db = (.error .crash, db.next) := by
  unfold Table.Query
  split
  · exact Or.inl ⟨_, rfl⟩
  · exact Or.inr rfl
  · exact Or.inl ⟨_, rfl⟩

theorem noFuel_Query (t : Table α) (sel : Row → Bool) : NoFuel (t.Query sel) := by
  intro db
  rcases Query_cases t sel db with ⟨l, h⟩ | h <;> rw [h] <;> simp

theorem del_cases (t : Table α) (db : DB) :
    t.del db = (.error (.err .nothingDeleted), db.next) ∨
      ∃ db1, t.del db = (.ok (), db1) ∧ db1.rows.length < db.rows.length := by
  unfold Table.del
  by_cases h : db.rows.any (fun r => decide (r.pkey = t.New.Std.Pkey)) = false
  · exact Or.inl (by rw [if_pos h])
  · refine Or.inr ⟨_, by rw [if_neg h], ?_⟩
    simp only [Bool.not_eq_false, List.any_eq_true] at h
    obtain ⟨r, hr, hp⟩ := h
    apply List.length_filter_lt_length_iff_exists.mpr
    exact ⟨r, hr, by simpa using hp⟩

theorem noFuel_del (t : Table α) : NoFuel t.del := by
  intro db
  rcases del_cases t db with h | ⟨db1, h, _⟩ <;> rw [h] <;> simp

theorem noFuel_until (e : Engine) (t : Table α) : NoFuel (t.until_ e) := by
  intro db
  unfold Table.until_
  split_ifs <;> simp

theorem noFuel_begin (e : Engine) (t : Table α) : NoFuel (t.begin e) := by
  intro db
  unfold Table.begin
  split_ifs
  · simp
  · split
    · simp
    · split_ifs <;> simp

/-- The follower loop of Terminate ends within its fuel: every round deletes a
row. -/
theorem terminateLoop_fuel (e : Engine) (t : Table α) :
    ∀ (fuel : Nat) (next : Record α) (db : DB), db.rows.length < fuel →
      (t.terminateLoop e fuel next db).1 ≠ .error .fuel := by
  intro fuel
  induction fuel with
  | zero => intro next db h; omega
  | succ f ih =>
    intro next db hlen
    unfold Table.terminateLoop
    by_cases hk : next.Std.Pkey = 0
    · rw [if_pos hk]; simp [pure_apply]
    · rw [if_neg hk, bind_apply]
      rcases del_cases (t.withNew next.Std) db with h | ⟨db1, h, hlt⟩
      · rw [h]; simp
      · rw [h]
        have hf : db1.rows.length < f := by omega
        by_cases hu : next.Std.Until ≠ ""
        · simp only [if_pos hu, bind_apply]
          unfold Table.byIDBegin
          rcases Query_cases t _ db1 with ⟨l, hq⟩ | hq
          · rw [hq]
            cases l with
            | nil => simp [crash]
            | cons n _ => exact ih n db1.next hf
          · rw [hq]; simp
        · simp only [if_neg hu]
          exact ih _ db1 hf

/-- The predecessor loop of MoveBegin ends within its fuel. -/
theorem moveBeginLoop_fuel (e : Engine) (t : Table α) (ts : String) :
    ∀ (fuel : Nat) (more : Bool) (next : Record α) (db : DB), db.rows.length < fuel →
      (t.moveBeginLoop e ts fuel more next db).1 ≠ .error .fuel := by
  intro fuel
  induction fuel with
  | zero => intro more next db h; omega
  | succ f ih =>
    intro more next db hlen
    unfold Table.moveBeginLoop
    by_cases hc : more = true ∧ strLt ts next.Std.Begin
    · rw [if_pos hc, bind_apply]
      rcases del_cases (t.withNew next.Std) db with h | ⟨db1, h, hlt⟩
      · rw [h]; simp
      · rw [h]
        have hf : db1.rows.length < f := by omega
        simp only [bind_apply]
        unfold Table.byIDUntil
        rcases Query_cases t _ db1 with ⟨l, hq⟩ | hq
        · rw [hq]
          cases l with
          | nil => exact ih false next db1.next hf
          | cons n _ => exact ih true n db1.next hf
        · rw [hq]; simp
    · rw [if_neg hc]; simp [pure_apply]

/-- The follower loop of MoveUntil ends within its fuel. -/
theorem moveUntilLoop_fuel (e : Engine) (t : Table α) (ts : String) :
    ∀ (fuel : Nat) (more : Bool) (next : Record α) (db : DB), db.rows.length < fuel →
      (t.moveUntilLoop e ts fuel more next db).1 ≠ .error .fuel := by
  intro fuel
  induction fuel with
  | zero => intro more next db h; omega
  | succ f ih =>
    intro more next db hlen
    unfold Table.moveUntilLoop
    by_cases hc : more = true ∧ next.Std.Until ≠ "" ∧ strLt next.Std.Until ts
    · rw [if_pos hc, bind_apply]
      rcases del_cases (t.withNew next.Std) db with h | ⟨db1, h, hlt⟩
      · rw [h]; simp
      · rw [h]
        have hf : db1.rows.length < f := by omega
        simp only [if_pos hc.2.1, bind_apply]
        unfold Table.byIDBegin
        rcases Query_cases t _ db1 with ⟨l, hq⟩ | hq
        · rw [hq]
          cases l with
          | nil => exact ih false next db1.next hf
          | cons n _ => exact ih true n db1.next hf
        · rw [hq]; simp
    · rw [if_neg hc]; simp [pure_apply]

theorem noFuel_ite {β : Type} {c : Prop} [Decidable c] {a b : M β} (ha : NoFuel a)
    (hb : NoFuel b) : NoFuel (if c then a else b) := by
  split_ifs
  · exact ha
  · exact hb

/-- Terminate, MoveBegin and MoveUntil always end with a key, an error or a
panic: the fuel of their loops, one more than the number of rows, is enough. -/
theorem writer_loops_total (e : Engine) (t : Table α) (ts who : String) (tx : Option Tx) :
    NoFuel (t.Terminate e ts who tx) ∧ NoFuel (t.MoveBegin e ts who tx) ∧
      NoFuel (t.MoveUntil e ts who tx) := by
  refine ⟨?_, ?_, ?_⟩
  · unfold Table.Terminate
    split
    · exact noFuel_fail _
    · unfold Table.terminate
      refine noFuel_bind (noFuel_handleTs e ts) fun ts1 => ?_
      refine noFuel_ite (noFuel_pure _) (noFuel_ite (noFuel_fail _) ?_)
      refine noFuel_bind (noFuel_Query t _) fun sames => ?_
      cases sames with
      | nil => exact noFuel_crash
      | cons same _ =>
        refine noFuel_ite (noFuel_fail _) (noFuel_ite (noFuel_fail _) ?_)
        have tail : ∀ key : Int, NoFuel (do
            if t.Old.Std.Until ≠ "" then do
              let nexts ← t.byIDBegin e t.Old.Std.ID t.Old.Std.Until
              match nexts with
              | [] => crash
              | next :: _ =>
                if next.Std.Pkey = 0 then pure key
                else do
                  (fun db => Table.terminateLoop e t (db.rows.length + 1) next db : M Unit)
                  pure key
            else pure key : M Int) := by
          intro key
          refine noFuel_ite ?_ (noFuel_pure _)
          refine noFuel_bind (fun db => noFuel_Query t _ db) fun nexts => ?_
          cases nexts with
          | nil => exact noFuel_crash
          | cons next _ =>
            refine noFuel_ite (noFuel_pure _) ?_
            refine noFuel_bind ?_ fun _ => noFuel_pure _
            intro db
            exact terminateLoop_fuel e t _ next db (Nat.lt_succ_self _)
        refine noFuel_ite ?_ ?_
        · exact noFuel_bind (noFuel_del _) fun _ => noFuel_bind (noFuel_pure _) tail
        · exact noFuel_bind (noFuel_until e _) fun _ => noFuel_bind (noFuel_pure _) tail
  · unfold Table.MoveBegin
    split
    · exact noFuel_fail _
    · unfold Table.moveBegin
      refine noFuel_bind (noFuel_handleTs e ts) fun ts1 => ?_
      refine noFuel_ite (noFuel_pure _) (noFuel_ite (noFuel_fail _) ?_)
      refine noFuel_bind (noFuel_Query t _) fun sames => ?_
      cases sames with
      | nil => exact noFuel_crash
      | cons same _ =>
        refine noFuel_ite (noFuel_fail _) (noFuel_ite (noFuel_fail _) ?_)
        have tail : ∀ key : Int, NoFuel (do
            let nexts ← t.byIDUntil e t.Old.Std.ID t.Old.Std.Begin
            match nexts with
            | [] => pure key
            | first :: _ =>
              let next ←
                if strLt ts1 t.Old.Std.Begin then
                  (fun db => Table.moveBeginLoop e t ts1 (db.rows.length + 1) true first db :
                    M (Record α))
                else pure first
              (t.withNew { next.Std with Until := ts1, CreatedBy := who }).until_ e
              pure key : M Int) := by
          intro key
          refine noFuel_bind (fun db => noFuel_Query t _ db) fun nexts => ?_
          cases nexts with
          | nil => exact noFuel_pure _
          | cons first _ =>
            dsimp only
            refine noFuel_ite
              (noFuel_bind ?_ fun next => noFuel_bind (noFuel_until e _) fun _ => noFuel_pure _)
              (noFuel_bind (noFuel_pure _) fun next =>
                noFuel_bind (noFuel_until e _) fun _ => noFuel_pure _)
            intro db
            exact moveBeginLoop_fuel e t ts1 _ true first db (Nat.lt_succ_self _)
        refine noFuel_ite ?_ ?_
        · exact noFuel_bind (noFuel_del _) fun _ => noFuel_bind (noFuel_pure _) tail
        · exact noFuel_bind (noFuel_begin e _) fun _ => noFuel_bind (noFuel_pure _) tail
  · unfold Table.MoveUntil
    split
    · exact noFuel_fail _
    · unfold Table.moveUntil
      refine noFuel_bind (noFuel_handleTs e ts) fun ts1 => ?_
      refine noFuel_ite (noFuel_pure _) (noFuel_ite (noFuel_fail _) ?_)
      refine noFuel_bind (noFuel_Query t _) fun sames => ?_
      cases sames with
      | nil => exact noFuel_crash
      | cons same _ =>
        refine noFuel_ite (noFuel_fail _) (noFuel_ite (noFuel_fail _) ?_)
        have tail : ∀ key : Int, NoFuel (do
            if t.Old.Std.Until ≠ "" then do
              let nexts ← t.byIDBegin e t.Old.Std.ID t.Old.Std.Until
              match nexts with
              | [] => pure key
              | first :: _ =>
                let next ←
                  if strLt t.Old.Std.Until ts1 then
                    (fun db => Table.moveUntilLoop e t ts1 (db.rows.length + 1) true first db :
                      M (Record α))
                  else pure first
                (t.withNew { next.Std with Begin := ts1, CreatedBy := who }).begin e
                pure key
            else pure key : M Int) := by
          intro key
          refine noFuel_ite ?_ (noFuel_pure _)
          refine noFuel_bind (fun db => noFuel_Query t _ db) fun nexts => ?_
          cases nexts with
          | nil => exact noFuel_pure _
          | cons first _ =>
            dsimp only
            refine noFuel_ite
              (noFuel_bind ?_ fun next => noFuel_bind (noFuel_begin e _) fun _ => noFuel_pure _)
              (noFuel_bind (noFuel_pure _) fun next =>
                noFuel_bind (noFuel_begin e _) fun _ => noFuel_pure _)
            intro db
            exact moveUntilLoop_fuel e t ts1 _ true first db (Nat.lt_succ_self _)
        refine noFuel_ite ?_ ?_
        · exact noFuel_bind (noFuel_del _) fun _ => noFuel_bind (noFuel_pure _) tail
        · exact noFuel_bind (noFuel_until e _) fun _ => noFuel_bind (noFuel_pure _) tail

/-! ## Change without a new payload -/

/-- C17. Change with an identical payload is a no-op: every Change call that
passes the prechecks and handleTs with New.Idv equal to Old.Idv returns Old.pkey
without error, and the version table, the identity table and the key counters
are as before the call (only the statements of handleTs have been issued). -/
theorem change_same_payload_noop (e : Engine) (t : Table α) (ts creator out : String)
    (tx : Option Tx) (db : DB)
    (hp : t.changePrecs ts creator tx = none)
    (hts : (handleTs e ts db).1 = .ok out)
    (hidv : t.New.Idv = t.Old.Idv) :
    t.Change e ts creator tx db = (.ok t.Old.Std.Pkey, db.after (handleTicks ts)) ∧
    (t.Change e ts creator tx db).2.rows = db.rows ∧
    (t.Change e ts creator tx db).2.ids = db.ids ∧
    (t.Change e ts creator tx db).2.seqKey = db.seqKey ∧
    (t.Change e ts creator tx db).2.seqID = db.seqID := by
  have h : t.Change e ts creator tx db = (.ok t.Old.Std.Pkey, db.after (handleTicks ts)) := by
    unfold Table.Change
    simp only [hp, Table.change, bind_apply, handleTs_ok e ts out db hts, if_pos hidv,
      pure_apply]
  rw [h]
  exact ⟨rfl, rfl, rfl, rfl, rfl⟩

/-- C17 at a concrete input: a Change at 2120 on the version `[2100, 2150)`
with the payload it already has. -/
theorem change_same_payload_noop_witness :
    (demoWith rowA "x").Change demoEngine "2120-01-01 00:00:00.000" "T" (some ())
        (demoDB [rowA, rowB]) = (.ok 1, (demoDB [rowA, rowB]).after 2) ∧
    ((demoWith rowA "x").Change demoEngine "2120-01-01 00:00:00.000" "T" (some ())
        (demoDB [rowA, rowB])).2.rows = [rowA, rowB] :=
  ⟨(change_same_payload_noop demoEngine (demoWith rowA "x") "2120-01-01 00:00:00.000" "T"
      "2120-01-01 00:00:00.000" (some ()) (demoDB [rowA, rowB]) (by decide) (by decide)
      (by decide)).1,
   (change_same_payload_noop demoEngine (demoWith rowA "x") "2120-01-01 00:00:00.000" "T"
      "2120-01-01 00:00:00.000" (some ()) (demoDB [rowA, rowB]) (by decide) (by decide)
      (by decide)).2.1⟩

/-! ## More inputs where the operations miss the specification -/

/-- C18 (the follower walk of Terminate is not guarded). (a) Old is the version
`[2100, 2150)`, stored as read, and no version begins at 2150. Terminate at
ts = 2120 passes the competitive check, closes Old, reads the follower, gets an
empty list and indexes it: the call panics and returns no key. (b) Old has the
follower `[2150, 2200)` and nothing begins at 2200: the walk deletes the
follower, reads the next one, gets an empty list and panics in the same way. -/
theorem terminate_missing_follower_crashes :
    ((demoWith rowA "x").recordOf rowA = (demoWith rowA "x").Old ∧
      (demoWith rowA "x").Old.Std.Until ≠ "" ∧
      (demoDB [rowA]).rows.filter
        (fun r => decide (r.id = 1 ∧ r.begin = "2150-01-01 00:00:00.000")) = [] ∧
      (demoWith rowA "x").Terminate demoEngine "2120-01-01 00:00:00.000" "T" (some ())
          (demoDB [rowA]) =
        (.error .crash,
          { demoDB [rowA] with
            rows := [{ rowA with until_ := some "2120-01-01 00:00:00.000",
                                 ended := some "2026-11-04 10:00:00.003",
                                 endedby := some "T" }],
            tick := 5 })) ∧
    ((demoDB [rowA, rowB]).rows.filter
        (fun r => decide (r.id = 1 ∧ r.begin = "2200-01-01 00:00:00.000")) = [] ∧
      (demoWith rowA "x").Terminate demoEngine "2120-01-01 00:00:00.000" "T" (some ())
          (demoDB [rowA, rowB]) =
        (.error .crash,
          { demoDB [rowA, rowB] with
            rows := [{ rowA with until_ := some "2120-01-01 00:00:00.000",
                                 ended := some "2026-11-04 10:00:00.003",
                                 endedby := some "T" }],
            tick := 7 })) := by
  decide

/-- C15 (a Change before Old.begin is not rejected). Old is the open-ended
version that begins at 2200, stored as read, and ts = 2120 lies before
Old.begin and after the clock. handleTs accepts ts, and Change succeeds with
the new key 4: it inserts a version that begins at 2120 and closes Old at 2120,
eighty years before Old begins. -/
theorem change_before_begin_accepted :
    strLt "2120-01-01 00:00:00.000" (demoWith rowC "q").Old.Std.Begin ∧
    (demoWith rowC "q").recordOf rowC = (demoWith rowC "q").Old ∧
    handleTs demoEngine "2120-01-01 00:00:00.000" (demoDB [rowC]) =
      (.ok "2120-01-01 00:00:00.000", (demoDB [rowC]).after 2) ∧
    (demoWith rowC "q").Change demoEngine "2120-01-01 00:00:00.000" "T" (some ())
        (demoDB [rowC]) =
      (.ok 4,
        { demoDB [rowC] with
          rows := [{ rowC with until_ := some "2120-01-01 00:00:00.000",
                               ended := some "2026-11-04 10:00:00.004",
                               endedby := some "T" },
                   { id := 1, begin := "2120-01-01 00:00:00.000", until_ := none, pkey := 4,
                     created := "2026-11-04 10:00:00.003", createdby := "T", ended := none,
                     endedby := none, vals := [some "q"] }],
          seqKey := 4, tick := 5 }) := by
  decide

/-- C20 (MoveBegin does not record the mover on the moved row). The table holds
`[2100, 2150)` and Old = `[2150, 2200)`, stored as read. MoveBegin at ts = 2170,
which differs from Old.begin and lies before Old.until, succeeds and returns
Old.pkey; the row Old.pkey then begins at ts, but its `endedby` is still NULL
and its `createdby` is still A: the update of begin writes `createdby` from
Old and no `endedby` at all, so the mover T is stored nowhere on that row. -/
theorem moveBegin_drops_ended_by :
    (demoWith rowB "y").recordOf rowB = (demoWith rowB "y").Old ∧
    "2170-01-01 00:00:00.000" ≠ (demoWith rowB "y").Old.Std.Begin ∧
    strLt "2170-01-01 00:00:00.000" (demoWith rowB "y").Old.Std.Until ∧
    ((demoWith rowB "y").MoveBegin demoEngine "2170-01-01 00:00:00.000" "T" (some ())
        (demoDB [rowA, rowB])).1 = .ok 2 ∧
    ((demoWith rowB "y").MoveBegin demoEngine "2170-01-01 00:00:00.000" "T" (some ())
        (demoDB [rowA, rowB])).2.rows.filter (fun r => decide (r.pkey = 2)) =
      [{ rowB with begin := "2170-01-01 00:00:00.000",
                   created := "2026-11-04 10:00:00.003" }] ∧
    rowB.createdby = "A" ∧ rowB.endedby = none := by
  decide

/-- C13 (the past is not immutable). The sample clock stands in 2026.
(a) Old = `[2000, 2100)` began in the past and is valid now; MoveBegin at
ts = 2050 succeeds and rewrites the begin of that row to 2050. (b) The table
holds Old = `[2000, 2010)` and its follower `[2010, open)`, which began in the
past and is valid now; Terminate at ts = 2999 on Old succeeds and deletes the
follower. (c) On the same table MoveUntil at ts = 2050 on Old succeeds and
rewrites the begin of the follower to 2050. handleTs tests ts against the
clock, and nothing tests the begin of the rows that are rewritten or deleted. -/
theorem past_version_rewritten :
    ((CmpTmspNow demoEngine rowPast.begin (demoDB [rowPast])).1 = .ok (true, false, false) ∧
      (demoWith rowPast "x").recordOf rowPast = (demoWith rowPast "x").Old ∧
      ((demoWith rowPast "x").MoveBegin demoEngine "2050-01-01 00:00:00.000" "T" (some ())
          (demoDB [rowPast])).1 = .ok 1 ∧
      ((demoWith rowPast "x").MoveBegin demoEngine "2050-01-01 00:00:00.000" "T" (some ())
          (demoDB [rowPast])).2.rows =
        [{ rowPast with begin := "2050-01-01 00:00:00.000",
                        created := "2026-11-04 10:00:00.003" }]) ∧
    ((CmpTmspNow demoEngine rowValid.begin (demoDB [rowOld, rowValid])).1
        = .ok (true, false, false) ∧
      (demoWith rowOld "x").recordOf rowOld = (demoWith rowOld "x").Old ∧
      ((demoWith rowOld "x").Terminate demoEngine "2999-01-01 00:00:00.000" "T" (some ())
          (demoDB [rowOld, rowValid])).1 = .ok 1 ∧
      ((demoWith rowOld "x").Terminate demoEngine "2999-01-01 00:00:00.000" "T" (some ())
          (demoDB [rowOld, rowValid])).2.rows =
        [{ rowOld with until_ := some "2999-01-01 00:00:00.000",
                       ended := some "2026-11-04 10:00:00.003",
                       endedby := some "T" }]) ∧
    (((demoWith rowOld "x").MoveUntil demoEngine "2050-01-01 00:00:00.000" "T" (some ())
          (demoDB [rowOld, rowValid])).1 = .ok 1 ∧
      ((demoWith rowOld "x").MoveUntil demoEngine "2050-01-01 00:00:00.000" "T" (some ())
          (demoDB [rowOld, rowValid])).2.rows =
        [{ rowOld with until_ := some "2050-01-01 00:00:00.000",
                       ended := some "2026-11-04 10:00:00.003",
                       endedby := some "T" },
         { rowValid with begin := "2050-01-01 00:00:00.000",
                         created := "2026-11-04 10:00:00.005",
                         createdby := "T" }]) := by
  decide

/-- C14 (Invariant I2 is not preserved). (a) The table holds the version
`[2100, 2150)`, which begins before it ends. A Change at ts = 2050 on it, read
as stored and given a new payload, succeeds, and afterwards that row begins at
2100 and ends at 2050. (b) The table holds Old = `[2100, 2150)` and its
follower `[2150, 2200)`. MoveUntil at ts = 2200 on Old succeeds, does not count
the follower as shadowed, and moves its begin to 2200: the follower then begins
and ends at 2200. -/
theorem writer_breaks_begin_before_until :
    (BeginBeforeUntil (demoDB [rowA]).rows ∧
      (demoWith rowA "q").recordOf rowA = (demoWith rowA "q").Old ∧
      ((demoWith rowA "q").Change demoEngine "2050-01-01 00:00:00.000" "T" (some ())
          (demoDB [rowA])).1 = .ok 4 ∧
      ((demoWith rowA "q").Change demoEngine "2050-01-01 00:00:00.000" "T" (some ())
          (demoDB [rowA])).2.rows.map (fun r => (r.pkey, r.begin, r.until_)) =
        [(1, "2100-01-01 00:00:00.000", some "2050-01-01 00:00:00.000"),
         (4, "2050-01-01 00:00:00.000", none)] ∧
      ¬ BeginBeforeUntil ((demoWith rowA "q").Change demoEngine "2050-01-01 00:00:00.000" "T"
          (some ()) (demoDB [rowA])).2.rows) ∧
    (BeginBeforeUntil (demoDB [rowA, rowB]).rows ∧
      (demoWith rowA "x").recordOf rowA = (demoWith rowA "x").Old ∧
      ((demoWith rowA "x").MoveUntil demoEngine "2200-01-01 00:00:00.000" "T" (some ())
          (demoDB [rowA, rowB])).1 = .ok 1 ∧
      ((demoWith rowA "x").MoveUntil demoEngine "2200-01-01 00:00:00.000" "T" (some ())
          (demoDB [rowA, rowB])).2.rows.map (fun r => (r.pkey, r.begin, r.until_)) =
        [(1, "2100-01-01 00:00:00.000", some "2200-01-01 00:00:00.000"),
         (2, "2200-01-01 00:00:00.000", some "2200-01-01 00:00:00.000")] ∧
      ¬ BeginBeforeUntil ((demoWith rowA "x").MoveUntil demoEngine "2200-01-01 00:00:00.000" "T"
          (some ()) (demoDB [rowA, rowB])).2.rows) := by
  unfold BeginBeforeUntil
  decide

/-! ## The timestamp check of the Writer -/

/-- What Tmsp computes for an input other than Now, statement by statement. -/
theorem Tmsp_eval (e : Engine) (ts : String) (db : DB) (hn : ts ≠ Now) :
    Tmsp e ts db =
      if (e.formatTmsp ts).isSome = false then
        (.error (.err .notValidTimestamp), db.after 1)
      else if ts.length < 19 then (.error (.err (.tooShort "tmsp")), db.after 1)
      else
        match e.seconds (first19 ts) with
        | none => (.error (.err .scanningRow), db.after 2)
        | some s =>
          if e.clockSeconds (db.tick + 1) - s > 0 then (.ok (ts, true, false, false), db.after 2)
          else if e.clockSeconds (db.tick + 1) - s = 0 then
            (.ok (ts, false, true, false), db.after 2)
          else (.ok (ts, false, false, true), db.after 2) := by
  unfold Tmsp
  rw [if_neg hn]
  cases hf : (e.formatTmsp ts).isSome
  · simp [IsTmsp, bind_apply, hf, fail, DB.next, DB.after]
  · have hb : len ts = ts.length := len_valid e ts hf
    by_cases hl : ts.length < 19
    · simp [IsTmsp, CmpTmspNow, bind_apply, hf, hb, hl, fail, DB.next, DB.after]
    · cases hs : e.seconds (first19 ts) with
      | none =>
        simp [IsTmsp, CmpTmspNow, bind_apply, hf, hb, hl, hs, fail, DB.next, DB.after]
      | some s =>
        by_cases h1 : e.clockSeconds (db.tick + 1) - s > 0
        · simp [IsTmsp, CmpTmspNow, bind_apply, pure_apply, hf, hb, hl, hs, h1, fail, DB.next,
            DB.after]
        · by_cases h2 : e.clockSeconds (db.tick + 1) - s = 0
          · simp [IsTmsp, CmpTmspNow, bind_apply, pure_apply, hf, hb, hl, hs, h1, h2, fail,
              DB.next, DB.after]
          · simp [IsTmsp, CmpTmspNow, bind_apply, pure_apply, hf, hb, hl, hs, h1, h2, fail,
              DB.next, DB.after]

/-- Tmsp classifies the keyword Now as present. -/
theorem Tmsp_now (e : Engine) (db : DB) :
    Tmsp e Now db = (.ok (e.clock db.tick, false, true, false), db.next) := by
  simp [Tmsp, CurrentTmsp, bind_apply, pure_apply]

/-- A Start whose timestamp handleTs refuses returns an error and leaves both
tables as they were. -/
theorem Start_refused (e : Engine) (t : Table α) (id : Int) (ts c : String) (tx : Option Tx)
    (db : DB) (x : Failure) (h : (handleTs e ts db).1 = .error x) :
    (∃ y, (t.Start e id ts c tx db).1 = .error y) ∧
      (t.Start e id ts c tx db).2.rows = db.rows ∧ (t.Start e id ts c tx db).2.ids = db.ids := by
  unfold Table.Start
  cases hp : t.startPrecs id ts c tx with
  | some y => exact ⟨⟨_, rfl⟩, rfl, rfl⟩
  | none =>
    have hrows : (handleTs e ts db).2.rows = db.rows ∧ (handleTs e ts db).2.ids = db.ids := by
      rw [handleTs_eval]
      split_ifs
      · exact ⟨rfl, rfl⟩
      · exact ⟨rfl, rfl⟩
      · exact ⟨rfl, rfl⟩
      · split
        · exact ⟨rfl, rfl⟩
        · split_ifs <;> exact ⟨rfl, rfl⟩
    have hh : handleTs e ts db = (.error x, (handleTs e ts db).2) := by rw [← h]
    simp only [Table.start, bind_apply]
    rw [hh]
    exact ⟨⟨x, rfl⟩, hrows.1, hrows.2⟩

/-- What Tmsp has found when it accepts an input other than Now. -/
theorem Tmsp_ok (e : Engine) (ts : String) (db : DB) (hn : ts ≠ Now)
    (r : String × Bool × Bool × Bool) (h : (Tmsp e ts db).1 = .ok r) :
    (e.formatTmsp ts).isSome = true ∧ 19 ≤ ts.length ∧
      ∃ s, e.seconds (first19 ts) = some s ∧ r.1 = ts ∧
        r.2.1 = decide (e.clockSeconds (db.tick + 1) - s > 0) := by
  rw [Tmsp_eval e ts db hn] at h
  by_cases h1 : (e.formatTmsp ts).isSome = false
  · rw [if_pos h1] at h
    simp at h
  · rw [if_neg h1] at h
    by_cases h2 : ts.length < 19
    · rw [if_pos h2] at h
      simp at h
    · rw [if_neg h2] at h
      refine ⟨(Bool.not_eq_false _).mp h1, Nat.le_of_not_lt h2, ?_⟩
      cases hs : e.seconds (first19 ts) with
      | none => simp [hs] at h
      | some s =>
        simp only [hs] at h
        refine ⟨s, rfl, ?_⟩
        by_cases h3 : e.clockSeconds (db.tick + 1) - s > 0
        · rw [if_pos h3] at h
          simp only [Except.ok.injEq] at h
          rw [← h]
          simp [h3]
        · rw [if_neg h3] at h
          by_cases h4 : e.clockSeconds (db.tick + 1) - s = 0
          · rw [if_pos h4] at h
            simp only [Except.ok.injEq] at h
            rw [← h]
            simp [h3]
          · rw [if_neg h4] at h
            simp only [Except.ok.injEq] at h
            rw [← h]
            simp [h3]

/-- The outcome of handleTs on an input other than Now that Tmsp accepts. -/
theorem handleTs_of_Tmsp (e : Engine) (ts : String) (db : DB) (hn : ts ≠ Now)
    (r : String × Bool × Bool × Bool) (h : (Tmsp e ts db).1 = .ok r) :
    (handleTs e ts db).1 =
      if r.2.1 = true then .error (.err (.cannotChangePast ts)) else .ok ts := by
  obtain ⟨h1, h2, s, hs, _, hr⟩ := Tmsp_ok e ts db hn r h
  rw [handleTs_eval, if_neg hn, if_neg (by simp [h1]), if_neg (Nat.not_lt.mpr h2), hr]
  simp only [hs]
  by_cases h3 : e.clockSeconds (db.tick + 1) - s > 0
  · simp [h3]
  · simp [h3]

/-- At the level of the engine: handleTs accepts an input other than Now exactly
when FormatTmsp renders it, it has at least 19 characters, and the seconds of
its first 19 bytes are known and not behind the clock. -/
theorem handleTs_succeeds_iff (e : Engine) (ts : String) (db : DB) (hn : ts ≠ Now) :
    (∃ out, (handleTs e ts db).1 = .ok out) ↔
      (e.formatTmsp ts).isSome = true ∧ 19 ≤ ts.length ∧
        ∃ s, e.seconds (first19 ts) = some s ∧ e.clockSeconds (db.tick + 1) - s ≤ 0 := by
  rw [handleTs_eval, if_neg hn]
  by_cases h1 : (e.formatTmsp ts).isSome = false
  · rw [if_pos h1]
    simp [h1]
  · rw [if_neg h1]
    have h1t : (e.formatTmsp ts).isSome = true := (Bool.not_eq_false _).mp h1
    by_cases h2 : ts.length < 19
    · rw [if_pos h2]
      simp only [reduceCtorEq, exists_false, false_iff, not_and]
      intro _ h19
      omega
    · rw [if_neg h2]
      cases hs : e.seconds (first19 ts) with
      | none => simp
      | some s =>
        simp only [Option.some.injEq, exists_eq_left']
        by_cases h3 : e.clockSeconds (db.tick + 1) - s > 0
        · rw [if_pos h3]
          simp only [reduceCtorEq, exists_false, false_iff, not_and, not_le]
          intro _ _
          exact h3
        · rw [if_neg h3]
          simp only [Except.ok.injEq, exists_eq', true_iff]
          exact ⟨h1t, Nat.le_of_not_lt h2, not_lt.mp h3⟩

/-- C12, as amended. Writes in the past are refused. handleTs(ts) succeeds
exactly when ts is the keyword Now, or ts is accepted by Tmsp and is not
classified as past, where Tmsp accepts a timestamp exactly when it is valid
per IsTmsp, has at least 19 characters, and the database has the seconds of
its first 19 bytes, and classifies it as past exactly when these seconds are
behind the clock; on success handleTs returns ts unchanged and has changed no
table; for a timestamp that Tmsp classifies as past it fails with 'cannot
change the past', and for one that IsTmsp reports invalid with 'not a valid
timestamp'. Consequently Start with a past or invalid ts returns an error and
leaves both tables as they were, while a Start that passes its prechecks with
Now, or with a valid timestamp of at least 19 characters whose seconds are
known and not behind the clock, goes on to the insert and the identity
claim. -/
theorem handleTs_refuses_past (e : Engine) (ts : String) (db : DB) :
    (ts ≠ Now →
      ((∃ r, (Tmsp e ts db).1 = .ok r) ↔
        (IsTmsp e ts db).1 = .ok true ∧ 19 ≤ ts.length ∧
          ∃ s, e.seconds (first19 ts) = some s)) ∧
    (ts ≠ Now → ∀ out pa pr fu, (Tmsp e ts db).1 = .ok (out, pa, pr, fu) →
      out = ts ∧ ∃ s, e.seconds (first19 ts) = some s ∧
        (pa = true ↔ e.clockSeconds (db.tick + 1) - s > 0)) ∧
    ((∃ out, (handleTs e ts db).1 = .ok out) ↔
      ts = Now ∨ ∃ pr fu, (Tmsp e ts db).1 = .ok (ts, false, pr, fu)) ∧
    ((∃ out, (handleTs e ts db).1 = .ok out) ↔
      ts = Now ∨
        ((IsTmsp e ts db).1 = .ok true ∧ 19 ≤ ts.length ∧
          ∃ s, e.seconds (first19 ts) = some s ∧ e.clockSeconds (db.tick + 1) - s ≤ 0)) ∧
    (∀ out, (handleTs e ts db).1 = .ok out →
      out = ts ∧ (handleTs e ts db).2.rows = db.rows ∧ (handleTs e ts db).2.ids = db.ids) ∧
    (∀ out pr fu, (Tmsp e ts db).1 = .ok (out, true, pr, fu) →
      (handleTs e ts db).1 = .error (.err (.cannotChangePast ts))) ∧
    (ts ≠ Now → (IsTmsp e ts db).1 = .ok false →
      (handleTs e ts db).1 = .error (.err .notValidTimestamp)) ∧
    (∀ (t : Table α) (id : Int) (c : String) (tx : Option Tx),
      ((∃ out pr fu, (Tmsp e ts db).1 = .ok (out, true, pr, fu)) ∨
        (ts ≠ Now ∧ (IsTmsp e ts db).1 = .ok false)) →
      (∃ y, (t.Start e id ts c tx db).1 = .error y) ∧
        (t.Start e id ts c tx db).2.rows = db.rows ∧
        (t.Start e id ts c tx db).2.ids = db.ids) ∧
    (∀ (t : Table α) (id : Int) (c : String) (tx : Option Tx),
      t.startPrecs id ts c tx = none →
      (ts = Now ∨
        ((IsTmsp e ts db).1 = .ok true ∧ 19 ≤ ts.length ∧
          ∃ s, e.seconds (first19 ts) = some s ∧ e.clockSeconds (db.tick + 1) - s ≤ 0)) →
      t.Start e id ts c tx db =
        ((t.withNew { ID := id, Begin := ts, CreatedBy := c }).ins e >>= fun key =>
          (t.withNew { ID := id, Begin := ts, CreatedBy := c }).useID c >>= fun _ =>
            (pure key : M Int)) (db.after (handleTicks ts))) := by
  have hval : (IsTmsp e ts db).1 = .ok true ↔ (e.formatTmsp ts).isSome = true := by
    simp [IsTmsp]
  have hpast : ∀ out pr fu, (Tmsp e ts db).1 = .ok (out, true, pr, fu) →
      (handleTs e ts db).1 = .error (.err (.cannotChangePast ts)) := by
    intro out pr fu h
    by_cases hn : ts = Now
    · rw [hn, Tmsp_now] at h
      simp at h
    · rw [handleTs_of_Tmsp e ts db hn _ h]
      simp
  have hnot : ∀ out pr fu, (Tmsp e ts db).1 = .ok (out, false, pr, fu) →
      (handleTs e ts db).1 = .ok ts := by
    intro out pr fu h
    by_cases hn : ts = Now
    · rw [handleTs_eval, if_pos hn]
    · rw [handleTs_of_Tmsp e ts db hn _ h]
      simp
  have hinv : ts ≠ Now → (IsTmsp e ts db).1 = .ok false →
      (handleTs e ts db).1 = .error (.err .notValidTimestamp) := by
    intro hn h
    have hf : (e.formatTmsp ts).isSome = false := by simpa [IsTmsp] using h
    rw [handleTs_eval, if_neg hn, if_pos hf]
  have hacc : (∃ out, (handleTs e ts db).1 = .ok out) ↔
      ts = Now ∨ ∃ pr fu, (Tmsp e ts db).1 = .ok (ts, false, pr, fu) := by
    constructor
    · rintro ⟨out, h⟩
      by_cases hn : ts = Now
      · exact Or.inl hn
      · right
        cases hr : (Tmsp e ts db).1 with
        | error x =>
          exfalso
          rw [handleTs_eval, if_neg hn] at h
          rw [Tmsp_eval e ts db hn] at hr
          by_cases h1 : (e.formatTmsp ts).isSome = false
          · rw [if_pos h1] at h
            simp at h
          · rw [if_neg h1] at h hr
            by_cases h2 : ts.length < 19
            · rw [if_pos h2] at h
              simp at h
            · rw [if_neg h2] at h hr
              cases hs : e.seconds (first19 ts) with
              | none => simp [hs] at h
              | some s =>
                simp only [hs] at hr
                split_ifs at hr
          | ok r =>
          obtain ⟨_, _, s, _, hr1, _⟩ := Tmsp_ok e ts db hn r hr
          have h2 := handleTs_of_Tmsp e ts db hn r hr
          rw [h2] at h
          obtain ⟨a, b, c, d⟩ := r
          cases b with
          | true => simp at h
          | false =>
            simp only at hr1
            exact ⟨c, d, by rw [hr1]⟩
    · rintro (hn | ⟨pr, fu, h⟩)
      · exact ⟨ts, by rw [handleTs_eval, if_pos hn]⟩
      · exact ⟨ts, hnot _ _ _ h⟩
  have hok : ∀ out, (handleTs e ts db).1 = .ok out →
      out = ts ∧ (handleTs e ts db).2.rows = db.rows ∧ (handleTs e ts db).2.ids = db.ids := by
    intro out h
    have h2 := handleTs_ok e ts out db h
    rw [h2] at h ⊢
    simp only [Except.ok.injEq] at h
    exact ⟨h.symm, rfl, rfl⟩
  have hexp : (∃ out, (handleTs e ts db).1 = .ok out) ↔
      ts = Now ∨
        ((IsTmsp e ts db).1 = .ok true ∧ 19 ≤ ts.length ∧
          ∃ s, e.seconds (first19 ts) = some s ∧ e.clockSeconds (db.tick + 1) - s ≤ 0) := by
    by_cases hn : ts = Now
    · constructor
      · intro _
        exact Or.inl hn
      · intro _
        exact ⟨ts, by rw [handleTs_eval, if_pos hn]⟩
    · rw [handleTs_succeeds_iff e ts db hn, hval]
      constructor
      · intro h
        exact Or.inr h
      · rintro (h | h)
        · exact absurd h hn
        · exact h
  have hTacc : ts ≠ Now →
      ((∃ r, (Tmsp e ts db).1 = .ok r) ↔
        (IsTmsp e ts db).1 = .ok true ∧ 19 ≤ ts.length ∧
          ∃ s, e.seconds (first19 ts) = some s) := by
    intro hn
    rw [hval]
    constructor
    · rintro ⟨r, h⟩
      obtain ⟨h1, h2, s, hs, _⟩ := Tmsp_ok e ts db hn r h
      exact ⟨h1, h2, s, hs⟩
    · rintro ⟨h1, h2, s, hs⟩
      rw [Tmsp_eval e ts db hn, if_neg (by simp [h1]), if_neg (Nat.not_lt.mpr h2)]
      simp only [hs]
      split_ifs
      · exact ⟨_, rfl⟩
      · exact ⟨_, rfl⟩
      · exact ⟨_, rfl⟩
  have hcls : ts ≠ Now → ∀ out pa pr fu, (Tmsp e ts db).1 = .ok (out, pa, pr, fu) →
      out = ts ∧ ∃ s, e.seconds (first19 ts) = some s ∧
        (pa = true ↔ e.clockSeconds (db.tick + 1) - s > 0) := by
    intro hn out pa pr fu h
    obtain ⟨_, _, s, hs, h1, h2⟩ := Tmsp_ok e ts db hn _ h
    simp only at h1 h2
    refine ⟨h1, s, hs, ?_⟩
    rw [h2]
    simp
  refine ⟨hTacc, hcls, hacc, hexp, hok, hpast, hinv, ?_, ?_⟩
  · intro t id c tx h
    rcases h with ⟨out, pr, fu, h⟩ | ⟨hn, h⟩
    · exact Start_refused e t id ts c tx db _ (hpast out pr fu h)
    · exact Start_refused e t id ts c tx db _ (hinv hn h)
  · intro t id c tx hp h
    obtain ⟨out, hout⟩ := hexp.mpr h
    have h2 := handleTs_ok e ts out db hout
    unfold Table.Start
    simp only [hp, Table.start, bind_apply, h2, pure_apply]

/-- C12 at concrete inputs: 1900 is past and refused; `xyz9` is invalid and
refused; 2999 is valid, long enough, has its seconds and is not past, and is
accepted. -/
theorem handleTs_refuses_past_witness :
    (handleTs demoEngine "1900-01-01 12:00:00.000" freshDB).1 =
      .error (.err (.cannotChangePast "1900-01-01 12:00:00.000")) ∧
    (handleTs demoEngine "xyz9-01-01 00:00:00.00" freshDB).1 =
      .error (.err .notValidTimestamp) ∧
    (∃ out, (handleTs demoEngine "2999-01-01 00:00:00.000" freshDB).1 = .ok out) :=
  ⟨(@handleTs_refuses_past String _ demoEngine "1900-01-01 12:00:00.000" freshDB).2.2.2.2.2.1
      "1900-01-01 12:00:00.000" false false (by decide),
   (@handleTs_refuses_past String _ demoEngine "xyz9-01-01 00:00:00.00" freshDB).2.2.2.2.2.2.1
      (by decide) (by decide),
   (@handleTs_refuses_past String _ demoEngine "2999-01-01 00:00:00.000" freshDB).2.2.2.1.mpr
      (Or.inr ⟨by decide, by decide, 2999, by decide, by decide⟩)⟩

/-- C12 as stated fails for a valid timestamp whose first 19 bytes are no time
value. The timestamp `2999-01-01 11:33+01:00` is not the keyword Now, IsTmsp
reports it valid, it has 22 characters and Tmsp does not classify it as past;
yet handleTs fails with 'error scanning row', and a Start with it, which
passes the prechecks, returns that error and inserts nothing. -/
theorem handleTs_refuses_past_counterexample :
    "2999-01-01 11:33+01:00" ≠ Now ∧
    (IsTmsp zoneEngine "2999-01-01 11:33+01:00" freshDB).1 = .ok true ∧
    19 ≤ "2999-01-01 11:33+01:00".length ∧
    (Tmsp zoneEngine "2999-01-01 11:33+01:00" freshDB).1 = .error (.err .scanningRow) ∧
    (handleTs zoneEngine "2999-01-01 11:33+01:00" freshDB).1 = .error (.err .scanningRow) ∧
    (demoNew "v").startPrecs 1 "2999-01-01 11:33+01:00" "T" (some ()) = none ∧
    (demoNew "v").Start zoneEngine 1 "2999-01-01 11:33+01:00" "T" (some ()) freshDB =
      (.error (.err .scanningRow), freshDB.after 2) := by
  decide

/-! ## Start -/

/-- What a successful Start has done: the inserted row, the key, and the
identity row that was claimed. -/
theorem Start_ok (e : Engine) (t : Table α) (id : Int) (ts creator : String)
    (tx : Option Tx) (db db1 : DB) (key : Int)
    (h : t.Start e id ts creator tx db = (.ok key, db1)) :
    ∃ b valsFn,
      t.Vals = some valsFn ∧
      e.stored (db.tick + handleTicks ts) ts = some b ∧
      db1.rows = db.rows ++
        [{ id := id, begin := b, until_ := none, pkey := key,
           created := e.clock (db.tick + handleTicks ts), createdby := creator,
           ended := none, endedby := none,
           vals := domainCols (t.Atts.getD []).length (valsFn t.New.Idv) }] ∧
      key = nextKey db ∧
      (∃ i ∈ db.ids, i.id = id ∧ i.createdby = creator ∧ i.usedby = none) ∧
      db1.ids = db.ids.map (fun i =>
        if i.id = id ∧ i.createdby = creator ∧ i.usedby = none then
          { i with usedby := some creator }
        else i) := by
  unfold Table.Start at h
  cases hp : t.startPrecs id ts creator tx with
  | some x => simp [hp, fail] at h
  | none =>
    simp only [hp, Table.start, bind_apply] at h
    cases hts : (handleTs e ts db).1 with
    | error x =>
      have : handleTs e ts db = (.error x, (handleTs e ts db).2) := by rw [← hts]
      rw [this] at h
      simp at h
    | ok out =>
      rw [handleTs_ok e ts out db hts] at h
      simp only [] at h
      cases hi : (t.withNew { ID := id, Begin := ts, CreatedBy := creator }).ins e
          (db.after (handleTicks ts)) with
      | mk res dbi =>
        rw [hi] at h
        cases res with
        | error x => simp at h
        | ok k =>
          obtain ⟨valsFn, b, hv, hb, hk, _, hdb⟩ := ins_ok e _ _ _ _ hi
          simp only [] at h
          rw [useID_eval] at h
          by_cases hu : ∃ r ∈ dbi.ids,
              r.id = (t.withNew { ID := id, Begin := ts, CreatedBy := creator }).New.Std.ID ∧
              r.createdby = creator ∧ r.usedby = none
          · rw [if_pos hu] at h
            simp only [pure_apply, Prod.mk.injEq, Except.ok.injEq] at h
            obtain ⟨hkey, hdb1⟩ := h
            subst hkey
            have hids : dbi.ids = db.ids := by rw [hdb]; rfl
            have hu2 : ∃ i ∈ db.ids, i.id = id ∧ i.createdby = creator ∧ i.usedby = none := by
              rw [← hids]
              exact hu
            have hb2 : e.stored (db.tick + handleTicks ts) ts = some b := hb
            refine ⟨b, valsFn, hv, hb2, ?_, hk, hu2, ?_⟩
            · rw [← hdb1, hdb]
              rfl
            · rw [← hdb1]
              simp only [hids]
              rfl
          · rw [if_neg hu] at h
            simp at h

/-- C11, as amended. Start's effect: for every successful Start(id, ts,
creator), the version table gains exactly one row, appended to the rows that
were there, with id = id, begin = ts as the insert statement stores it (the
FormatTmsp rendering of ts, which is ts itself for a canonical timestamp; the
clock reading of the insert statement when ts is the keyword Now), empty until,
created_by = creator and the payload of New.Idv; an identity row with that id,
created by `creator` and unused before, has used_by = creator afterwards and
no other identity row changes; no other version row changes; and the returned
key is the key of the inserted row, which no other row carries. -/
theorem start_effect (e : Engine) (t : Table α) (id : Int) (ts creator : String)
    (tx : Option Tx) (db db1 : DB) (key : Int)
    (h : t.Start e id ts creator tx db = (.ok key, db1)) :
    ∃ b valsFn,
      t.Vals = some valsFn ∧
      e.stored (db.tick + handleTicks ts) ts = some b ∧
      (ts = Now → b = e.clock db.tick) ∧
      (e.canonical ts → b = ts) ∧
      db1.rows = db.rows ++
        [{ id := id, begin := b, until_ := none, pkey := key,
           created := e.clock (db.tick + handleTicks ts), createdby := creator,
           ended := none, endedby := none,
           vals := domainCols (t.Atts.getD []).length (valsFn t.New.Idv) }] ∧
      key = nextKey db ∧ (∀ r ∈ db.rows, r.pkey ≠ key) ∧
      (∃ i ∈ db.ids, i.id = id ∧ i.createdby = creator ∧ i.usedby = none) ∧
      db1.ids = db.ids.map (fun i =>
        if i.id = id ∧ i.createdby = creator ∧ i.usedby = none then
          { i with usedby := some creator }
        else i) ∧
      (∃ i ∈ db1.ids, i.id = id ∧ i.usedby = some creator) := by
  obtain ⟨b, valsFn, hv, hb, hrows, hk, hu, hids⟩ := Start_ok e t id ts creator tx db db1 key h
  refine ⟨b, valsFn, hv, hb, ?_, ?_, hrows, hk, ?_, hu, hids, ?_⟩
  · intro hn
    rw [hn] at hb
    simp only [Engine.stored, if_pos, handleTicks, Option.some.injEq] at hb
    exact hb.symm
  · intro hc
    rw [stored_canonical e _ ts hc] at hb
    exact (Option.some.inj hb).symm
  · intro r hr
    have hlt := pkey_lt_nextKey db r hr
    omega
  · obtain ⟨i, hi1, hi2, hi3, hi4⟩ := hu
    refine ⟨{ i with usedby := some creator }, ?_, hi2, rfl⟩
    rw [hids, List.mem_map]
    exact ⟨i, hi1, by rw [if_pos ⟨hi2, hi3, hi4⟩]⟩

/-- C11 at a concrete input: a Start of identity 1 at 2999 by its creator T. -/
theorem start_effect_witness :
    (1 : Int) = nextKey freshDB ∧
    ∃ i ∈ ((demoNew "v").Start demoEngine 1 "2999-01-01 00:00:00.000" "T" (some ()) freshDB).2.ids,
      i.id = 1 ∧ i.usedby = some "T" :=
  (start_effect demoEngine (demoNew "v") 1 "2999-01-01 00:00:00.000" "T" (some ()) freshDB
      ((demoNew "v").Start demoEngine 1 "2999-01-01 00:00:00.000" "T" (some ()) freshDB).2 1
      (by decide)).elim
    fun _ h => h.elim fun _ h => ⟨h.2.2.2.2.2.1, h.2.2.2.2.2.2.2.2.2⟩

/-- C11 as stated fails for a valid timestamp that is not in the engine's own
rendering. A Start of identity 1 at ts = `2999-01-01 00:00:00`, which has 19
characters, is not the keyword Now and lies in the future, succeeds; the row it
inserts begins at `2999-01-01 00:00:00.000`, the FormatTmsp rendering of ts,
and not at ts. -/
theorem start_effect_counterexample :
    "2999-01-01 00:00:00" ≠ Now ∧
    demoEngine.formatTmsp "2999-01-01 00:00:00" = some "2999-01-01 00:00:00.000" ∧
    (demoNew "v").Start demoEngine 1 "2999-01-01 00:00:00" "T" (some ()) freshDB =
      (.ok 1,
        { freshDB with
          rows := [{ id := 1, begin := "2999-01-01 00:00:00.000", until_ := none, pkey := 1,
                     created := "2026-11-04 10:00:00.002", createdby := "T", ended := none,
                     endedby := none, vals := [some "v"] }],
          ids := [{ id := 1, created := "2026-11-04 09:00:00.000", createdby := "T",
                    usedby := some "T" }],
          seqKey := 1, tick := 4 }) ∧
    ∀ r ∈ ((demoNew "v").Start demoEngine 1 "2999-01-01 00:00:00" "T" (some ()) freshDB).2.rows,
      r.begin ≠ "2999-01-01 00:00:00" := by
  decide

/-! ## Change: what a call that the database accepts does -/

/-- An insert that the database accepts appends the row `t.New` describes and
returns the next key. -/
theorem ins_accepted (e : Engine) (t : Table α) (db : DB) (valsFn : Option α → List String)
    (b : String)
    (hv : t.Vals = some valsFn)
    (hlen : (t.Atts.getD []).length ≤ (valsFn t.New.Idv).length)
    (hne : t.New.Std.Begin ≠ "")
    (hb : e.stored db.tick t.New.Std.Begin = some b)
    (hid : t.New.Std.ID ≠ 0) (hc : t.New.Std.CreatedBy ≠ "")
    (hdom : e.domainOk (domainCols (t.Atts.getD []).length (valsFn t.New.Idv)) = true)
    (hfree : ∀ r ∈ db.rows, ¬ (r.id = t.New.Std.ID ∧ r.begin = b)) :
    t.ins e db =
      (.ok (nextKey db), { db with
        rows := db.rows ++ [{
          id := t.New.Std.ID, begin := b,
          until_ := if t.New.Std.Until = "" then none else e.formatTmsp t.New.Std.Until,
          pkey := nextKey db, created := e.clock db.tick, createdby := t.New.Std.CreatedBy,
          ended := if t.New.Std.Ended = "" then none else e.formatTmsp t.New.Std.Ended,
          endedby := if t.New.Std.EndedBy = "" then none else some t.New.Std.EndedBy,
          vals := domainCols (t.Atts.getD []).length (valsFn t.New.Idv) }],
        seqKey := nextKey db, tick := db.tick + 1 }) := by
  unfold Table.ins
  have hany : db.rows.any (fun r => decide (r.id = t.New.Std.ID ∧ r.begin = b)) = false := by
    rw [List.any_eq_false]
    intro r hr hp
    exact hfree r hr (by simpa using hp)
  have h3 : ¬ (t.New.Std.ID = 0 ∨ t.New.Std.CreatedBy = "" ∨
      e.domainOk (domainCols (t.Atts.getD []).length (valsFn t.New.Idv)) = false ∨
      db.rows.any (fun r => decide (r.id = t.New.Std.ID ∧ r.begin = b)) = true) := by
    rw [hany, hdom]
    simp [hid, hc]
  simp only [hv, if_neg (Nat.not_lt.mpr hlen), if_neg hne, hb, if_neg h3]

/-- An update that the database accepts rewrites the rows with the key. -/
theorem upd_accepted (e : Engine) (t : Table α) (db : DB) (valsFn : Option α → List String)
    (hv : t.Vals = some valsFn)
    (hlen : (t.Atts.getD []).length ≤ (valsFn t.New.Idv).length)
    (hrow : ∃ r ∈ db.rows, r.pkey = t.New.Std.Pkey)
    (hdom : e.domainOk (domainCols (t.Atts.getD []).length (valsFn t.New.Idv)) = true) :
    t.upd e db =
      (.ok (), { db with
        rows := db.rows.map fun r =>
          if r.pkey = t.New.Std.Pkey then
            { r with created := e.clock db.tick,
                     createdby := if t.New.Std.CreatedBy = "" then r.createdby
                                  else t.New.Std.CreatedBy,
                     vals := domainCols (t.Atts.getD []).length (valsFn t.New.Idv) }
          else r,
        tick := db.tick + 1 }) := by
  unfold Table.upd
  have hany : ¬ db.rows.any (fun r => decide (r.pkey = t.New.Std.Pkey)) = false := by
    rw [Bool.not_eq_false, List.any_eq_true]
    obtain ⟨r, hr, hp⟩ := hrow
    exact ⟨r, hr, by simpa using hp⟩
  simp only [hv, if_neg (Nat.not_lt.mpr hlen), if_neg hany, hdom, Bool.true_eq_false,
    if_false]

/-- C1, as amended. Change, append-and-close: for every Change(ts, creator)
call that passes the prechecks and handleTs, where New.Idv differs from
Old.Idv, the stored row with key Old.pkey (the primary key of the table)
equals Old, ts > Old.begin, and the database accepts the insert (Vals yields
a value for every attribute, Old.id is not 0, the domain values satisfy the
constraints of their columns, and no version of Old.id begins at ts as the
insert stores it), exactly one version row is inserted, with id = Old.id,
begin = ts as the insert statement stores it (its FormatTmsp rendering, the
clock for the keyword Now), empty until, created_by = creator and the payload
of New.Idv; the row Old.pkey gets until = ts as the update statement stores it
and ended_by = creator; every other row is unchanged; the identity table is
unchanged; and the returned key is the key of the inserted row, which differs
from Old.pkey. -/
theorem change_append_and_close (e : Engine) (t : Table α) (ts creator : String)
    (tx : Option Tx) (db : DB) (old : Row) (valsFn : Option α → List String)
    (hp : t.changePrecs ts creator tx = none)
    (hts : (handleTs e ts db).1 = .ok ts)
    (hidv : t.New.Idv ≠ t.Old.Idv)
    (hpk : UniquePkey db.rows) (hold : old ∈ db.rows) (hk : old.pkey = t.Old.Std.Pkey)
    (hrec : t.recordOf old = t.Old)
    (hlt : strLt t.Old.Std.Begin ts)
    (hv : t.Vals = some valsFn)
    (hlen : (t.Atts.getD []).length ≤ (valsFn t.New.Idv).length)
    (hid : t.Old.Std.ID ≠ 0)
    (hdom : e.domainOk (domainCols (t.Atts.getD []).length (valsFn t.New.Idv)) = true)
    (hfree : ∀ r ∈ db.rows, r.id = t.Old.Std.ID →
      some r.begin ≠ e.stored (db.tick + handleTicks ts + 1) ts) :
    ∃ b, e.stored (db.tick + handleTicks ts + 1) ts = some b ∧
      t.Change e ts creator tx db =
        (.ok (nextKey db),
          { db with
            rows :=
              db.rows.map (fun r =>
                if r.pkey = t.Old.Std.Pkey then
                  { r with until_ := e.stored (db.tick + handleTicks ts + 2) ts,
                           ended := some (e.clock (db.tick + handleTicks ts + 2)),
                           endedby := some creator }
                else r)
              ++ [{ id := t.Old.Std.ID, begin := b, until_ := none, pkey := nextKey db,
                    created := e.clock (db.tick + handleTicks ts + 1), createdby := creator,
                    ended := none, endedby := none,
                    vals := domainCols (t.Atts.getD []).length (valsFn t.New.Idv) }],
            seqKey := nextKey db,
            tick := db.tick + handleTicks ts + 3 }) ∧
      nextKey db ≠ t.Old.Std.Pkey ∧
      (∀ r ∈ db.rows, r.pkey = t.Old.Std.Pkey → r = old) := by
  obtain ⟨hts0, hc0, hk0, hscan, _⟩ := changePrecs_none t ts creator tx hp
  have hh := handleTs_ok e ts ts db hts
  obtain ⟨b, hb⟩ := handleTs_stored e ts ts db hts (db.tick + handleTicks ts + 1)
  have hold1 : old ∈ (db.after (handleTicks ts)).rows := hold
  have hpk1 : UniquePkey (db.after (handleTicks ts)).rows := hpk
  obtain ⟨rest, hby⟩ := byKey_old t (db.after (handleTicks ts)) old hscan hold1 hk hpk1
  rw [hrec] at hby
  have hne : nextKey db ≠ t.Old.Std.Pkey := by
    rw [← hk]
    exact ne_of_gt (pkey_lt_nextKey db old hold)
  have hcmp : ¬ (t.Old.Idv ≠ t.Old.Idv ∨ t.Old.Std ≠ t.Old.Std) := by simp
  have hins := ins_accepted e
    (t.withNew { ID := t.Old.Std.ID, Begin := ts, CreatedBy := creator })
    (db.after (handleTicks ts)).next valsFn b hv hlen hts0 hb hid hc0 hdom
    (fun r hr hc => hfree r hr hc.1 (by rw [hb, hc.2]))
  have hfound : ∃ q ∈ (db.rows ++
      [({ id := t.Old.Std.ID, begin := b, until_ := none, pkey := nextKey db,
          created := e.clock (db.tick + handleTicks ts + 1), createdby := creator,
          ended := none, endedby := none,
          vals := domainCols (t.Atts.getD []).length (valsFn t.New.Idv) } : Row)]),
      q.pkey = t.Old.Std.Pkey := ⟨old, List.mem_append_left _ hold, hk⟩
  refine ⟨b, hb, ?_, hne, fun r hr hrk => hpk r hr old hold (hrk.trans hk.symm)⟩
  unfold Table.Change
  simp only [hp, Table.change, bind_apply, hh, if_neg hidv, hby, if_neg hk0, if_neg hcmp,
    if_neg (strLt_ne hlt)]
  rw [hins]
  simp only []
  rw [until_found e _ _ hfound]
  have e1 : (t.withNew { t.Old.Std with Until := ts, EndedBy := creator }).New.Std.Pkey
      = t.Old.Std.Pkey := rfl
  have hnk : nextKey (db.after (handleTicks ts)).next = nextKey db := rfl
  simp only [pure_apply, hnk, e1, List.map_append, List.map_cons, List.map_nil, if_neg hne]
  rfl

/-- C1 at a concrete input: a Change at 2120 on the version `[2100, 2150)`,
the only row of the table, returns the new key 4. -/
theorem change_append_and_close_witness :
    ((demoWith rowA "q").Change demoEngine "2120-01-01 00:00:00.000" "T" (some ())
      (demoDB [rowA])).1 = .ok (nextKey (demoDB [rowA])) ∧
    nextKey (demoDB [rowA]) ≠ (demoWith rowA "q").Old.Std.Pkey :=
  (change_append_and_close demoEngine (demoWith rowA "q") "2120-01-01 00:00:00.000" "T"
    (some ()) (demoDB [rowA]) rowA (fun x => [x.getD ""])
    (by decide) (by decide) (by decide) (by unfold UniquePkey; decide) (by decide)
    (by decide) (by decide) (by decide) rfl (by decide) (by decide) (by decide)
    (by decide)).elim
    fun _ h => ⟨congrArg Prod.fst h.2.1, h.2.2.1⟩

/-- C1 as stated fails, in two ways. (a) Old is `[2100, 2150)`, stored as read,
with a follower that begins at 2150: a Change at ts = 2150 passes the prechecks
and handleTs with a new payload and ts > Old.begin, the unique index on
(id, begin) refuses the insert, and the call returns an error with no row
inserted and Old not closed. (b) Old is `[2100, 2150)`, stored as read, and ts
is the valid timestamp `2120-01-01 00:00:00` of 19 characters: the call
succeeds, the inserted row begins and Old ends at `2120-01-01 00:00:00.000`,
the rendering of ts by FormatTmsp, which is not the string ts. -/
theorem change_append_counterexample :
    ((demoWith rowA "q").changePrecs "2150-01-01 00:00:00.000" "T" (some ()) = none ∧
      (handleTs demoEngine "2150-01-01 00:00:00.000" (demoDB [rowA, rowB])).1
        = .ok "2150-01-01 00:00:00.000" ∧
      (demoWith rowA "q").New.Idv ≠ (demoWith rowA "q").Old.Idv ∧
      (demoWith rowA "q").recordOf rowA = (demoWith rowA "q").Old ∧
      strLt (demoWith rowA "q").Old.Std.Begin "2150-01-01 00:00:00.000" ∧
      (demoWith rowA "q").Change demoEngine "2150-01-01 00:00:00.000" "T" (some ())
          (demoDB [rowA, rowB]) =
        (.error (.err .executingInsert), (demoDB [rowA, rowB]).after 4)) ∧
    ((demoWith rowA "q").changePrecs "2120-01-01 00:00:00" "T" (some ()) = none ∧
      (handleTs demoEngine "2120-01-01 00:00:00" (demoDB [rowA])).1
        = .ok "2120-01-01 00:00:00" ∧
      (demoWith rowA "q").New.Idv ≠ (demoWith rowA "q").Old.Idv ∧
      (demoWith rowA "q").recordOf rowA = (demoWith rowA "q").Old ∧
      strLt (demoWith rowA "q").Old.Std.Begin "2120-01-01 00:00:00" ∧
      ((demoWith rowA "q").Change demoEngine "2120-01-01 00:00:00" "T" (some ())
          (demoDB [rowA])).1 = .ok 4 ∧
      ((demoWith rowA "q").Change demoEngine "2120-01-01 00:00:00" "T" (some ())
          (demoDB [rowA])).2.rows.map (fun r => (r.pkey, r.begin, r.until_))
        = [(1, "2100-01-01 00:00:00.000", some "2120-01-01 00:00:00.000"),
           (4, "2120-01-01 00:00:00.000", none)] ∧
      "2120-01-01 00:00:00.000" ≠ "2120-01-01 00:00:00") := by
  decide

/-- C16, as amended. Change, update in place: for every Change(ts, creator)
call that passes the prechecks and handleTs, where New.Idv differs from
Old.Idv, the stored row with key Old.pkey (the primary key of the table)
equals Old, ts == Old.begin, and the database accepts the update (Vals yields
a value for every attribute and the new domain values satisfy the constraints
of their columns), no row is inserted or deleted; the row Old.pkey gets the
domain columns of New.Idv (an empty extracted value becoming NULL) and
created_by = creator while its id, begin, until and pkey are unchanged; every
other row is unchanged; the identity table is unchanged; and Old.pkey is
returned. -/
theorem change_in_place (e : Engine) (t : Table α) (ts creator : String)
    (tx : Option Tx) (db : DB) (old : Row) (valsFn : Option α → List String)
    (hp : t.changePrecs ts creator tx = none)
    (hts : (handleTs e ts db).1 = .ok ts)
    (hidv : t.New.Idv ≠ t.Old.Idv)
    (hpk : UniquePkey db.rows) (hold : old ∈ db.rows) (hk : old.pkey = t.Old.Std.Pkey)
    (hrec : t.recordOf old = t.Old)
    (heq : ts = t.Old.Std.Begin)
    (hv : t.Vals = some valsFn)
    (hlen : (t.Atts.getD []).length ≤ (valsFn t.New.Idv).length)
    (hdom : e.domainOk (domainCols (t.Atts.getD []).length (valsFn t.New.Idv)) = true) :
    t.Change e ts creator tx db =
      (.ok t.Old.Std.Pkey,
        { db with
          rows := db.rows.map (fun r =>
            if r.pkey = t.Old.Std.Pkey then
              { r with created := e.clock (db.tick + handleTicks ts + 1),
                       createdby := creator,
                       vals := domainCols (t.Atts.getD []).length (valsFn t.New.Idv) }
            else r),
          tick := db.tick + handleTicks ts + 2 }) ∧
    (t.Change e ts creator tx db).2.rows.length = db.rows.length ∧
    (∀ r ∈ db.rows, r.pkey = t.Old.Std.Pkey → r = old) := by
  obtain ⟨_, hc0, hk0, hscan, _⟩ := changePrecs_none t ts creator tx hp
  have hh := handleTs_ok e ts ts db hts
  have hold1 : old ∈ (db.after (handleTicks ts)).rows := hold
  have hpk1 : UniquePkey (db.after (handleTicks ts)).rows := hpk
  obtain ⟨rest, hby⟩ := byKey_old t (db.after (handleTicks ts)) old hscan hold1 hk hpk1
  rw [hrec] at hby
  have hcmp : ¬ (t.Old.Idv ≠ t.Old.Idv ∨ t.Old.Std ≠ t.Old.Std) := by simp
  have hupd := upd_accepted e (t.withNew { t.Old.Std with CreatedBy := creator })
    (db.after (handleTicks ts)).next valsFn hv hlen ⟨old, hold, hk⟩ hdom
  have hmain : t.Change e ts creator tx db =
      (.ok t.Old.Std.Pkey,
        { db with
          rows := db.rows.map (fun r =>
            if r.pkey = t.Old.Std.Pkey then
              { r with created := e.clock (db.tick + handleTicks ts + 1),
                       createdby := creator,
                       vals := domainCols (t.Atts.getD []).length (valsFn t.New.Idv) }
            else r),
          tick := db.tick + handleTicks ts + 2 }) := by
    unfold Table.Change
    simp only [hp, Table.change, bind_apply, hh, if_neg hidv, hby, if_neg hk0, if_neg hcmp,
      if_pos heq]
    rw [hupd]
    have e1 : (t.withNew { t.Old.Std with CreatedBy := creator }).New.Std.Pkey
        = t.Old.Std.Pkey := rfl
    have e2 : (t.withNew { t.Old.Std with CreatedBy := creator }).New.Std.CreatedBy
        = creator := rfl
    simp only [pure_apply, e1, e2, if_neg hc0]
    rfl
  refine ⟨hmain, ?_, fun r hr hrk => hpk r hr old hold (hrk.trans hk.symm)⟩
  rw [hmain]
  exact List.length_map _ _

/-- C16 at a concrete input: a Change at 2100 on the version `[2100, 2150)`
with a new payload returns the key 1 of that version and keeps the two rows. -/
theorem change_in_place_witness :
    ((demoWith rowA "q").Change demoEngine "2100-01-01 00:00:00.000" "T" (some ())
      (demoDB [rowA, rowB])).1 = .ok (demoWith rowA "q").Old.Std.Pkey ∧
    ((demoWith rowA "q").Change demoEngine "2100-01-01 00:00:00.000" "T" (some ())
      (demoDB [rowA, rowB])).2.rows.length = (demoDB [rowA, rowB]).rows.length :=
  ⟨congrArg Prod.fst
    (change_in_place demoEngine (demoWith rowA "q") "2100-01-01 00:00:00.000" "T"
      (some ()) (demoDB [rowA, rowB]) rowA (fun x => [x.getD ""])
      (by decide) (by decide) (by decide) (by unfold UniquePkey; decide) (by decide)
      (by decide) (by decide) (by decide) rfl (by decide) (by decide)).1,
   (change_in_place demoEngine (demoWith rowA "q") "2100-01-01 00:00:00.000" "T"
      (some ()) (demoDB [rowA, rowB]) rowA (fun x => [x.getD ""])
      (by decide) (by decide) (by decide) (by unfold UniquePkey; decide) (by decide)
      (by decide) (by decide) (by decide) rfl (by decide) (by decide)).2.1⟩

/-- C16 as stated fails when the database refuses the update. The domain column
of the test table is declared `not null`, Old is `[2100, 2150)`, stored as
read, and New.Idv has an empty value for that column. A Change at
ts = Old.begin passes the prechecks and handleTs with a payload that differs
from Old's, the update statement sets the column to NULL and is refused, and
the call returns the error 'error executing update' instead of Old.pkey; no
row is changed. -/
theorem change_in_place_counterexample :
    (demoWith rowA "").changePrecs "2100-01-01 00:00:00.000" "T" (some ()) = none ∧
    (handleTs strictEngine "2100-01-01 00:00:00.000" (demoDB [rowA, rowB])).1
      = .ok "2100-01-01 00:00:00.000" ∧
    (demoWith rowA "").New.Idv ≠ (demoWith rowA "").Old.Idv ∧
    (demoWith rowA "").recordOf rowA = (demoWith rowA "").Old ∧
    "2100-01-01 00:00:00.000" = (demoWith rowA "").Old.Std.Begin ∧
    (demoWith rowA "").Change strictEngine "2100-01-01 00:00:00.000" "T" (some ())
        (demoDB [rowA, rowB]) =
      (.error (.err .executingUpdate), (demoDB [rowA, rowB]).after 4) := by
  decide

/-! ## Identities and their first versions -/

/-- What a successful NewID has done. -/
theorem NewID_ok (e : Engine) (t : Table α) (c : String) (tx : Option Tx) (db db1 : DB)
    (id : Int) (h : t.NewID e c tx db = (.ok id, db1)) :
    id = nextID db ∧ db1.rows = db.rows ∧
      db1.ids = db.ids ++ [{ id := id, created := e.clock db.tick, createdby := c,
                             usedby := none }] := by
  unfold Table.NewID at h
  cases hp : t.newIDPrecs c tx with
  | some x => simp [hp, fail] at h
  | none =>
    simp only [hp, Table.newID, Prod.mk.injEq, Except.ok.injEq] at h
    obtain ⟨h1, h2⟩ := h
    refine ⟨h1.symm, ?_, ?_⟩
    · rw [← h2]
    · rw [← h2, h1]

/-- NewID keeps the invariant of the states reachable by NewID and Start. -/
theorem startInv_NewID (e : Engine) (t : Table α) (c : String) (tx : Option Tx) (db db1 : DB)
    (id : Int) (h : t.NewID e c tx db = (.ok id, db1)) (hinv : StartInv db) :
    StartInv db1 := by
  obtain ⟨hid, hrows, hids⟩ := NewID_ok e t c tx db db1 id h
  obtain ⟨h1, h2, h3, h4⟩ := hinv
  have hfresh : ∀ i ∈ db.ids, i.id ≠ id := by
    intro i hi
    have := id_lt_nextID db i hi
    omega
  unfold StartInv
  rw [hrows, hids]
  refine ⟨?_, ?_, h3, ?_⟩
  · intro i hi j hj hij
    rw [List.mem_append, List.mem_singleton] at hi hj
    rcases hi with hi | hi <;> rcases hj with hj | hj
    · exact h1 i hi j hj hij
    · exfalso
      rw [hj] at hij
      exact hfresh i hi hij
    · exfalso
      rw [hi] at hij
      exact hfresh j hj hij.symm
    · rw [hi, hj]
  · intro r hr
    obtain ⟨i, hi, hi2⟩ := h2 r hr
    exact ⟨i, List.mem_append_left _ hi, hi2⟩
  · intro i hi hu
    rw [List.mem_append, List.mem_singleton] at hi
    rcases hi with hi | hi
    · exact h4 i hi hu
    · rw [hi] at hu
      exact absurd rfl hu

/-- Start keeps the invariant of the states reachable by NewID and Start. -/
theorem startInv_Start (e : Engine) (t : Table α) (id : Int) (ts c : String)
    (tx : Option Tx) (db db1 : DB) (key : Int)
    (h : t.Start e id ts c tx db = (.ok key, db1)) (hinv : StartInv db) :
    StartInv db1 := by
  obtain ⟨b, valsFn, _, _, hrows, _, ⟨i0, hi0, hi0id, hi0c, hi0u⟩, hids⟩ :=
    Start_ok e t id ts c tx db db1 key h
  obtain ⟨h1, h2, h3, h4⟩ := hinv
  have hnone : ∀ r ∈ db.rows, r.id ≠ id := by
    intro r hr hrid
    obtain ⟨i, hi, hi2, hi3⟩ := h2 r hr
    have : i = i0 := h1 i hi i0 hi0 (by rw [hi2, hrid, hi0id])
    rw [this, hi0u] at hi3
    simp at hi3
  unfold StartInv
  rw [hrows, hids]
  refine ⟨?_, ?_, ?_, ?_⟩
  · intro i hi j hj hij
    rw [List.mem_map] at hi hj
    obtain ⟨i1, hi1, rfl⟩ := hi
    obtain ⟨j1, hj1, rfl⟩ := hj
    have hidf : ∀ i : IDRow,
        (if i.id = id ∧ i.createdby = c ∧ i.usedby = none then
          { i with usedby := some c } else i).id = i.id := by
      intro i
      split_ifs <;> rfl
    have : i1 = j1 := by
      apply h1 i1 hi1 j1 hj1
      rw [hidf, hidf] at hij
      exact hij
    rw [this]
  · intro r hr
    rw [List.mem_append, List.mem_singleton] at hr
    rcases hr with hr | hr
    · obtain ⟨i, hi, hi2, hi3⟩ := h2 r hr
      refine ⟨i, ?_, hi2, hi3⟩
      rw [List.mem_map]
      refine ⟨i, hi, ?_⟩
      rw [if_neg]
      rintro ⟨_, _, hu⟩
      rw [hu] at hi3
      simp at hi3
    · refine ⟨{ i0 with usedby := some c }, ?_, ?_, ?_⟩
      · rw [List.mem_map]
        exact ⟨i0, hi0, by rw [if_pos ⟨hi0id, hi0c, hi0u⟩]⟩
      · rw [hr]
        exact hi0id
      · rw [hr]
  · intro r hr q hq hrq
    rw [List.mem_append, List.mem_singleton] at hr hq
    rcases hr with hr | hr <;> rcases hq with hq | hq
    · exact h3 r hr q hq hrq
    · exfalso
      rw [hq] at hrq
      exact hnone r hr hrq
    · exfalso
      rw [hr] at hrq
      exact hnone q hq hrq.symm
    · rw [hr, hq]
  · intro i hi hu
    rw [List.mem_map] at hi
    obtain ⟨i1, hi1, rfl⟩ := hi
    by_cases c1 : i1.id = id ∧ i1.createdby = c ∧ i1.usedby = none
    · rw [if_pos c1]
      refine ⟨_, List.mem_append_right _ (List.mem_singleton.mpr rfl), ?_, rfl⟩
      exact c1.1.symm
    · rw [if_neg c1] at hu ⊢
      obtain ⟨r, hr, hr2⟩ := h4 i1 hi1 hu
      exact ⟨r, List.mem_append_left _ hr, hr2⟩

/-- Every state reachable by NewID and Start satisfies the invariant. -/
theorem startInv_reached (e : Engine) (db : DB) (h : ReachedByStart e db) : StartInv db := by
  induction h with
  | empty db hr hi =>
    unfold StartInv
    rw [hr, hi]
    simp
  | newID t c tx db db1 id _ hstep ih => exact startInv_NewID e t c tx db db1 id hstep ih
  | start t id ts c tx db db1 key _ hstep ih => exact startInv_Start e t id ts c tx db db1 key hstep ih

/-- C19, as amended. Identity-use consistency: in every state reachable from
empty tables by successful NewID and Start calls, each identity row with a
non-NULL used_by has a version row with that id whose begin is the smallest
among that id's versions (it is the only version of that id) and whose
created_by equals used_by. -/
theorem identity_use_after_start (e : Engine) (db : DB) (h : ReachedByStart e db) :
    IdentityUse db ∧ ∀ r ∈ db.rows, ∀ q ∈ db.rows, r.id = q.id → r = q := by
  obtain ⟨_, _, h3, h4⟩ := startInv_reached e db h
  refine ⟨?_, h3⟩
  intro i hi hu
  obtain ⟨r, hr, hrid, hrc⟩ := h4 i hi hu
  refine ⟨r, hr, hrid, hrc, ?_⟩
  intro q hq hqid
  have : q = r := h3 q hq r hr (by rw [hqid, hrid])
  rw [this]
  exact lt_irrefl _

/-- C19 at a concrete state: T takes identity 1 and starts it at 2100. -/
theorem identity_use_after_start_witness :
    startedDB.rows = [rowStarted] ∧ IdentityUse startedDB :=
  ⟨by decide,
    (identity_use_after_start demoEngine startedDB
      (ReachedByStart.start (demoNew "v") 1 "2100-01-01 00:00:00.000" "T" (some ()) identDB
        startedDB 1
        (ReachedByStart.newID demoTable "T" (some ()) emptyDB identDB 1
          (ReachedByStart.empty emptyDB rfl rfl) (by decide))
        (by decide))).1⟩

/-- The sample state in which identity 1 has its first version is reachable. -/
theorem reached_started : Reached demoEngine startedDB :=
  Reached.start (demoNew "v") 1 "2100-01-01 00:00:00.000" "T" (some ()) identDB startedDB 1
    (Reached.newID demoTable "T" (some ()) emptyDB identDB 1 (Reached.empty emptyDB rfl rfl)
      (by decide))
    (by decide)

/-- The sample state in which that version is closed at 2150 is reachable. -/
theorem reached_closed : Reached demoEngine closedDB :=
  Reached.terminate (demoWith rowStarted "v") "2150-01-01 00:00:00.000" "T" (some ())
    startedDB closedDB 1 reached_started (by decide)

/-- C19 as stated fails for each of the four operations that work on a stored
version. T takes identity 1 and starts it with the version `[2100, open)`, so
that the identity row has used_by = T. (a) Terminate at ts = 2100 = Old.begin
deletes that version: the used identity has no version row. (b) MoveUntil at
ts = 2100 = Old.begin does the same. (c) A Change at ts = 2100 = Old.begin by
another actor B updates the version in place and sets its created_by to B: the
first version of the identity is not created by T. (d) After a Terminate at
2150 the version is `[2100, 2150)`, and MoveBegin at ts = 2150 = Old.until
deletes it. -/
theorem identity_use_counterexample :
    (startedDB.rows = [rowStarted] ∧ closedDB.rows = [rowClosed] ∧
      startedDB.ids.map (fun i => (i.id, i.usedby)) = [(1, some "T")]) ∧
    (Reached demoEngine
        ((demoWith rowStarted "v").Terminate demoEngine "2100-01-01 00:00:00.000" "T" (some ())
          startedDB).2 ∧
      ((demoWith rowStarted "v").Terminate demoEngine "2100-01-01 00:00:00.000" "T" (some ())
          startedDB).2.rows = [] ∧
      ¬ IdentityUse ((demoWith rowStarted "v").Terminate demoEngine "2100-01-01 00:00:00.000"
          "T" (some ()) startedDB).2) ∧
    (Reached demoEngine
        ((demoWith rowStarted "v").MoveUntil demoEngine "2100-01-01 00:00:00.000" "T" (some ())
          startedDB).2 ∧
      ¬ IdentityUse ((demoWith rowStarted "v").MoveUntil demoEngine "2100-01-01 00:00:00.000"
          "T" (some ()) startedDB).2) ∧
    (Reached demoEngine
        ((demoWith rowStarted "w").Change demoEngine "2100-01-01 00:00:00.000" "B" (some ())
          startedDB).2 ∧
      ((demoWith rowStarted "w").Change demoEngine "2100-01-01 00:00:00.000" "B" (some ())
          startedDB).2.rows.map (fun r => (r.id, r.begin, r.createdby)) =
        [(1, "2100-01-01 00:00:00.000", "B")] ∧
      ¬ IdentityUse ((demoWith rowStarted "w").Change demoEngine "2100-01-01 00:00:00.000"
          "B" (some ()) startedDB).2) ∧
    (Reached demoEngine
        ((demoWith rowClosed "v").MoveBegin demoEngine "2150-01-01 00:00:00.000" "T" (some ())
          closedDB).2 ∧
      ¬ IdentityUse ((demoWith rowClosed "v").MoveBegin demoEngine "2150-01-01 00:00:00.000"
          "T" (some ()) closedDB).2) := by
  refine ⟨by decide, ⟨?_, by decide, ?_⟩, ⟨?_, ?_⟩, ⟨?_, by decide, ?_⟩, ⟨?_, ?_⟩⟩
  · exact Reached.terminate (demoWith rowStarted "v") "2100-01-01 00:00:00.000" "T" (some ())
      startedDB _ 0 reached_started (by decide)
  · unfold IdentityUse
    decide
  · exact Reached.moveUntil (demoWith rowStarted "v") "2100-01-01 00:00:00.000" "T" (some ())
      startedDB _ 0 reached_started (by decide)
  · unfold IdentityUse
    decide
  · exact Reached.change (demoWith rowStarted "w") "2100-01-01 00:00:00.000" "B" (some ())
      startedDB _ 1 reached_started (by decide)
  · unfold IdentityUse
    decide
  · exact Reached.moveBegin (demoWith rowClosed "v") "2150-01-01 00:00:00.000" "T" (some ())
      closedDB _ 0 reached_closed (by decide)
  · unfold IdentityUse
    decide

/-! ## The preconditions of the Writer -/

theorem writePrecs_none (ts c : String) (tx : Option Tx) (h : writePrecs ts c tx = none) :
    ts ≠ "" ∧ c ≠ "" ∧ tx ≠ none := by
  unfold writePrecs at h
  split_ifs at h
  simp_all

theorem startPrecs_none (t : Table α) (id : Int) (ts c : String) (tx : Option Tx)
    (h : t.startPrecs id ts c tx = none) : ts ≠ "" ∧ c ≠ "" ∧ tx ≠ none ∧ id ≠ 0 := by
  unfold Table.startPrecs at h
  split at h
  · simp at h
  · rename_i hw
    obtain ⟨h1, h2, h3⟩ := writePrecs_none ts c tx hw
    split_ifs at h
    exact ⟨h1, h2, h3, by assumption⟩

theorem terminatePrecs_tx (t : Table α) (ts c : String) (tx : Option Tx)
    (h : t.terminatePrecs ts c tx = none) : tx ≠ none := by
  unfold Table.terminatePrecs at h
  split at h
  · simp at h
  · rename_i hw
    exact (writePrecs_none ts c tx hw).2.2

theorem changePrecs_tx (t : Table α) (ts c : String) (tx : Option Tx)
    (h : t.changePrecs ts c tx = none) : tx ≠ none := by
  unfold Table.changePrecs at h
  split at h
  · simp at h
  · rename_i hw
    exact (writePrecs_none ts c tx hw).2.2

/-- C22. Writer preconditions fail before the database is touched: each of
Start, Change, Terminate, MoveBegin and MoveUntil returns an error (and with it
key 0) and leaves the database exactly as it was, no statement issued,
whenever ts is empty, creator is empty or tx is nil; Start does so also when id
is 0, and Change, Terminate, MoveBegin and MoveUntil do so also when
Old.Std.Pkey is 0. -/
theorem writer_precs_fail_first (e : Engine) (t : Table α) (id : Int) (ts creator : String)
    (tx : Option Tx) (db : DB) :
    ((ts = "" ∨ creator = "" ∨ tx = none ∨ id = 0) →
      ∃ x, t.Start e id ts creator tx db = (.error (.err x), db)) ∧
    ((ts = "" ∨ creator = "" ∨ tx = none ∨ t.Old.Std.Pkey = 0) →
      (∃ x, t.Change e ts creator tx db = (.error (.err x), db)) ∧
      (∃ x, t.Terminate e ts creator tx db = (.error (.err x), db)) ∧
      (∃ x, t.MoveBegin e ts creator tx db = (.error (.err x), db)) ∧
      (∃ x, t.MoveUntil e ts creator tx db = (.error (.err x), db))) := by
  constructor
  · intro h
    unfold Table.Start
    cases hp : t.startPrecs id ts creator tx with
    | some x => exact ⟨x, rfl⟩
    | none =>
      obtain ⟨h1, h2, h3, h4⟩ := startPrecs_none t id ts creator tx hp
      rcases h with h | h | h | h <;> contradiction
  · intro h
    have hterm : ∃ x, t.terminatePrecs ts creator tx = some x := by
      cases hp : t.terminatePrecs ts creator tx with
      | some x => exact ⟨x, rfl⟩
      | none =>
        obtain ⟨h1, h2, h3, _⟩ := terminatePrecs_none t ts creator tx hp
        have h4 := terminatePrecs_tx t ts creator tx hp
        rcases h with h | h | h | h <;> contradiction
    refine ⟨?_, ?_, ?_, ?_⟩
    · unfold Table.Change
      cases hp : t.changePrecs ts creator tx with
      | some x => exact ⟨x, rfl⟩
      | none =>
        obtain ⟨h1, h2, h3, _⟩ := changePrecs_none t ts creator tx hp
        have h4 := changePrecs_tx t ts creator tx hp
        rcases h with h | h | h | h <;> contradiction
    · obtain ⟨x, hx⟩ := hterm
      exact ⟨x, by unfold Table.Terminate; rw [hx]; rfl⟩
    · obtain ⟨x, hx⟩ := hterm
      exact ⟨x, by unfold Table.MoveBegin; rw [moveBeginPrecs_eq, hx]; rfl⟩
    · obtain ⟨x, hx⟩ := hterm
      exact ⟨x, by unfold Table.MoveUntil; rw [moveUntilPrecs_eq, hx]; rfl⟩

/-- C22 at concrete inputs: a Start without a transaction, and a Change on a
record that was never read. -/
theorem writer_precs_fail_first_witness :
    (∃ x, (demoNew "v").Start demoEngine 1 Now "T" none freshDB = (.error (.err x), freshDB)) ∧
    (∃ x, (demoNew "v").Change demoEngine Now "T" (some ()) freshDB =
      (.error (.err x), freshDB)) :=
  ⟨(writer_precs_fail_first demoEngine (demoNew "v") 1 Now "T" none freshDB).1
      (Or.inr (Or.inr (Or.inl rfl))),
   ((writer_precs_fail_first demoEngine (demoNew "v") 1 Now "T" (some ()) freshDB).2
      (Or.inr (Or.inr (Or.inr rfl)))).1⟩

/-- C21 (MoveBegin does not record the mover on the predecessor). The table
holds P = `[2100, 2150)` and Old = `[2150, 2200)`, both created by A, Old stored
as read. MoveBegin at ts = 2170 succeeds and returns Old.pkey; P survives and
then ends at ts, but its `createdby` is still A: the update of until writes
`until`, `ended` and `endedby` (with the value read from P, here empty) and no
`createdby`, so the assignment of the mover T to CreatedBy has no effect. -/
theorem moveBegin_drops_created_by :
    rowA.until_ = some (demoWith rowB "y").Old.Std.Begin ∧
    (demoWith rowB "y").recordOf rowB = (demoWith rowB "y").Old ∧
    ((demoWith rowB "y").MoveBegin demoEngine "2170-01-01 00:00:00.000" "T" (some ())
        (demoDB [rowA, rowB])).1 = .ok 2 ∧
    ((demoWith rowB "y").MoveBegin demoEngine "2170-01-01 00:00:00.000" "T" (some ())
        (demoDB [rowA, rowB])).2.rows.filter (fun r => decide (r.pkey = 1)) =
      [{ rowA with until_ := some "2170-01-01 00:00:00.000",
                   ended := some "2026-11-04 10:00:00.005",
                   endedby := some "" }] ∧
    rowA.createdby = "A" := by
  decide

/-- C23 (ByTs does not always select by ts). The descriptor's New.Std.Begin is
the keyword Now, as a Start at Now leaves it. (a) The table holds
`[2100, 2150)`, `[2150, 2200)` and `[2200, open)` and ts = 2120: the statement
compares begin with the clock instead of ts, binds ts once, and selects
nothing, although the first version is valid at ts; the same descriptor with an
empty New.Std.Begin binds ts twice and selects that version. (b) The table
holds `[2000, 2010)` and `[2010, open)` and ts = 2005: both versions are
selected, although only the first is valid at ts. -/
theorem byTs_compares_with_clock :
    (((demoTable.withNew { Begin := Now }).byTsAndXsStmt "2120-01-01 00:00:00.000" []).1 =
        "select id,begin,until,pkey,created,createdby,ended,endedby,str2 from ttest" ++
        " where begin<=strftime('%Y-%m-%d %H:%M:%f','now')" ++
        " and (until is null or until>strftime('%Y-%m-%d %H:%M:%f',?)) order by id,begin;" ∧
      ((demoTable.withNew { Begin := Now }).byTsAndXsStmt "2120-01-01 00:00:00.000" []).2 =
        [.text "2120-01-01 00:00:00.000"] ∧
      (demoTable.byTsAndXsStmt "2120-01-01 00:00:00.000" []).2 =
        [.text "2120-01-01 00:00:00.000", .text "2120-01-01 00:00:00.000"] ∧
      ((demoTable.withNew { Begin := Now }).ByTs demoEngine true "2120-01-01 00:00:00.000"
          (demoDB [rowA, rowB, rowC])).1 = .ok [] ∧
      (demoTable.ByTs demoEngine true "2120-01-01 00:00:00.000"
          (demoDB [rowA, rowB, rowC])).1 = .ok [demoTable.recordOf rowA]) ∧
    (((demoTable.withNew { Begin := Now }).ByTs demoEngine true "2005-01-01 00:00:00.000"
          (demoDB [rowOld, rowValid])).1 =
        .ok [demoTable.recordOf rowOld, demoTable.recordOf rowValid] ∧
      (demoTable.ByTs demoEngine true "2005-01-01 00:00:00.000"
          (demoDB [rowOld, rowValid])).1 = .ok [demoTable.recordOf rowOld]) := by
  refine ⟨⟨rfl, ?_⟩, ?_⟩ <;> decide

/-! ## Creating the tables -/

/-- What Table.Create does once its preconditions hold, probe by probe and
statement by statement. -/
theorem Create_eval (d : Driver) (t : Table α) (hn : t.Name ≠ "") :
    t.Create d true =
      if d.accepts [] t.probeText = true then
        if d.accepts [t.probeText] t.probeIDText = true then
          (none, [t.probeText, t.probeIDText])
        else (some (.tableExists t.Name (t.Name ++ "id")), [t.probeText, t.probeIDText])
      else
        if d.accepts [t.probeText] t.probeIDText = true then
          (some (.tableExists (t.Name ++ "id") t.Name), [t.probeText, t.probeIDText])
        else if d.accepts [t.probeText, t.probeIDText] t.createTableText = false then
          (some (.creatingTable t.createTableText),
            [t.probeText, t.probeIDText, t.createTableText])
        else if d.accepts [t.probeText, t.probeIDText, t.createTableText]
            t.createIDTableText = false then
          (some (.creatingTable t.createIDTableText),
            [t.probeText, t.probeIDText, t.createTableText, t.createIDTableText])
        else if d.accepts [t.probeText, t.probeIDText, t.createTableText, t.createIDTableText]
            t.indexIDBeginText = false then
          (some (.creatingIndex t.indexIDBeginText),
            [t.probeText, t.probeIDText, t.createTableText, t.createIDTableText,
             t.indexIDBeginText])
        else if d.accepts [t.probeText, t.probeIDText, t.createTableText, t.createIDTableText,
            t.indexIDBeginText] t.indexIDUntilText = false then
          (some (.creatingIndex t.indexIDUntilText),
            [t.probeText, t.probeIDText, t.createTableText, t.createIDTableText,
             t.indexIDBeginText, t.indexIDUntilText])
        else
          (none,
            [t.probeText, t.probeIDText, t.createTableText, t.createIDTableText,
             t.indexIDBeginText, t.indexIDUntilText]) := by
  cases h1 : d.accepts [] t.probeText <;>
  cases h2 : d.accepts [t.probeText] t.probeIDText <;>
  cases h3 : d.accepts [t.probeText, t.probeIDText] t.createTableText <;>
  cases h4 : d.accepts [t.probeText, t.probeIDText, t.createTableText] t.createIDTableText <;>
  cases h5 : d.accepts [t.probeText, t.probeIDText, t.createTableText, t.createIDTableText]
    t.indexIDBeginText <;>
  cases h6 : d.accepts [t.probeText, t.probeIDText, t.createTableText, t.createIDTableText,
    t.indexIDBeginText] t.indexIDUntilText <;>
  simp [Table.Create, Table.createPrecs, hn, Table.exists_, Driver.exec, Table.create,
    Table.createTable, Table.createIDTable, Table.createIndexIDBegin,
    Table.createIndexIDUntil, h1, h2, h3, h4, h5, h6]

/-- C24, as amended. Table.Create is idempotent and three-way: if both probe
queries (on T and on Tid) succeed, Create returns success and issues no create
statement; if exactly one succeeds, it fails with an error that names the table
whose probe failed as missing and the other as existing, and issues no create
statement; if both fail, it issues, in this order, create table T, create
table Tid, create unique index Tidxidbegin and create index Tidxiduntil, but
stops at the first of them that the database refuses and returns its error, so
that all four are issued, and success is returned, exactly when the first three
are accepted (the fourth decides between success and error). -/
theorem create_three_way (d : Driver) (t : Table α) (hn : t.Name ≠ "") :
    (d.accepts [] t.probeText = true → d.accepts [t.probeText] t.probeIDText = true →
      t.Create d true = (none, [t.probeText, t.probeIDText])) ∧
    (d.accepts [] t.probeText = true → d.accepts [t.probeText] t.probeIDText = false →
      t.Create d true =
        (some (.tableExists t.Name (t.Name ++ "id")), [t.probeText, t.probeIDText])) ∧
    (d.accepts [] t.probeText = false → d.accepts [t.probeText] t.probeIDText = true →
      t.Create d true =
        (some (.tableExists (t.Name ++ "id") t.Name), [t.probeText, t.probeIDText])) ∧
    (d.accepts [] t.probeText = false → d.accepts [t.probeText] t.probeIDText = false →
      (d.accepts [t.probeText, t.probeIDText] t.createTableText = true →
        d.accepts [t.probeText, t.probeIDText, t.createTableText] t.createIDTableText = true →
        d.accepts [t.probeText, t.probeIDText, t.createTableText, t.createIDTableText]
          t.indexIDBeginText = true →
        (t.Create d true).2 =
          [t.probeText, t.probeIDText, t.createTableText, t.createIDTableText,
           t.indexIDBeginText, t.indexIDUntilText] ∧
        ((t.Create d true).1 = none ↔
          d.accepts [t.probeText, t.probeIDText, t.createTableText, t.createIDTableText,
            t.indexIDBeginText] t.indexIDUntilText = true)) ∧
      (d.accepts [t.probeText, t.probeIDText] t.createTableText = false →
        t.Create d true =
          (some (.creatingTable t.createTableText),
            [t.probeText, t.probeIDText, t.createTableText])) ∧
      (d.accepts [t.probeText, t.probeIDText] t.createTableText = true →
        d.accepts [t.probeText, t.probeIDText, t.createTableText] t.createIDTableText = false →
        t.Create d true =
          (some (.creatingTable t.createIDTableText),
            [t.probeText, t.probeIDText, t.createTableText, t.createIDTableText])) ∧
      (d.accepts [t.probeText, t.probeIDText] t.createTableText = true →
        d.accepts [t.probeText, t.probeIDText, t.createTableText] t.createIDTableText = true →
        d.accepts [t.probeText, t.probeIDText, t.createTableText, t.createIDTableText]
          t.indexIDBeginText = false →
        t.Create d true =
          (some (.creatingIndex t.indexIDBeginText),
            [t.probeText, t.probeIDText, t.createTableText, t.createIDTableText,
             t.indexIDBeginText]))) := by
  rw [Create_eval d t hn]
  refine ⟨?_, ?_, ?_, ?_⟩
  · intro h1 h2
    simp [h1, h2]
  · intro h1 h2
    simp [h1, h2]
  · intro h1 h2
    simp [h1, h2]
  · intro h1 h2
    refine ⟨?_, ?_, ?_, ?_⟩
    · intro h3 h4 h5
      cases h6 : d.accepts [t.probeText, t.probeIDText, t.createTableText, t.createIDTableText,
          t.indexIDBeginText] t.indexIDUntilText <;>
        simp [h1, h2, h3, h4, h5, h6]
    · intro h3
      simp [h1, h2, h3]
    · intro h3 h4
      simp [h1, h2, h3, h4]
    · intro h3 h4 h5
      simp [h1, h2, h3, h4, h5]

/-- C24 at a concrete input: the sample table on a database that has neither
table and accepts the create statements. -/
theorem create_three_way_witness :
    demoTable.Name ≠ "" ∧
    (demoTable.Create freshDriver true).2 =
      [demoTable.probeText, demoTable.probeIDText, demoTable.createTableText,
       demoTable.createIDTableText, demoTable.indexIDBeginText, demoTable.indexIDUntilText] :=
  ⟨by decide,
    ((create_three_way freshDriver demoTable (by decide)).2.2.2 rfl rfl).1 rfl rfl rfl |>.1⟩

/-- C24 as stated fails when the database refuses a create statement. Both
probes fail and the definition of the version table is refused: Create issues
the two probes and create table T, returns the error of that statement, and
issues neither create table Tid nor the two create index statements. -/
theorem create_three_way_counterexample :
    refusingDriver.accepts [] demoTable.probeText = false ∧
    refusingDriver.accepts [demoTable.probeText] demoTable.probeIDText = false ∧
    demoTable.Create refusingDriver true =
      (some (.creatingTable demoTable.createTableText),
        [demoTable.probeText, demoTable.probeIDText, demoTable.createTableText]) :=
  ⟨rfl, rfl, rfl⟩

/-! ## Timestamps: validation and classification -/

/-- What CmpTmspNow computes. -/
theorem CmpTmspNow_eval (e : Engine) (tmsp : String) (db : DB) :
    CmpTmspNow e tmsp db =
      if len tmsp < 19 then (.error (.err (.tooShort "tmsp")), db)
      else
        match e.seconds (first19 tmsp) with
        | none => (.error (.err .scanningRow), db.next)
        | some s =>
          (.ok (decide (e.clockSeconds db.tick - s > 0), decide (e.clockSeconds db.tick - s = 0),
            decide (e.clockSeconds db.tick - s < 0)), db.next) := by
  unfold CmpTmspNow
  by_cases h : len tmsp < 19
  · rw [if_pos h, if_pos h]
  · rw [if_neg h, if_neg h]
    cases hs : e.seconds (first19 tmsp) with
    | none => rfl
    | some s =>
      simp only []
      by_cases h1 : e.clockSeconds db.tick - s > 0
      · have h2 : ¬ e.clockSeconds db.tick - s = 0 := by omega
        have h3 : ¬ e.clockSeconds db.tick - s < 0 := by omega
        simp [h1, h2, h3]
      · by_cases h2 : e.clockSeconds db.tick - s = 0
        · simp [h2]
        · have h3 : e.clockSeconds db.tick - s < 0 := by omega
          simp [h1, h2, h3]

/-- What CmpTmspRef computes. -/
theorem CmpTmspRef_eval (e : Engine) (tmsp ref : String) (db : DB) :
    CmpTmspRef e tmsp ref db =
      if len ref < 19 then (.error (.err (.tooShort "ref")), db)
      else if len tmsp < 19 then (.error (.err (.tooShort "tmsp")), db)
      else
        match e.seconds (first19 ref), e.seconds (first19 tmsp) with
        | some r, some s =>
          (.ok (decide (r - s > 0), decide (r - s = 0), decide (r - s < 0)), db.next)
        | _, _ => (.error (.err .scanningRow), db.next) := by
  unfold CmpTmspRef
  by_cases h : len ref < 19
  · rw [if_pos h, if_pos h]
  · rw [if_neg h, if_neg h]
    by_cases h' : len tmsp < 19
    · rw [if_pos h', if_pos h']
    · rw [if_neg h', if_neg h']
      cases hr : e.seconds (first19 ref) with
      | none => rfl
      | some r =>
        cases hs : e.seconds (first19 tmsp) with
        | none => rfl
        | some s =>
          simp only []
          by_cases h1 : r - s > 0
          · have h2 : ¬ r - s = 0 := by omega
            have h3 : ¬ r - s < 0 := by omega
            simp [h1, h2, h3]
          · by_cases h2 : r - s = 0
            · simp [h2]
            · have h3 : r - s < 0 := by omega
              simp [h1, h2, h3]

/-- C26, as amended. Timestamp classification: CmpTmspNow(s) and
CmpTmspRef(tmsp, ref) fail with a 'too short' error and without a query
whenever an input has fewer than 19 bytes, which for ASCII text are the
characters; otherwise they pass only the first 19 bytes of each input to the
database and, on success, exactly one of past, present, future is true: past
iff the database's difference (now or ref minus tmsp, in seconds) is positive,
present iff it is zero, future iff it is negative. A call with inputs of at
least 19 bytes succeeds exactly when the database has the seconds of each
slice. -/
theorem cmpTmsp_classifies (e : Engine) (tmsp ref : String) (db : DB) :
    (len tmsp < 19 → CmpTmspNow e tmsp db = (.error (.err (.tooShort "tmsp")), db)) ∧
    ((len tmsp < 19 ∨ len ref < 19) →
      ∃ name, CmpTmspRef e tmsp ref db = (.error (.err (.tooShort name)), db)) ∧
    (19 ≤ len tmsp → ∀ past present future,
      ((CmpTmspNow e tmsp db).1 = .ok (past, present, future) ↔
        ∃ s, e.seconds (first19 tmsp) = some s ∧
          (past = true ↔ e.clockSeconds db.tick - s > 0) ∧
          (present = true ↔ e.clockSeconds db.tick - s = 0) ∧
          (future = true ↔ e.clockSeconds db.tick - s < 0))) ∧
    (19 ≤ len tmsp → 19 ≤ len ref → ∀ past present future,
      ((CmpTmspRef e tmsp ref db).1 = .ok (past, present, future) ↔
        ∃ r s, e.seconds (first19 ref) = some r ∧ e.seconds (first19 tmsp) = some s ∧
          (past = true ↔ r - s > 0) ∧ (present = true ↔ r - s = 0) ∧
          (future = true ↔ r - s < 0))) ∧
    (∀ past present future,
      (CmpTmspNow e tmsp db).1 = .ok (past, present, future) ∨
        (CmpTmspRef e tmsp ref db).1 = .ok (past, present, future) →
      (past = true ∧ present = false ∧ future = false) ∨
      (past = false ∧ present = true ∧ future = false) ∨
      (past = false ∧ present = false ∧ future = true)) ∧
    ((∀ c ∈ tmsp.data, c.toNat < 128) → len tmsp = tmsp.length) ∧
    ((∀ c ∈ ref.data, c.toNat < 128) → len ref = ref.length) := by
  have hnow : 19 ≤ len tmsp → ∀ past present future,
      ((CmpTmspNow e tmsp db).1 = .ok (past, present, future) ↔
        ∃ s, e.seconds (first19 tmsp) = some s ∧
          (past = true ↔ e.clockSeconds db.tick - s > 0) ∧
          (present = true ↔ e.clockSeconds db.tick - s = 0) ∧
          (future = true ↔ e.clockSeconds db.tick - s < 0)) := by
    intro h past present future
    rw [CmpTmspNow_eval, if_neg (Nat.not_lt.mpr h)]
    cases hs : e.seconds (first19 tmsp) with
    | none => simp
    | some s =>
      simp only [Except.ok.injEq, Prod.mk.injEq, Option.some.injEq, exists_eq_left']
      constructor
      · rintro ⟨rfl, rfl, rfl⟩
        simp
      · rintro ⟨h1, h2, h3⟩
        refine ⟨?_, ?_, ?_⟩
        · rw [Bool.eq_iff_iff]; simpa using h1.symm
        · rw [Bool.eq_iff_iff]; simpa using h2.symm
        · rw [Bool.eq_iff_iff]; simpa using h3.symm
  have href : 19 ≤ len tmsp → 19 ≤ len ref → ∀ past present future,
      ((CmpTmspRef e tmsp ref db).1 = .ok (past, present, future) ↔
        ∃ r s, e.seconds (first19 ref) = some r ∧ e.seconds (first19 tmsp) = some s ∧
          (past = true ↔ r - s > 0) ∧ (present = true ↔ r - s = 0) ∧
          (future = true ↔ r - s < 0)) := by
    intro h h' past present future
    rw [CmpTmspRef_eval, if_neg (Nat.not_lt.mpr h'), if_neg (Nat.not_lt.mpr h)]
    cases hr : e.seconds (first19 ref) with
    | none => simp
    | some r =>
      cases hs : e.seconds (first19 tmsp) with
      | none => simp
      | some s =>
        simp only [Except.ok.injEq, Prod.mk.injEq, Option.some.injEq]
        constructor
        · rintro ⟨rfl, rfl, rfl⟩
          exact ⟨r, s, rfl, rfl, by simp, by simp, by simp⟩
        · rintro ⟨r1, s1, rfl, rfl, h1, h2, h3⟩
          refine ⟨?_, ?_, ?_⟩
          · rw [Bool.eq_iff_iff]; simpa using h1.symm
          · rw [Bool.eq_iff_iff]; simpa using h2.symm
          · rw [Bool.eq_iff_iff]; simpa using h3.symm
  have hone : ∀ (n : Int) (past present future : Bool),
      (past = true ↔ n > 0) → (present = true ↔ n = 0) → (future = true ↔ n < 0) →
      (past = true ∧ present = false ∧ future = false) ∨
      (past = false ∧ present = true ∧ future = false) ∨
      (past = false ∧ present = false ∧ future = true) := by
    intro n past present future h1 h2 h3
    rcases lt_trichotomy n 0 with h | h | h
    · right; right
      refine ⟨?_, ?_, h3.mpr h⟩
      · cases past with
        | false => rfl
        | true => have := h1.mp rfl; omega
      · cases present with
        | false => rfl
        | true => have := h2.mp rfl; omega
    · right; left
      refine ⟨?_, h2.mpr h, ?_⟩
      · cases past with
        | false => rfl
        | true => have := h1.mp rfl; omega
      · cases future with
        | false => rfl
        | true => have := h3.mp rfl; omega
    · left
      refine ⟨h1.mpr h, ?_, ?_⟩
      · cases present with
        | false => rfl
        | true => have := h2.mp rfl; omega
      · cases future with
        | false => rfl
        | true => have := h3.mp rfl; omega
  refine ⟨?_, ?_, hnow, href, ?_, len_ascii tmsp, len_ascii ref⟩
  · intro h
    rw [CmpTmspNow_eval, if_pos h]
  · intro h
    rw [CmpTmspRef_eval]
    by_cases hr : len ref < 19
    · exact ⟨"ref", by rw [if_pos hr]⟩
    · have ht : len tmsp < 19 := by
        rcases h with h | h
        · exact h
        · exact absurd h hr
      exact ⟨"tmsp", by rw [if_neg hr, if_pos ht]⟩
  · intro past present future h
    rcases h with h | h
    · by_cases hl : len tmsp < 19
      · rw [CmpTmspNow_eval, if_pos hl] at h
        simp at h
      · obtain ⟨s, _, h1, h2, h3⟩ := (hnow (Nat.le_of_not_lt hl) past present future).mp h
        exact hone _ past present future h1 h2 h3
    · by_cases hl : len tmsp < 19
      · rw [CmpTmspRef_eval] at h
        split_ifs at h
      · by_cases hl' : len ref < 19
        · rw [CmpTmspRef_eval, if_pos hl'] at h
          simp at h
        · obtain ⟨r, s, _, _, h1, h2, h3⟩ :=
            (href (Nat.le_of_not_lt hl) (Nat.le_of_not_lt hl') past present future).mp h
          exact hone _ past present future h1 h2 h3

/-- C26 at concrete inputs: ten bytes are too short; 2015 is past of the
sample clock; 2015 is past of the reference 2016. -/
theorem cmpTmsp_classifies_witness :
    CmpTmspNow demoEngine "2015-01-01" freshDB =
      (.error (.err (.tooShort "tmsp")), freshDB) ∧
    (CmpTmspNow demoEngine "2015-01-01 11:33:44.987" freshDB).1 = .ok (true, false, false) ∧
    (CmpTmspRef demoEngine "2015-01-01 11:33:44.987" "2016-01-01 11:33:44.987" freshDB).1 =
      .ok (true, false, false) :=
  ⟨(cmpTmsp_classifies demoEngine "2015-01-01" "2016-01-01 11:33:44.987" freshDB).1
      (by decide),
   ((cmpTmsp_classifies demoEngine "2015-01-01 11:33:44.987" "2016-01-01 11:33:44.987"
      freshDB).2.2.1 (by decide) true false false).mpr ⟨2015, by decide, by decide⟩,
   ((cmpTmsp_classifies demoEngine "2015-01-01 11:33:44.987" "2016-01-01 11:33:44.987"
      freshDB).2.2.2.1 (by decide) (by decide) true false false).mpr
      ⟨2016, 2015, by decide, by decide, by decide⟩⟩

/-- C26 as stated fails for an input of fewer than 19 characters that has 19
bytes. The string `2015-01-01 11:33:é` has 18 characters, the last of which
takes two bytes; it passes the length test of CmpTmspNow and of CmpTmspRef,
the statement is issued with these 19 bytes as parameter, and the error is
'error scanning row', not 'too short'. -/
theorem cmpTmsp_classifies_counterexample :
    "2015-01-01 11:33:é".length = 18 ∧
    len "2015-01-01 11:33:é" = 19 ∧
    first19 "2015-01-01 11:33:é" = bytes "2015-01-01 11:33:é" ∧
    CmpTmspNow demoEngine "2015-01-01 11:33:é" freshDB =
      (.error (.err .scanningRow), freshDB.next) ∧
    CmpTmspRef demoEngine "2015-01-01 11:33:é" "2016-01-01 11:33:44" freshDB =
      (.error (.err .scanningRow), freshDB.next) := by
  decide

/-- C25, as amended. Tmsp(Now) returns the string of CurrentTmsp with present =
true and past = future = false; for every other input, Tmsp returns an error
if IsTmsp reports it invalid ('not a valid timestamp') or if it is shorter
than 19 characters, so the empty string is always rejected; otherwise it
returns what CmpTmspNow answers: the input unchanged as out together with the
classification when CmpTmspNow succeeds, and the error of CmpTmspNow when the
database has no seconds for the first 19 characters of the input (its first
19 bytes, a valid timestamp being ASCII text). -/
theorem Tmsp_cases (e : Engine) (inp : String) (db : DB) :
    Tmsp e Now db = (.ok ((CurrentTmsp e db).1.toOption.getD "", false, true, false), db.next) ∧
    (CurrentTmsp e db).1 = .ok (e.clock db.tick) ∧
    (inp ≠ Now → (IsTmsp e inp db).1 = .ok false →
      (Tmsp e inp db).1 = .error (.err .notValidTimestamp)) ∧
    (inp ≠ Now → inp.length < 19 → ∃ x, (Tmsp e inp db).1 = .error x) ∧
    (∃ x, (Tmsp e "" db).1 = .error x) ∧
    (inp ≠ Now → (IsTmsp e inp db).1 = .ok true → 19 ≤ inp.length →
      (Tmsp e inp db).1 = (CmpTmspNow e inp db.next).1.map (fun c => (inp, c)) ∧
      (∀ c, (CmpTmspNow e inp db.next).1 = .ok c → (Tmsp e inp db).1 = .ok (inp, c)) ∧
      (∀ x, (CmpTmspNow e inp db.next).1 = .error x → (Tmsp e inp db).1 = .error x) ∧
      ((∃ x, (CmpTmspNow e inp db.next).1 = .error x) ↔ e.seconds (first19 inp) = none)) := by
  have hshort : ∀ s : String, s ≠ Now → s.length < 19 → ∃ x, (Tmsp e s db).1 = .error x := by
    intro s hn hl
    rw [Tmsp_eval e s db hn]
    by_cases h1 : (e.formatTmsp s).isSome = false
    · exact ⟨_, by rw [if_pos h1]⟩
    · exact ⟨_, by rw [if_neg h1, if_pos hl]⟩
  refine ⟨?_, rfl, ?_, hshort inp, hshort "" (by decide) (by decide), ?_⟩
  · rw [Tmsp_now]
    rfl
  · intro hn h
    have hf : (e.formatTmsp inp).isSome = false := by simpa [IsTmsp] using h
    rw [Tmsp_eval e inp db hn, if_pos hf]
  · intro hn hv hl
    have hf : ¬ (e.formatTmsp inp).isSome = false := by
      have : (e.formatTmsp inp).isSome = true := by simpa [IsTmsp] using hv
      simp [this]
    have hl' : ¬ inp.length < 19 := Nat.not_lt.mpr hl
    have hb : len inp = inp.length := len_valid e inp (by simpa [IsTmsp] using hv)
    have key : (Tmsp e inp db).1 = (CmpTmspNow e inp db.next).1.map (fun c => (inp, c)) := by
      rw [Tmsp_eval e inp db hn, if_neg hf, if_neg hl', CmpTmspNow_eval, hb, if_neg hl']
      cases hs : e.seconds (first19 inp) with
      | none => rfl
      | some s =>
        simp only [DB.next]
        by_cases h1 : e.clockSeconds (db.tick + 1) - s > 0
        · have h2 : ¬ e.clockSeconds (db.tick + 1) - s = 0 := by omega
          have h3 : ¬ e.clockSeconds (db.tick + 1) - s < 0 := by omega
          simp [h1, h2, h3, Except.map]
        · by_cases h2 : e.clockSeconds (db.tick + 1) - s = 0
          · simp [h2, Except.map]
          · have h3 : e.clockSeconds (db.tick + 1) - s < 0 := by omega
            simp [h1, h2, h3, Except.map]
    refine ⟨key, ?_, ?_, ?_⟩
    · intro c hc
      rw [key, hc]
      rfl
    · intro x hx
      rw [key, hx]
      rfl
    · rw [CmpTmspNow_eval, hb, if_neg hl']
      cases hs : e.seconds (first19 inp) with
      | none => simp
      | some s => simp

/-- C25 at concrete inputs: `xyz9` is invalid; a date of ten characters is too
short; 2015 is returned unchanged and classified as past. -/
theorem Tmsp_cases_witness :
    (Tmsp demoEngine "xyz9-01-01 00:00:00.00" freshDB).1 = .error (.err .notValidTimestamp) ∧
    (∃ x, (Tmsp demoEngine "2015-01-01" freshDB).1 = .error x) ∧
    (Tmsp demoEngine "2015-01-01 11:33:44.987" freshDB).1 =
      .ok ("2015-01-01 11:33:44.987", true, false, false) :=
  ⟨(Tmsp_cases demoEngine "xyz9-01-01 00:00:00.00" freshDB).2.2.1 (by decide) (by decide),
   (Tmsp_cases demoEngine "2015-01-01" freshDB).2.2.2.1 (by decide) (by decide),
   ((Tmsp_cases demoEngine "2015-01-01 11:33:44.987" freshDB).2.2.2.2.2 (by decide)
      (by decide) (by decide)).2.1 (true, false, false) (by decide)⟩

/-- C25 as stated fails for a valid timestamp whose first 19 characters are no
time value. The timestamp `2999-01-01 11:33+01:00` has 22 characters and IsTmsp
reports it valid, yet Tmsp does not return it: the database has no seconds for
`2999-01-01 11:33+01`, the difference to the clock is NULL, and Tmsp returns
the error 'error scanning row' of CmpTmspNow. -/
theorem Tmsp_cases_counterexample :
    "2999-01-01 11:33+01:00" ≠ Now ∧
    (IsTmsp zoneEngine "2999-01-01 11:33+01:00" freshDB).1 = .ok true ∧
    19 ≤ "2999-01-01 11:33+01:00".length ∧
    first19 "2999-01-01 11:33+01:00" = bytes "2999-01-01 11:33+01" ∧
    Tmsp zoneEngine "2999-01-01 11:33+01:00" freshDB =
      (.error (.err .scanningRow), freshDB.after 2) := by
  decide

/-! ## The query text in the errors of Table.Query -/

theorem replacePercent_length (s : String) : (replacePercent s).length = s.length := by
  cases s with
  | mk l => exact List.length_map _ _

theorem replacePercent_free (s : String) : '%' ∉ (replacePercent s).data := by
  intro hm
  obtain ⟨c, _, h⟩ := List.mem_map.mp hm
  by_cases hc : c = '%'
  · rw [if_pos hc] at h
    exact absurd h (by decide)
  · rw [if_neg hc] at h
    exact hc h

/-- The loop of Table.Query fails only with a scan error or an iteration error,
each carrying the query text it was given. -/
theorem scanRows_error (query : String) (iterErr : Bool) :
    ∀ (scans : List (Option (Record α))) (recs : List (Record α)) (x : Err),
      scanRows query iterErr scans recs = .error x →
      (x = .scanQuery query ∧ none ∈ scans) ∨ (x = .nextQuery query ∧ iterErr = true) := by
  intro scans
  induction scans with
  | nil =>
    intro recs x h
    unfold scanRows at h
    split_ifs at h with hi
    simp only [Except.error.injEq] at h
    exact Or.inr ⟨h.symm, hi⟩
  | cons a rest ih =>
    intro recs x h
    cases a with
    | none =>
      unfold scanRows at h
      simp only [Except.error.injEq] at h
      exact Or.inl ⟨h.symm, by simp⟩
    | some rec =>
      unfold scanRows at h
      rcases ih _ x h with ⟨h1, h2⟩ | h1
      · exact Or.inl ⟨h1, by simp [h2]⟩
      · exact Or.inr h1

/-- C27. Query text in error messages is percent-free: for every query string
s, each error that Table.Query returns (query failure, scan failure,
row-iteration failure) carries as its Query variable the string obtained from
s by replacing every '%' with '_', which has the same length as s and contains
no '%'. -/
theorem query_error_percent_free (t : Table α) (s : String) (a : Answer α) (x : Err)
    (h : t.QueryText s a = .error x) :
    ((a = .refused ∧ x = .executingQuery (replacePercent s)) ∨
      (∃ scans iterErr, a = .rows scans iterErr ∧ none ∈ scans ∧
        x = .scanQuery (replacePercent s)) ∨
      (∃ scans, a = .rows scans true ∧ x = .nextQuery (replacePercent s))) ∧
    (replacePercent s).data = s.data.map (fun c => if c = '%' then '_' else c) ∧
    (replacePercent s).length = s.length ∧
    '%' ∉ (replacePercent s).data := by
  refine ⟨?_, rfl, replacePercent_length s, replacePercent_free s⟩
  unfold Table.QueryText at h
  cases a with
  | refused =>
    simp only [Except.error.injEq] at h
    exact Or.inl ⟨rfl, h.symm⟩
  | rows scans iterErr =>
    simp only at h
    rcases scanRows_error _ _ scans [] x h with ⟨h1, h2⟩ | ⟨h1, h2⟩
    · exact Or.inr (Or.inl ⟨scans, iterErr, rfl, h2, h1⟩)
    · exact Or.inr (Or.inr ⟨scans, by rw [h2], h1⟩)

/-- C27 at a concrete input: the validity probe of a timestamp, refused by the
driver. -/
theorem query_error_percent_free_witness :
    demoTable.QueryText "select strftime('%Y-%m-%d %H:%M:%f',?);" .refused =
      .error (.executingQuery "select strftime('_Y-_m-_d _H:_M:_f',?);") ∧
    (replacePercent "select strftime('%Y-%m-%d %H:%M:%f',?);").length =
      "select strftime('%Y-%m-%d %H:%M:%f',?);".length :=
  ⟨by decide,
   (query_error_percent_free demoTable "select strftime('%Y-%m-%d %H:%M:%f',?);" .refused
      (.executingQuery "select strftime('_Y-_m-_d _H:_M:_f',?);") (by decide)).2.2.1⟩

/-! ## MoveBegin on an open-ended version -/

theorem strLt_empty (s : String) (h : s ≠ "") : strLt "" s := by
  cases s with
  | mk l =>
    cases l with
    | nil => exact absurd rfl h
    | cons c rest => exact List.nil_lt_cons c rest

/-- C28. MoveBegin cannot move the begin of an open-ended version: for every
Old with an empty until and every non-empty ts different from Old.begin that
handleTs accepts, MoveBegin(ts) fails and changes no row; a call that passes
the prechecks fails with 'not allowed' right after handleTs, before the re-read,
because the rejection test ts > Old.until compares with the empty string. -/
theorem moveBegin_open_ended_refused (e : Engine) (t : Table α) (ts creator out : String)
    (tx : Option Tx) (db : DB)
    (hu : t.Old.Std.Until = "") (hts : ts ≠ "") (hne : ts ≠ t.Old.Std.Begin)
    (hacc : (handleTs e ts db).1 = .ok out) :
    strLt t.Old.Std.Until ts ∧
    (∃ x, (t.MoveBegin e ts creator tx db).1 = .error (.err x)) ∧
    (t.MoveBegin e ts creator tx db).2.rows = db.rows ∧
    (t.MoveBegin e ts creator tx db).2.ids = db.ids ∧
    (t.moveBeginPrecs ts creator tx = none →
      t.MoveBegin e ts creator tx db =
        (.error (.err .notAllowed), db.after (handleTicks ts))) := by
  have hlt : strLt t.Old.Std.Until ts := by
    rw [hu]
    exact strLt_empty ts hts
  have hpass : t.moveBeginPrecs ts creator tx = none →
      t.MoveBegin e ts creator tx db =
        (.error (.err .notAllowed), db.after (handleTicks ts)) := by
    intro hp
    unfold Table.MoveBegin
    simp only [hp, Table.moveBegin, bind_apply, handleTs_ok e ts out db hacc, if_neg hne,
      if_pos hlt, fail]
  refine ⟨hlt, ?_, ?_, ?_, hpass⟩
  · cases hp : t.moveBeginPrecs ts creator tx with
    | none => exact ⟨_, by rw [hpass hp]⟩
    | some x => exact ⟨x, by unfold Table.MoveBegin; rw [hp]; rfl⟩
  · cases hp : t.moveBeginPrecs ts creator tx with
    | none => rw [hpass hp]; rfl
    | some x => unfold Table.MoveBegin; rw [hp]; rfl
  · cases hp : t.moveBeginPrecs ts creator tx with
    | none => rw [hpass hp]; rfl
    | some x => unfold Table.MoveBegin; rw [hp]; rfl

/-- C28 at a concrete input: MoveBegin at 2250 on the open-ended version that
begins at 2200. -/
theorem moveBegin_open_ended_refused_witness :
    (demoWith rowC "z").MoveBegin demoEngine "2250-01-01 00:00:00.000" "T" (some ())
        (demoDB [rowA, rowB, rowC]) =
      (.error (.err .notAllowed), (demoDB [rowA, rowB, rowC]).after 2) :=
  (moveBegin_open_ended_refused demoEngine (demoWith rowC "z") "2250-01-01 00:00:00.000" "T"
    "2250-01-01 00:00:00.000" (some ()) (demoDB [rowA, rowB, rowC]) (by decide) (by decide)
    (by decide) (by decide)).2.2.2.2 (by decide)

/-! ## Start when the identity claim fails -/

/-- C29. Start does not undo its insert when the identity claim fails: whenever
Start's insert succeeds but useID is rejected (no identity row with that id,
created by `creator` and unused, exists), Start returns an error (and key 0)
while the version row it inserted is still in the table, so that the identity
then has one more version row than before the call; the identity table is
unchanged. -/
theorem start_keeps_row_on_failed_claim (e : Engine) (t : Table α) (id : Int)
    (ts creator out : String) (tx : Option Tx) (db dbi : DB) (key : Int)
    (hp : t.startPrecs id ts creator tx = none)
    (hts : (handleTs e ts db).1 = .ok out)
    (hins : (t.withNew { ID := id, Begin := ts, CreatedBy := creator }).ins e
      (db.after (handleTicks ts)) = (.ok key, dbi))
    (hno : ¬ ∃ i ∈ db.ids, i.id = id ∧ i.createdby = creator ∧ i.usedby = none) :
    t.Start e id ts creator tx db = (.error (.err .idTableNotUpdated), dbi.next) ∧
    (∃ row, row.id = id ∧ row.pkey = key ∧ row.createdby = creator ∧
      (t.Start e id ts creator tx db).2.rows = db.rows ++ [row]) ∧
    ((t.Start e id ts creator tx db).2.rows.filter (fun r => decide (r.id = id))).length =
      (db.rows.filter (fun r => decide (r.id = id))).length + 1 ∧
    (t.Start e id ts creator tx db).2.ids = db.ids := by
  obtain ⟨valsFn, b, _, _, _, _, hdb⟩ := ins_ok e _ _ _ _ hins
  have hids : dbi.ids = db.ids := by rw [hdb]; rfl
  have hS : t.Start e id ts creator tx db = (.error (.err .idTableNotUpdated), dbi.next) := by
    unfold Table.Start
    simp only [hp, Table.start, bind_apply, handleTs_ok e ts out db hts, hins, useID_eval]
    rw [if_neg]
    rw [hids]
    exact hno
  rw [hS]
  refine ⟨rfl, ?_, ?_, hids⟩
  · show ∃ row, row.id = id ∧ row.pkey = key ∧ row.createdby = creator ∧
      dbi.rows = db.rows ++ [row]
    rw [hdb]
    refine ⟨_, ?_, ?_, ?_, rfl⟩ <;> rfl
  · show (dbi.rows.filter _).length = _
    rw [hdb]
    have e1 : (t.withNew { ID := id, Begin := ts, CreatedBy := creator }).New.Std.ID = id := rfl
    simp only [DB.after, List.filter_append, List.length_append, e1]
    simp

/-- C29 at a concrete input: a Start of identity 1 by B, who did not create
it. -/
theorem start_keeps_row_on_failed_claim_witness :
    (demoNew "v").Start demoEngine 1 "2999-01-01 00:00:00.000" "B" (some ()) freshDB =
      (.error (.err .idTableNotUpdated),
        ((demoNew "v").Start demoEngine 1 "2999-01-01 00:00:00.000" "B" (some ())
          freshDB).2) ∧
    ((demoNew "v").Start demoEngine 1 "2999-01-01 00:00:00.000" "B" (some ())
          freshDB).2.rows.length = 1 :=
  ⟨(start_keeps_row_on_failed_claim demoEngine (demoNew "v") 1 "2999-01-01 00:00:00.000" "B"
      "2999-01-01 00:00:00.000" (some ()) freshDB
      (((demoNew "v").withNew
        { ID := 1, Begin := "2999-01-01 00:00:00.000", CreatedBy := "B" }).ins demoEngine
        (freshDB.after 2)).2 1
      (by decide) (by decide) (by decide) (by decide)).1.trans (by decide),
   by decide⟩

/-! ## The keyword Now in the tests against Old -/

/-- The keyword Now is neither below nor equal to a string that starts with a
decimal digit. -/
theorem now_above_digit (s : String) (c : Char) (rest : List Char)
    (hs : s.data = c :: rest) (hc : c.isDigit = true) : ¬ strLt Now s ∧ Now ≠ s := by
  have hlt : c < 'n' := by
    simp only [Char.isDigit, Bool.and_eq_true, decide_eq_true_eq] at hc
    obtain ⟨_, h2⟩ := hc
    have h3 : c.val.toNat ≤ 57 := h2
    show c.val.toNat < 'n'.val.toNat
    have : 'n'.val.toNat = 110 := by decide
    omega
  constructor
  · intro h
    have h' : ('n' :: ['o', 'w']) < c :: rest := by
      have : Now.data < s.data := h
      rw [hs] at this
      exact this
    cases h' with
    | cons h1 => exact lt_irrefl _ hlt
    | rel h1 => exact lt_asymm h1 hlt
  · intro h
    have h1 : Now.data = s.data := by rw [h]
    rw [hs] at h1
    have h2 : 'n' = c := by
      have := List.cons.inj h1
      exact this.1
    rw [h2] at hlt
    exact lt_irrefl _ hlt

theorem never_bind {β γ : Type} {m : M β} {f : β → M γ} (hm : NeverNotAllowed m)
    (hf : ∀ a, NeverNotAllowed (f a)) : NeverNotAllowed (m >>= f) := by
  intro db
  rw [bind_apply]
  cases h : m db with
  | mk res db1 =>
    cases res with
    | ok a => exact hf a db1
    | error x =>
      have := hm db
      rw [h] at this
      simpa using this

theorem never_pure {β : Type} (a : β) : NeverNotAllowed (pure a : M β) := by
  intro db; simp [pure_apply]

theorem never_crash {β : Type} : NeverNotAllowed (crash : M β) := by
  intro db; simp [crash]

theorem never_Query (t : Table α) (sel : Row → Bool) : NeverNotAllowed (t.Query sel) := by
  intro db
  rcases Query_cases t sel db with ⟨l, h⟩ | h <;> rw [h] <;> simp

theorem never_del (t : Table α) : NeverNotAllowed t.del := by
  intro db
  rcases del_cases t db with h | ⟨db1, h, _⟩ <;> rw [h] <;> simp

theorem never_until (e : Engine) (t : Table α) : NeverNotAllowed (t.until_ e) := by
  intro db
  unfold Table.until_
  split_ifs <;> simp

theorem never_begin (e : Engine) (t : Table α) : NeverNotAllowed (t.begin e) := by
  intro db
  unfold Table.begin
  split_ifs
  · simp
  · split
    · simp
    · split_ifs <;> simp

/-- The follower loop of Terminate never ends with 'not allowed'. -/
theorem never_terminateLoop (e : Engine) (t : Table α) :
    ∀ (fuel : Nat) (next : Record α), NeverNotAllowed (t.terminateLoop e fuel next) := by
  intro fuel
  induction fuel with
  | zero => intro next db; simp [Table.terminateLoop, noFuel]
  | succ f ih =>
    intro next
    unfold Table.terminateLoop
    split_ifs with hk hu
    · exact never_pure _
    · refine never_bind (never_del _) fun _ => ?_
      refine never_bind (fun db => never_Query t _ db) fun nexts => ?_
      cases nexts with
      | nil => exact never_crash
      | cons n _ => exact ih n
    · exact never_bind (never_del _) fun _ => ih _

/-- The follower loop of MoveUntil never ends with 'not allowed'. -/
theorem never_moveUntilLoop (e : Engine) (t : Table α) (ts : String) :
    ∀ (fuel : Nat) (more : Bool) (next : Record α),
      NeverNotAllowed (t.moveUntilLoop e ts fuel more next) := by
  intro fuel
  induction fuel with
  | zero => intro more next db; simp [Table.moveUntilLoop, noFuel]
  | succ f ih =>
    intro more next
    unfold Table.moveUntilLoop
    split_ifs with hc hu
    · refine never_bind (never_del _) fun _ => ?_
      refine never_bind (fun db => never_Query t _ db) fun nexts => ?_
      cases nexts with
      | nil => exact ih false next
      | cons n _ => exact ih true n
    · exact never_bind (never_del _) fun _ => ih more next
    · exact never_pure _

theorem returnsKey_bind {β : Type} {k : Int} {m : M β} {f : β → M Int}
    (hm : NeverNotAllowed m) (hf : ∀ a, ReturnsKey k (f a)) : ReturnsKey k (m >>= f) := by
  intro db
  rw [bind_apply]
  cases h : m db with
  | mk res db1 =>
    cases res with
    | ok a => exact hf a db1
    | error x =>
      have := hm db
      rw [h] at this
      refine ⟨by simpa using this, ?_⟩
      intro key hk
      simp at hk

theorem returnsKey_pure (k : Int) : ReturnsKey k (pure k : M Int) := by
  intro db
  refine ⟨by simp [pure_apply], ?_⟩
  intro key hk
  simp only [pure_apply, Except.ok.injEq] at hk
  exact hk.symm

theorem returnsKey_fail (k : Int) (x : Err) (hx : x ≠ .notAllowed) :
    ReturnsKey k (fail x : M Int) := by
  intro db
  refine ⟨by simpa [fail] using hx, ?_⟩
  intro key hk
  simp [fail] at hk

theorem returnsKey_crash (k : Int) : ReturnsKey k (crash : M Int) := by
  intro db
  refine ⟨by simp [crash], ?_⟩
  intro key hk
  simp [crash] at hk

theorem returnsKey_ite {k : Int} {c : Prop} [Decidable c] {a b : M Int} (ha : ReturnsKey k a)
    (hb : ReturnsKey k b) : ReturnsKey k (if c then a else b) := by
  split_ifs
  · exact ha
  · exact hb

theorem returnsKey_pure_bind {β : Type} {k : Int} (a : β) {f : β → M Int}
    (hf : ReturnsKey k (f a)) : ReturnsKey k ((pure a : M β) >>= f) := by
  intro db
  rw [bind_apply, pure_apply]
  exact hf db

/-- After handleTs at the keyword Now the Writer goes on with the keyword
itself. -/
theorem returnsKey_handleTs_now (e : Engine) {k : Int} {f : String → M Int}
    (hf : ReturnsKey k (f Now)) : ReturnsKey k (handleTs e Now >>= f) := by
  intro db
  rw [bind_apply, handleTs_eval, if_pos rfl]
  exact hf db

theorem terminatePrecs_allowed (t : Table α) (ts c : String) (tx : Option Tx) (x : Err)
    (h : t.terminatePrecs ts c tx = some x) : x ≠ .notAllowed := by
  unfold Table.terminatePrecs writePrecs at h
  split at h
  · rename_i y hw
    split_ifs at hw <;> (intro hx; simp_all)
  · split_ifs at h <;> (intro hx; simp_all)

/-- C30. The keyword Now is compared unresolved: handleTs returns the keyword
itself for ts = Now, so in Terminate and MoveUntil the tests against Old.begin
are made on that literal; for every Old whose begin starts with a decimal
digit, the keyword is neither below nor equal to Old.begin, whatever the clock
says, so a call with ts = Now never ends with 'not allowed' (the branch
ts < Old.begin) and never takes the delete-on-collapse branch ts == Old.begin:
a successful call returns Old.pkey, which is not 0, and not the key 0 of that
branch. -/
theorem now_compared_unresolved (e : Engine) (t : Table α) (who : String) (tx : Option Tx)
    (db : DB) (c : Char) (rest : List Char)
    (hd : t.Old.Std.Begin.data = c :: rest) (hc : c.isDigit = true) :
    handleTs e Now db = (.ok Now, db) ∧
    ¬ strLt Now t.Old.Std.Begin ∧ Now ≠ t.Old.Std.Begin ∧
    (t.Terminate e Now who tx db).1 ≠ .error (.err .notAllowed) ∧
    (t.MoveUntil e Now who tx db).1 ≠ .error (.err .notAllowed) ∧
    (∀ key, (t.Terminate e Now who tx db).1 = .ok key → key = t.Old.Std.Pkey ∧ key ≠ 0) ∧
    (∀ key, (t.MoveUntil e Now who tx db).1 = .ok key → key = t.Old.Std.Pkey ∧ key ≠ 0) := by
  obtain ⟨hnlt, hneq⟩ := now_above_digit t.Old.Std.Begin c rest hd hc
  have hterm : ReturnsKey t.Old.Std.Pkey (t.terminate e Now who) := by
    unfold Table.terminate
    refine returnsKey_handleTs_now e ?_
    refine returnsKey_ite (returnsKey_pure _) ?_
    rw [if_neg hnlt]
    refine returnsKey_bind (never_Query t _) fun sames => ?_
    cases sames with
    | nil => exact returnsKey_crash _
    | cons same _ =>
      refine returnsKey_ite (returnsKey_fail _ _ (by decide))
        (returnsKey_ite (returnsKey_fail _ _ (by decide)) ?_)
      rw [if_neg hneq]
      refine returnsKey_bind (never_until e _) fun _ => returnsKey_pure_bind _ ?_
      refine returnsKey_ite ?_ (returnsKey_pure _)
      refine returnsKey_bind (fun db => never_Query t _ db) fun nexts => ?_
      cases nexts with
      | nil => exact returnsKey_crash _
      | cons next _ =>
        refine returnsKey_ite (returnsKey_pure _) ?_
        refine returnsKey_bind ?_ fun _ => returnsKey_pure _
        intro db
        exact never_terminateLoop e t _ next db
  have hmove : ReturnsKey t.Old.Std.Pkey (t.moveUntil e Now who) := by
    unfold Table.moveUntil
    refine returnsKey_handleTs_now e ?_
    refine returnsKey_ite (returnsKey_pure _) ?_
    rw [if_neg hnlt]
    refine returnsKey_bind (never_Query t _) fun sames => ?_
    cases sames with
    | nil => exact returnsKey_crash _
    | cons same _ =>
      refine returnsKey_ite (returnsKey_fail _ _ (by decide))
        (returnsKey_ite (returnsKey_fail _ _ (by decide)) ?_)
      rw [if_neg hneq]
      refine returnsKey_bind (never_until e _) fun _ => returnsKey_pure_bind _ ?_
      refine returnsKey_ite ?_ (returnsKey_pure _)
      refine returnsKey_bind (fun db => never_Query t _ db) fun nexts => ?_
      cases nexts with
      | nil => exact returnsKey_pure _
      | cons first _ =>
        dsimp only
        refine returnsKey_ite
          (returnsKey_bind ?_ fun next =>
            returnsKey_bind (never_begin e _) fun _ => returnsKey_pure _)
          (returnsKey_pure_bind _
            (returnsKey_bind (never_begin e _) fun _ => returnsKey_pure _))
        intro db
        exact never_moveUntilLoop e t Now _ true first db
  have hT : (t.Terminate e Now who tx db).1 ≠ .error (.err .notAllowed) ∧
      ∀ key, (t.Terminate e Now who tx db).1 = .ok key → key = t.Old.Std.Pkey ∧ key ≠ 0 := by
    unfold Table.Terminate
    cases hp : t.terminatePrecs Now who tx with
    | some x =>
      have := terminatePrecs_allowed t Now who tx x hp
      simp only [fail]
      exact ⟨by simpa using this, by intro key hk; simp at hk⟩
    | none =>
      obtain ⟨_, _, hk0, _⟩ := terminatePrecs_none t Now who tx hp
      refine ⟨(hterm db).1, ?_⟩
      intro key hk
      have := (hterm db).2 key hk
      exact ⟨this, by rw [this]; exact hk0⟩
  have hM : (t.MoveUntil e Now who tx db).1 ≠ .error (.err .notAllowed) ∧
      ∀ key, (t.MoveUntil e Now who tx db).1 = .ok key → key = t.Old.Std.Pkey ∧ key ≠ 0 := by
    unfold Table.MoveUntil
    rw [moveUntilPrecs_eq]
    cases hp : t.terminatePrecs Now who tx with
    | some x =>
      have := terminatePrecs_allowed t Now who tx x hp
      simp only [fail]
      exact ⟨by simpa using this, by intro key hk; simp at hk⟩
    | none =>
      obtain ⟨_, _, hk0, _⟩ := terminatePrecs_none t Now who tx hp
      refine ⟨(hmove db).1, ?_⟩
      intro key hk
      have := (hmove db).2 key hk
      exact ⟨this, by rw [this]; exact hk0⟩
  refine ⟨?_, hnlt, hneq, hT.1, hM.1, hT.2, hM.2⟩
  rw [handleTs_eval, if_pos rfl]

/-- C30 at a concrete input: Old is the open-ended version that begins at 2200,
in the future of the sample clock, and ts is the keyword Now. Terminate is not
refused; it returns Old.pkey and closes Old at the clock reading, before Old
begins. -/
theorem now_compared_unresolved_witness :
    (∀ key, ((demoWith rowC "z").Terminate demoEngine Now "T" (some ())
        (demoDB [rowC])).1 = .ok key → key = 3 ∧ key ≠ 0) ∧
    ((demoWith rowC "z").Terminate demoEngine Now "T" (some ()) (demoDB [rowC])).1 = .ok 3 ∧
    ((demoWith rowC "z").Terminate demoEngine Now "T" (some ())
        (demoDB [rowC])).2.rows.map (fun r => (r.pkey, r.begin, r.until_)) =
      [(3, "2200-01-01 00:00:00.000", some "2026-11-04 10:00:00.001")] :=
  ⟨(now_compared_unresolved demoEngine (demoWith rowC "z") "T" (some ()) (demoDB [rowC])
      '2' "200-01-01 00:00:00.000".data (by decide) (by decide)).2.2.2.2.2.1,
   by decide, by decide⟩

end Livedb
